import Mathlib

/-!
# PCI configuration-space scanner (kernel/pci.c, include/pci.h)

A shallow embedding of the enumeration layer: the configuration access
primitives `pciread` / `pciwrite`, the per-function decoder `pciprobe`, the
bus sweep `pci_init` and the two directory queries `pci_get_nth` and
`pci_find`.

Conventions

* C `uint`, `uint32` values are natural numbers; where the C code truncates
  (a store into a `ushort` / `uchar` field, 32-bit wrap-around of `+ 1`) the
  embedding reduces modulo the width explicitly.
* The port primitives `outl` / `inl` come from `x86.h` and are not part of
  the two source files; they are a parameter (`Ports`), a deterministic
  machine over an arbitrary hardware state.
* A pointer `pci_infos + n` is the natural number `n`.
-/

namespace PCI

/-! ## Port input/output (external collaborator) -/

/-- Port-level hardware: `outl port value` and `inl port` over a hardware
state.  Both may change the state. -/
structure Ports (σ : Type) where
  outl : σ → Nat → Nat → σ
  inl : σ → Nat → Nat × σ

/-- The configuration address port, `#define ADDR 0xCF8`. -/
def ADDR : Nat := 0xCF8

/-- The configuration data port, `#define DATA 0xCFC`. -/
def DATA : Nat := 0xCFC

/-- Reduction of a value to the C type `uint32`. -/
def u32 (x : Nat) : Nat := x % 4294967296

/-- Reduction of a value to the C type `ushort`. -/
def u16 (x : Nat) : Nat := x % 65536

/-- Reduction of a value to the C type `uchar`. -/
def u8 (x : Nat) : Nat := x % 256

/-- Bitwise complement `~x` of a `uint32`. -/
def not32 (x : Nat) : Nat := 4294967295 - u32 x

/-! ## Configuration access: `pciread`, `pciwrite` -/

/-- The function `pciread(bus, dev, fn, reg)`: builds the address word, writes it
to the address port and reads the data port.  The result is the `uint32` read
and the hardware state afterwards. -/
def pciread {σ : Type} (M : Ports σ) (s : σ) (bus dev fn reg : Nat) : Nat × σ :=
  let n := u32 ((1 <<< 31) |||
    ((bus &&& 0xff) <<< 16) ||| ((dev &&& 0x1F) <<< 11) |||
    ((fn &&& 0x7) <<< 8) ||| (reg &&& 0xFC))
  let s1 := M.outl s ADDR n
  let r := M.inl s1 DATA
  (u32 r.1, r.2)

/-- The function `pciwrite(bus, dev, fn, reg, val)`: builds the address word,
writes it to the address port and writes `val` to the data port. -/
def pciwrite {σ : Type} (M : Ports σ) (s : σ) (bus dev fn reg val : Nat) : σ :=
  let n := u32 ((1 <<< 31) |||
    ((bus &&& 0xff) <<< 16) ||| ((dev &&& 0x1F) <<< 11) |||
    ((fn &&& 0x7) <<< 8) ||| (reg &&& 0xFC))
  let s1 := M.outl s ADDR n
  M.outl s1 DATA val

/-! ## The device record, `struct pci_info` -/

/-- The record `struct pci_info` of `pci.h`, field for field.  The arrays
`base[6]`, `size[6]`, `kind[6]` and `unused2[2]` are lists of that length. -/
structure pci_info where
  vendor_id : Nat
  device_id : Nat
  header_type : Nat
  class_code : Nat
  subclass : Nat
  unused1 : Nat
  prog_if : Nat
  rev_id : Nat
  int_pin : Nat
  int_line : Nat
  base : List Nat
  size : List Nat
  kind : List Nat
  unused2 : List Nat
deriving DecidableEq, Repr

/-- The record after `memset(pci, 0, sizeof(*pci))`. -/
def pci_zero : pci_info :=
  { vendor_id := 0, device_id := 0, header_type := 0, class_code := 0,
    subclass := 0, unused1 := 0, prog_if := 0, rev_id := 0, int_pin := 0,
    int_line := 0, base := [0, 0, 0, 0, 0, 0], size := [0, 0, 0, 0, 0, 0],
    kind := [0, 0, 0, 0, 0, 0], unused2 := [0, 0] }

/-! ## The directory and its queries -/

/-- Capacity of the directory, `#define PCIMAX 128`. -/
def PCIMAX : Nat := 128

/-- The directory state: the memory at `pci_infos[0]`, `pci_infos[1]`, ...
and the populated count `pci_count`. -/
structure Directory where
  pci_infos : Nat → pci_info
  pci_count : Nat

/-- The function `pci_get_nth(n)`: null (`none`) when `n >= pci_count`, else the
pointer `pci_infos + n`. -/
def pci_get_nth (d : Directory) (n : Nat) : Option Nat :=
  if n ≥ d.pci_count then none else some n

/-- The loop of `pci_find`, `for (; n < pci_count; n++)`, entered with `k`
iterations left (`k = pci_count - n`). -/
def pci_find_loop (d : Directory) (vendor device : Nat) : Nat → Nat → Option Nat
  | 0, _ => none
  | k + 1, n =>
    if (d.pci_infos n).vendor_id ≠ vendor then pci_find_loop d vendor device k (n + 1)
    else if (d.pci_infos n).device_id ≠ device then pci_find_loop d vendor device k (n + 1)
    else some n

/-- The function `pci_find(vendor, device)`: pointer to the first record below
`pci_count` matching both identity fields, or null. -/
def pci_find (d : Directory) (vendor device : Nat) : Option Nat :=
  pci_find_loop d vendor device d.pci_count 0

/-- Dereference of a record pointer returned by a query. -/
def deref (d : Directory) (p : Option Nat) : Option pci_info :=
  p.map d.pci_infos

/-! ## Stores into the BAR arrays of a record

The decode loop of `pciprobe` stores through `pci->base[i]`, `pci->size[i]`
and `pci->kind[i]` with `i` up to 6 (the continuation step increments `i`
without a bound check).  In `struct pci_info` the three arrays are laid out
back to back with no padding (`base` at byte 12, `size` at byte 36, `kind` at
byte 60, `unused2` at byte 66), so the element one past the end of an array is
the first element of the next field: `base[6]` is the word `size[0]`,
`size[6]` is the four bytes `kind[0..3]`, and `kind[6]` is `unused2[0]`.  The
stores below follow that layout for `i = 6`; larger indices do not occur. -/

/-- The load `pci->base[i]` for `i < 6`. -/
def load_base (p : pci_info) (i : Nat) : Nat := p.base.getD i 0

/-- The load `pci->size[i]` for `i < 6`. -/
def load_size (p : pci_info) (i : Nat) : Nat := p.size.getD i 0

/-- The load `pci->kind[i]` for `i < 6`. -/
def load_kind (p : pci_info) (i : Nat) : Nat := p.kind.getD i 0

/-- The store `pci->base[i] = v`. -/
def store_base (p : pci_info) (i v : Nat) : pci_info :=
  if i < 6 then { p with base := p.base.set i v }
  else if i = 6 then { p with size := p.size.set 0 v }
  else p

/-- The store `pci->size[i] = v`. -/
def store_size (p : pci_info) (i v : Nat) : pci_info :=
  if i < 6 then { p with size := p.size.set i v }
  else if i = 6 then
    { p with kind := (((p.kind.set 0 (u8 v)).set 1 (u8 (v >>> 8))).set 2
        (u8 (v >>> 16))).set 3 (u8 (v >>> 24)) }
  else p

/-- The store `pci->kind[i] = v`. -/
def store_kind (p : pci_info) (i v : Nat) : pci_info :=
  if i < 6 then { p with kind := p.kind.set i v }
  else if i = 6 then { p with unused2 := p.unused2.set 0 v }
  else p

/-! ## The BAR sizing formulas -/

/-- Size of an I/O-space BAR from the sizing readback `n`:
`(~(n & 0xFFFC) & 0xFFFF) + 1` in `uint32` arithmetic. -/
def io_size (n : Nat) : Nat := u32 ((not32 (n &&& 0xFFFC) &&& 0xFFFF) + 1)

/-- Size of a memory-space BAR from the sizing readback `n`:
`(~(n & 0xFFFFFFF0) & 0xFFFFFFFF) + 1` in `uint32` arithmetic. -/
def mem_size (n : Nat) : Nat := u32 ((not32 (n &&& 0xFFFFFFF0) &&& 0xFFFFFFFF) + 1)

/-! ## The decoder `pciprobe` -/

/-- State of the decode loop of `pciprobe`: the loop variable `i`, the
hardware state and the record under construction. -/
structure BarState (σ : Type) where
  i : Nat
  hw : σ
  pci : pci_info

/-- Lines 84-95 of `pci.c`: slot `i` is read, sized with an all-ones write,
restored, and decoded into `kind[i]`, `base[i]`, `size[i]`. -/
def bar_decode {σ : Type} (M : Ports σ) (bus dev fn : Nat) (st : BarState σ) : BarState σ :=
  let i := st.i
  let r1 := pciread M st.hw bus dev fn (0x10 + 4 * i)
  let p1 := store_base st.pci i r1.1
  let s2 := pciwrite M r1.2 bus dev fn (0x10 + 4 * i) 0xffffffff
  let r3 := pciread M s2 bus dev fn (0x10 + 4 * i)
  let n := r3.1
  let s4 := pciwrite M r3.2 bus dev fn (0x10 + 4 * i) (load_base p1 i)
  let p2 := store_kind p1 i (u8 (load_base p1 i &&& 0xF))
  let p3 :=
    if load_base p2 i &&& 1 ≠ 0 then
      store_size (store_base p2 i (load_base p2 i &&& 0xFFFC)) i (io_size n)
    else
      store_size (store_base p2 i (load_base p2 i &&& 0xFFFFFFF0)) i (mem_size n)
  { i := i, hw := s4, pci := p3 }

/-- Lines 97-101 of `pci.c`, the continuation step: `i++`, then the next
register is read verbatim into `base[i]` and `size[i]`, `kind[i]` are
cleared. -/
def bar_cont {σ : Type} (M : Ports σ) (bus dev fn : Nat) (st : BarState σ) : BarState σ :=
  let i := st.i + 1
  let r := pciread M st.hw bus dev fn (0x10 + 4 * i)
  let p1 := store_base st.pci i r.1
  let p2 := store_size p1 i 0
  let p3 := store_kind p2 i 0
  { i := i, hw := r.2, pci := p3 }

/-- One pass through the body of `for (i = 0; i < 6; i++)`, lines 84-102,
followed by the loop's own `i++`. -/
def bar_body {σ : Type} (M : Ports σ) (bus dev fn : Nat) (st : BarState σ) : BarState σ :=
  let st1 := bar_decode M bus dev fn st
  let st2 := if (load_kind st1.pci st1.i &&& 6) = 2 then bar_cont M bus dev fn st1 else st1
  { st2 with i := st2.i + 1 }

/-- The loop `for (...; i < 6; i++)` of `pciprobe`.  Every pass increases `i`,
so six passes from `i = 0` always reach the exit test `i < 6` failing; the
first argument bounds the number of passes. -/
def bar_loop {σ : Type} (M : Ports σ) (bus dev fn : Nat) : Nat → BarState σ → BarState σ
  | 0, st => st
  | k + 1, st => if st.i < 6 then bar_loop M bus dev fn k (bar_body M bus dev fn st) else st

/-- Lines 58-71 of `pci.c`: the record is zeroed and the identity, class and
header-type fields are read from registers 0x00, 0x08 and 0x0c. -/
def probe_ident {σ : Type} (M : Ports σ) (s : σ) (bus dev fn : Nat) : pci_info × σ :=
  let r0 := pciread M s bus dev fn 0x00
  let p1 := { pci_zero with device_id := u16 (r0.1 >>> 16), vendor_id := u16 r0.1 }
  let r8 := pciread M r0.2 bus dev fn 0x08
  let p2 := { p1 with class_code := u8 (r8.1 >>> 24), subclass := u8 (r8.1 >>> 16),
                      prog_if := u8 (r8.1 >>> 8), rev_id := u8 r8.1 }
  let rc := pciread M r8.2 bus dev fn 0x0c
  ({ p2 with header_type := u8 (rc.1 >>> 24) }, rc.2)

/-- State on entry to the decode loop (lines 81-83): the command register
0x04 has been read and then written with 0, and `i = 0`. -/
def bar_entry {σ : Type} (M : Ports σ) (s : σ) (bus dev fn : Nat) (p : pci_info) : BarState σ :=
  let r4 := pciread M s bus dev fn 0x04
  { i := 0, hw := pciwrite M r4.2 bus dev fn 0x04 0, pci := p }

/-- Lines 81-107 of `pci.c`, `case 0x00`: save and clear the command
register, decode the six BAR slots, restore the command register and read the
interrupt pin and line from register 0x3c. -/
def probe_device {σ : Type} (M : Ports σ) (s : σ) (bus dev fn : Nat) (p : pci_info) :
    pci_info × σ :=
  let r4 := pciread M s bus dev fn 0x04
  let st := bar_loop M bus dev fn 6 (bar_entry M s bus dev fn p)
  let s6 := pciwrite M st.hw bus dev fn 0x04 r4.1
  let r3c := pciread M s6 bus dev fn 0x3c
  ({ st.pci with int_pin := u8 (r3c.1 >>> 8), int_line := u8 r3c.1 }, r3c.2)

/-- The function `pciprobe(bus, dev, fun, pci)`: the record stored through `pci`
and the hardware state afterwards.  The diagnostic `cprintf` calls have no
effect on either. -/
def pciprobe {σ : Type} (M : Ports σ) (s : σ) (bus dev fn : Nat) : pci_info × σ :=
  let r := probe_ident M s bus dev fn
  if r.1.header_type &&& 0x7F = 0x00 then probe_device M r.2 bus dev fn r.1
  else if r.1.header_type &&& 0x7F = 0x01 then r
  else r

/-! ## The bus sweep `pci_init` -/

/-- State of `pci_init`: the hardware, the local `fun`, the write pointer
`pci` (as the offset `pci - pci_infos`), the memory of the directory, and
whether `goto done` has been taken. -/
structure ScanState (σ : Type) where
  hw : σ
  fn : Nat
  pci : Nat
  pci_infos : Nat → pci_info
  stop : Bool

/-- The call `pciprobe(bus, dev, fn, pci++)`: the record is stored at the
write pointer, which then advances by one record. -/
def probe_append {σ : Type} (M : Ports σ) (bus dev fn : Nat) (st : ScanState σ) :
    ScanState σ :=
  let r := pciprobe M st.hw bus dev fn
  { st with hw := r.2, pci_infos := Function.update st.pci_infos st.pci r.1,
            pci := st.pci + 1 }

/-- The loop `for (fun = 1; fun < 8; fun++)` of lines 148-153, as
`fun_loop k fn`: `k` passes are left and the loop variable is `fn`. -/
def fun_loop {σ : Type} (M : Ports σ) (bus dev : Nat) : Nat → Nat → ScanState σ → ScanState σ
  | 0, fn, st => { st with fn := fn }
  | k + 1, fn, st =>
    let r := pciread M st.hw bus dev fn 0
    let st1 := { st with hw := r.2, fn := fn }
    if r.1 ≠ 0xFFFFFFFF then
      let st2 := probe_append M bus dev fn st1
      if st2.pci > PCIMAX then { st2 with stop := true }
      else fun_loop M bus dev k (fn + 1) st2
    else fun_loop M bus dev k (fn + 1) st1

/-- Lines 147-154: the multifunction test reads register 12 of function `fun`
(whatever the local holds) and, when bit 23 is set, sweeps functions 1..7. -/
def multifunction {σ : Type} (M : Ports σ) (bus dev : Nat) (st : ScanState σ) : ScanState σ :=
  let r := pciread M st.hw bus dev st.fn 12
  let st1 := { st with hw := r.2 }
  if r.1 &&& 0x00800000 ≠ 0 then fun_loop M bus dev 7 1 st1 else st1

/-- Lines 142-154, the body of the device loop. -/
def dev_body {σ : Type} (M : Ports σ) (bus dev : Nat) (st : ScanState σ) : ScanState σ :=
  let r := pciread M st.hw bus dev 0 0
  let st1 := { st with hw := r.2 }
  if r.1 ≠ 0xFFFFFFFF then
    let st2 := probe_append M bus dev 0 st1
    if st2.pci > PCIMAX then { st2 with stop := true }
    else multifunction M bus dev st2
  else multifunction M bus dev st1

/-- The loop `for (dev = 0; dev < 32; dev++)`, as `dev_loop k dev`: `k` passes
are left and the loop variable is `dev`.  A taken `goto done` leaves it. -/
def dev_loop {σ : Type} (M : Ports σ) (bus : Nat) : Nat → Nat → ScanState σ → ScanState σ
  | 0, _, st => st
  | k + 1, dev, st =>
    let st1 := dev_body M bus dev st
    if st1.stop then st1 else dev_loop M bus k (dev + 1) st1

/-- The loop `for (bus = 0; bus < 256; bus++)`, as `bus_loop k bus`. -/
def bus_loop {σ : Type} (M : Ports σ) : Nat → Nat → ScanState σ → ScanState σ
  | 0, _, st => st
  | k + 1, bus, st =>
    let st1 := dev_loop M bus 32 0 st
    if st1.stop then st1 else bus_loop M k (bus + 1) st1

/-- The final scan state of `pci_init`, started on hardware state `s` with the
uninitialised local `fun` holding `fun0` and the directory memory `mem`. -/
def pci_scan {σ : Type} (M : Ports σ) (s : σ) (fun0 : Nat) (mem : Nat → pci_info) :
    ScanState σ :=
  bus_loop M 256 0 { hw := s, fn := fun0, pci := 0, pci_infos := mem, stop := false }

/-- The function `pci_init()`: the directory it leaves behind,
`pci_count = pci - pci_infos`. -/
def pci_init {σ : Type} (M : Ports σ) (s : σ) (fun0 : Nat) (mem : Nat → pci_info) :
    Directory :=
  let st := pci_scan M s fun0 mem
  { pci_infos := st.pci_infos, pci_count := st.pci }


/-! ## Concrete hardware used for evaluation -/

/-- Hardware given by the sequence of values its data port returns: each `inl`
takes the next value of the script (all-ones once it is exhausted); port
writes are ignored. -/
def scripted : Ports (List Nat) where
  outl s _ _ := s
  inl s _ := match s with
    | [] => (0xFFFFFFFF, [])
    | v :: t => (v, t)

/-- Read-only configuration space: the state is the latched address word, a
read of the data port returns `f` of it, and data writes are ignored. -/
def rom (f : Nat → Nat) : Ports Nat where
  outl s p v := if p = ADDR then v else s
  inl s _ := (f s, s)

/-- A bus on which function 0 of every (bus, device) is present: register 0
reads 0x100E8086 and every other register reads 0. -/
def crowded : Ports Nat := rom (fun a => if a &&& 0xFC = 0 then 0x100E8086 else 0)

/-! ## Auxiliary notions for the statements -/

/-- The address word `n` that `pciread` and `pciwrite` send to the address
port for `(bus, dev, fn, reg)`. -/
def cfg_addr (bus dev fn reg : Nat) : Nat :=
  u32 ((1 <<< 31) |||
    ((bus &&& 0xff) <<< 16) ||| ((dev &&& 0x1F) <<< 11) |||
    ((fn &&& 0x7) <<< 8) ||| (reg &&& 0xFC))

/-- The arrays of a record have the lengths declared in `struct pci_info`. -/
def pci_info.wf (p : pci_info) : Prop :=
  p.base.length = 6 ∧ p.size.length = 6 ∧ p.kind.length = 6 ∧ p.unused2.length = 2

/-- The loop states at the head of each pass of the decode loop, in order:
a slot is decoded as a BAR in its own right exactly when a pass starts with
`i` equal to it. -/
def bar_iters {σ : Type} (M : Ports σ) (bus dev fn : Nat) : Nat → BarState σ → List (BarState σ)
  | 0, _ => []
  | k + 1, st =>
    if st.i < 6 then st :: bar_iters M bus dev fn k (bar_body M bus dev fn st) else []

/-- One configuration access as seen on the port pair: a data-port read or
write together with the address word latched at that moment. -/
inductive Access where
  | rd (addr val : Nat)
  | wr (addr val : Nat)
deriving DecidableEq, Repr

/-- Hardware state extended with a bus monitor: the last address word written
to the address port and the log of configuration accesses, oldest first. -/
structure Mon (σ : Type) where
  hw : σ
  latch : Nat
  log : List Access

/-- The hardware `M` observed by a bus monitor.  The monitor only listens: the
underlying hardware sees the same port operations and answers as before. -/
def monitor {σ : Type} (M : Ports σ) : Ports (Mon σ) where
  outl m p v :=
    if p = ADDR then { hw := M.outl m.hw p v, latch := v, log := m.log }
    else if p = DATA then
      { hw := M.outl m.hw p v, latch := m.latch, log := m.log ++ [Access.wr m.latch v] }
    else { hw := M.outl m.hw p v, latch := m.latch, log := m.log }
  inl m p :=
    if p = DATA then
      ((M.inl m.hw p).1,
        { hw := (M.inl m.hw p).2, latch := m.latch,
          log := m.log ++ [Access.rd m.latch (M.inl m.hw p).1] })
    else ((M.inl m.hw p).1, { hw := (M.inl m.hw p).2, latch := m.latch, log := m.log })

/-- A monitor attached to hardware state `s`, with an empty log. -/
def Mon.start {σ : Type} (s : σ) : Mon σ := { hw := s, latch := 0, log := [] }

/-- The loop state of a monitored run with the monitor removed. -/
def BarState.unmon {σ : Type} (st : BarState (Mon σ)) : BarState σ :=
  { i := st.i, hw := st.hw.hw, pci := st.pci }

/-- Every configuration write in the log segment `ext` goes to the register
of a BAR slot `j` of function `(bus, dev, fn)` with `lo ≤ j < hi`. -/
def BarWrites (bus dev fn lo hi : Nat) (ext : List Access) : Prop :=
  ∀ a v, Access.wr a v ∈ ext → ∃ j, lo ≤ j ∧ j < hi ∧ a = cfg_addr bus dev fn (0x10 + 4 * j)

/-- Both identity fields of the record at index `n` match. -/
def id_match (d : Directory) (vendor device n : Nat) : Prop :=
  (d.pci_infos n).vendor_id = vendor ∧ (d.pci_infos n).device_id = device

instance (d : Directory) (vendor device n : Nat) : Decidable (id_match d vendor device n) := by
  unfold id_match; infer_instance

/-- A small directory: three populated slots, a virtio function followed by two
network functions with the same identity. -/
def demo_dir : Directory :=
  { pci_infos := fun n =>
      if n = 0 then { pci_zero with vendor_id := 0x1AF4, device_id := 0x1000 }
      else { pci_zero with vendor_id := 0x8086, device_id := 0x100E },
    pci_count := 3 }

/-- The reads answered to `pciprobe` by a header-type-0 function with identity
8086:100E, in the order `pciprobe` issues them: registers 0x00, 0x08, 0x0c,
0x04, then operational value and sizing readback of BAR0 (0xFEBC0004,
0xFFFF0000), of BAR1 (the two arguments) and of BAR2..BAR5 (all zero), then
register 0x3c. -/
def e1000_script (bar1 bar1_mask : Nat) : List Nat :=
  [0x100E8086, 0x02000003, 0x00000000, 0x00000007,
   0xFEBC0004, 0xFFFF0000, bar1, bar1_mask,
   0, 0, 0, 0, 0, 0, 0, 0, 0x0000010B]

/-- The reads answered to `pciprobe` by a function whose register 0x0c reads
0x00800000: header-type byte (bits 23-16) 0x80, a multifunction device with
layout 0, and BIST byte (bits 31-24) 0.  All BARs read zero. -/
def multifunction_script : List Nat :=
  [0x100E8086, 0x02000003, 0x00800000, 0x00000007,
   0, 0, 0, 0, 0, 0, 0, 0, 0, 0, 0, 0, 0x0000010B]

/-- The reads answered to `pciprobe` by a header-type-0 function whose BAR0
has bits 2-1 equal to `01`: registers 0x00, 0x08, 0x0c, 0x04, then BAR0
(operational value 0x000A0002, sizing readback 0xFFFF0002), the single read of
BAR1 (0x0000C001), operational value and sizing readback of BAR2..BAR5 (zero),
then register 0x3c. -/
def below1m_script : List Nat :=
  [0x100E8086, 0x02000003, 0x00000000, 0x00000007,
   0x000A0002, 0xFFFF0002, 0x0000C001,
   0, 0, 0, 0, 0, 0, 0, 0, 0x0000010B]

/-- The state in which a monitored `pciprobe` of a header-type-0 function
enters the decode loop. -/
def probe_entry {σ : Type} (M : Ports σ) (s : σ) (bus dev fn : Nat) : BarState (Mon σ) :=
  bar_entry (monitor M) (probe_ident (monitor M) (Mon.start s) bus dev fn).2 bus dev fn
    (probe_ident (monitor M) (Mon.start s) bus dev fn).1

/-- The reads answered to `pciprobe` by a header-type-0 function whose last
BAR has bits 2-1 equal to `01`: registers 0x00, 0x08, 0x0c, 0x04, then
operational value and sizing readback of BAR0 (the two arguments), of
BAR1..BAR4 (zero) and of BAR5 (0x000A0002, 0xFFFF0002), then the read that the
continuation step issues (answered 0x12345678), then register 0x3c. -/
def overrun_script (bar0 bar0_mask : Nat) : List Nat :=
  [0x100E8086, 0x02000003, 0x00000000, 0x00000007,
   bar0, bar0_mask, 0, 0, 0, 0, 0, 0, 0, 0,
   0x000A0002, 0xFFFF0002, 0x12345678, 0x0000010B]

/-- The reads answered to `pciprobe` by a header-type-0 function whose BAR0
is an I/O BAR with bit 1 set: registers 0x00, 0x08, 0x0c, 0x04, then BAR0
(operational value 0x0000C003, sizing readback 0xFFFFFFE3), the single read of
BAR1 (0xFEBC0000), operational value and sizing readback of BAR2..BAR5 (zero),
then register 0x3c. -/
def io_bit1_script : List Nat :=
  [0x100E8086, 0x02000003, 0x00000000, 0x00000007,
   0x0000C003, 0xFFFFFFE3, 0xFEBC0000,
   0, 0, 0, 0, 0, 0, 0, 0, 0x0000010B]

/-- Whether an access is a write with address word `addr`. -/
def Access.writes_to (a : Access) (addr : Nat) : Bool :=
  match a with
  | Access.wr x _ => x == addr
  | Access.rd _ _ => false

/-! ## The scanner that tests function 0

The reference scanner for the stale-variable question: `pci_init` with the
multifunction test of line 147 reading register 12 of function 0 instead of
function `fun`.  Everything else is as in `pci_init`. -/

/-- Lines 147-154 with `pciread(bus, dev, 0, 12)` as the test. -/
def multifunction_fn0 {σ : Type} (M : Ports σ) (bus dev : Nat) (st : ScanState σ) :
    ScanState σ :=
  let r := pciread M st.hw bus dev 0 12
  let st1 := { st with hw := r.2 }
  if r.1 &&& 0x00800000 ≠ 0 then fun_loop M bus dev 7 1 st1 else st1

/-- The body of the device loop of the reference scanner. -/
def dev_body_fn0 {σ : Type} (M : Ports σ) (bus dev : Nat) (st : ScanState σ) : ScanState σ :=
  let r := pciread M st.hw bus dev 0 0
  let st1 := { st with hw := r.2 }
  if r.1 ≠ 0xFFFFFFFF then
    let st2 := probe_append M bus dev 0 st1
    if st2.pci > PCIMAX then { st2 with stop := true }
    else multifunction_fn0 M bus dev st2
  else multifunction_fn0 M bus dev st1

/-- The device loop of the reference scanner. -/
def dev_loop_fn0 {σ : Type} (M : Ports σ) (bus : Nat) : Nat → Nat → ScanState σ → ScanState σ
  | 0, _, st => st
  | k + 1, dev, st =>
    let st1 := dev_body_fn0 M bus dev st
    if st1.stop then st1 else dev_loop_fn0 M bus k (dev + 1) st1

/-- The bus loop of the reference scanner. -/
def bus_loop_fn0 {σ : Type} (M : Ports σ) : Nat → Nat → ScanState σ → ScanState σ
  | 0, _, st => st
  | k + 1, bus, st =>
    let st1 := dev_loop_fn0 M bus 32 0 st
    if st1.stop then st1 else bus_loop_fn0 M k (bus + 1) st1

/-- The final scan state of the reference scanner. -/
def pci_scan_fn0 {σ : Type} (M : Ports σ) (s : σ) (fun0 : Nat) (mem : Nat → pci_info) :
    ScanState σ :=
  bus_loop_fn0 M 256 0 { hw := s, fn := fun0, pci := 0, pci_infos := mem, stop := false }

/-- The directory the reference scanner leaves behind. -/
def pci_init_fn0 {σ : Type} (M : Ports σ) (s : σ) (fun0 : Nat) (mem : Nat → pci_info) :
    Directory :=
  let st := pci_scan_fn0 M s fun0 mem
  { pci_infos := st.pci_infos, pci_count := st.pci }

/-- The values the stale local `fun` can hold at a multifunction test: its
initial value or 8. -/
def stale_fun (fun0 : Nat) {σ : Type} (st : ScanState σ) : Prop := st.fn = fun0 ∨ st.fn = 8

/-- The record `p` carries the identity of a function whose register 0, `id0`
of its address, does not read all-ones. -/
def from_present (id0 : Nat → Nat → Nat → Nat) (p : pci_info) : Prop :=
  ∃ b d f, id0 b d f ≠ 0xFFFFFFFF ∧ p.vendor_id = u16 (id0 b d f) ∧
    p.device_id = u16 (id0 b d f >>> 16)

/-- Every record below the write pointer comes from a present function. -/
def recorded_present {σ : Type} (id0 : Nat → Nat → Nat → Nat) (st : ScanState σ) : Prop :=
  ∀ n, n < st.pci → from_present id0 (st.pci_infos n)

/-! ## The scan as a list of probe results

The directory contents as the in-order concatenation of probe results, to be
compared with what `pci_init` leaves in `pci_infos`.  Reads may change the
hardware state, so each step passes the state on; the pair `(state, fun)`
carries the hardware state and the value of the local `fun`. -/

/-- One function: its register 0 is read, and it contributes exactly one
record, the result of `pciprobe`, when the value is not all-ones, and none
otherwise. -/
def scan_fun {σ : Type} (M : Ports σ) (bus dev fn : Nat) (s : σ) : List pci_info × σ :=
  let r := pciread M s bus dev fn 0
  if r.1 ≠ 0xFFFFFFFF then ([(pciprobe M r.2 bus dev fn).1], (pciprobe M r.2 bus dev fn).2)
  else ([], r.2)

/-- The functions of a list, in the order of the list. -/
def scan_funs {σ : Type} (M : Ports σ) (bus dev : Nat) : List Nat → σ → List pci_info × σ
  | [], s => ([], s)
  | fn :: fns, s =>
    let a := scan_fun M bus dev fn s
    let b := scan_funs M bus dev fns a.2
    (a.1 ++ b.1, b.2)

/-- The multifunction sweep of one device: when the test on register 12
succeeds, functions 1..7 in ascending order. -/
def scan_sweep {σ : Type} (M : Ports σ) (bus dev : Nat) (x : σ × Nat) :
    List pci_info × (σ × Nat) :=
  let t := pciread M x.1 bus dev x.2 12
  if t.1 &&& 0x00800000 ≠ 0 then
    let b := scan_funs M bus dev (List.range' 1 7) t.2
    (b.1, (b.2, 8))
  else ([], (t.2, x.2))

/-- One device: function 0, then the multifunction sweep. -/
def scan_device {σ : Type} (M : Ports σ) (bus dev : Nat) (x : σ × Nat) :
    List pci_info × (σ × Nat) :=
  let a := scan_fun M bus dev 0 x.1
  let b := scan_sweep M bus dev (a.2, x.2)
  (a.1 ++ b.1, b.2)

/-- The devices of a list of (bus, device) pairs, in the order of the list. -/
def scan_devices {σ : Type} (M : Ports σ) :
    List (Nat × Nat) → σ × Nat → List pci_info × (σ × Nat)
  | [], x => ([], x)
  | bd :: rest, x =>
    let a := scan_device M bd.1 bd.2 x
    let r := scan_devices M rest a.2
    (a.1 ++ r.1, r.2)

/-- The (bus, device) pairs of `k` buses from `bus` on, in ascending order:
all 32 devices of a bus before the next bus. -/
def devices_from (bus k : Nat) : List (Nat × Nat) :=
  (List.range' bus k).flatMap (fun b => (List.range' 0 32).map (fun d => (b, d)))

/-- The probe results of the whole configuration space, in ascending
(bus, device) order. -/
def scan_records {σ : Type} (M : Ports σ) (s : σ) (fun0 : Nat) : List pci_info :=
  (scan_devices M (devices_from 0 256) (s, fun0)).1

/-- The directory memory `mem` with the records of a list stored in
consecutive slots from `start` on. -/
def write_list (mem : Nat → pci_info) (start : Nat) : List pci_info → Nat → pci_info
  | [] => mem
  | x :: l => write_list (Function.update mem start x) (start + 1) l

/-- The scan state after the records `recs` have been appended, with hardware
state `hw` and local `fun` equal to `fn`. -/
def ScanState.after {σ : Type} (st : ScanState σ) (recs : List pci_info) (hw : σ) (fn : Nat) :
    ScanState σ :=
  { hw := hw, fn := fn, pci := st.pci + recs.length,
    pci_infos := write_list st.pci_infos st.pci recs, stop := st.stop }

/-- The reads answered by a configuration space with a single function,
(0, 0, 0), of header type 0 and identity 8086:100E: the presence read of
`pci_init`, the reads of `pciprobe` (registers 0x00, 0x08, 0x0c, 0x04, six
BARs reading zero, register 0x3c) and the multifunction test (bit 23 clear).
Every later read is answered all-ones. -/
def solo_script : List Nat :=
  [0x100E8086, 0x100E8086, 0x02000003, 0x00000000, 0x00000007,
   0, 0, 0, 0, 0, 0, 0, 0, 0, 0, 0, 0, 0x0000010B, 0x00000000]

/-! ## Hardware that restores on write-back -/

/-- The hardware model of the idempotence question.  `E s t` says that the
states `s` and `t` hold the same register contents.  Reads return the contents
and leave them alone, writes respect `E`, and writing back to a register the
value read from it before it was overwritten restores the contents. -/
structure Restoring {σ : Type} (M : Ports σ) (E : σ → σ → Prop) : Prop where
  refl : ∀ s, E s s
  symm : ∀ s t, E s t → E t s
  trans : ∀ s t u, E s t → E t u → E s u
  read_val : ∀ s t bus dev fn reg, E s t →
    (pciread M s bus dev fn reg).1 = (pciread M t bus dev fn reg).1
  read_st : ∀ s bus dev fn reg, E (pciread M s bus dev fn reg).2 s
  write_congr : ∀ s t bus dev fn reg v, E s t →
    E (pciwrite M s bus dev fn reg v) (pciwrite M t bus dev fn reg v)
  write_back : ∀ s bus dev fn reg x,
    E (pciwrite M (pciwrite M s bus dev fn reg x) bus dev fn reg (pciread M s bus dev fn reg).1) s

/-- Two loop states with the same `i`, the same record and the same register
contents. -/
def BarState.same {σ : Type} (E : σ → σ → Prop) (st st' : BarState σ) : Prop :=
  st.i = st'.i ∧ st.pci = st'.pci ∧ E st.hw st'.hw

/-- A register file: the state is the address latch and the value last
written to each register; register `a` reads `(v & mask a) | ro a` for the
value `v` last written, so `mask a` are its writable bits and `ro a` its
hard-wired bits. -/
def regfile (mask ro : Nat → Nat) : Ports (Nat × (Nat → Nat)) where
  outl s p v :=
    if p = ADDR then (v, s.2)
    else if p = DATA then (s.1, Function.update s.2 s.1 v)
    else s
  inl s p := if p = DATA then (u32 ((s.2 s.1 &&& mask s.1) ||| ro s.1), s) else (0xFFFFFFFF, s)

/-- Equal register contents of two register-file states: every register reads
the same. -/
def regfile_same (mask ro : Nat → Nat) (s t : Nat × (Nat → Nat)) : Prop :=
  ∀ a, u32 ((s.2 a &&& mask a) ||| ro a) = u32 ((t.2 a &&& mask a) ||| ro a)

/-- Writable bits of the registers of function (0, 3, 0): the low half of the
command register 0x04 and the address bits of a 64 KiB BAR0. -/
def e1000_mask (a : Nat) : Nat :=
  if a = 0x80001804 then 0xFFFF else if a = 0x80001810 then 0xFFFF0000 else 0

/-- Hard-wired bits of the registers of function (0, 3, 0): identity, class
and interrupt pin and line. -/
def e1000_ro (a : Nat) : Nat :=
  if a = 0x80001800 then 0x100E8086
  else if a = 0x80001808 then 0x02000003
  else if a = 0x8000183C then 0x0000010B
  else 0

/-- Register values before the probe: command 7 and BAR0 at 0xFEBC0000. -/
def e1000_regs (a : Nat) : Nat :=
  if a = 0x80001804 then 7 else if a = 0x80001810 then 0xFEBC0000 else 0

/-! # Properties -/

/-! ## Basic facts: machine integers and the address word -/

theorem u32_lt (x : Nat) : u32 x < 4294967296 := Nat.mod_lt _ (by decide)

theorem u32_idem (x : Nat) : u32 (u32 x) = u32 x := by
  unfold u32; omega

theorem u32_of_lt {x : Nat} (h : x < 4294967296) : u32 x = x := Nat.mod_eq_of_lt h

theorem pciread_lt {σ : Type} (M : Ports σ) (s : σ) (bus dev fn reg : Nat) :
    (pciread M s bus dev fn reg).1 < 4294967296 := u32_lt _

/-- The expression `n` of `pciread` / `pciwrite` in arithmetic form: the enable
bit, then the bus, device, function and register fields at their bit
positions. -/
theorem addr_word_eq (bus dev fn reg : Nat) :
    (1 <<< 31) ||| ((bus &&& 0xff) <<< 16) ||| ((dev &&& 0x1F) <<< 11) |||
        ((fn &&& 0x7) <<< 8) ||| (reg &&& 0xFC) =
      2147483648 + (bus % 256) * 65536 + (dev % 32) * 2048 + (fn % 8) * 256 +
        (reg &&& 0xFC) := by
  have hb : bus &&& 0xff = bus % 256 := Nat.and_pow_two_sub_one_eq_mod bus 8
  have hd : dev &&& 0x1F = dev % 32 := Nat.and_pow_two_sub_one_eq_mod dev 5
  have hf : fn &&& 0x7 = fn % 8 := Nat.and_pow_two_sub_one_eq_mod fn 3
  have hr : reg &&& 0xFC ≤ 0xFC := Nat.and_le_right
  have hb' : bus % 256 < 256 := Nat.mod_lt _ (by decide)
  have hd' : dev % 32 < 32 := Nat.mod_lt _ (by decide)
  have hf' : fn % 8 < 8 := Nat.mod_lt _ (by decide)
  rw [hb, hd, hf, Nat.shiftLeft_eq, Nat.shiftLeft_eq, Nat.shiftLeft_eq, Nat.shiftLeft_eq]
  rw [Nat.or_assoc, Nat.or_assoc, Nat.or_assoc]
  have e1 : fn % 8 * 2 ^ 8 ||| (reg &&& 0xFC) = 2 ^ 8 * (fn % 8) + (reg &&& 0xFC) := by
    rw [Nat.mul_comm]
    exact (Nat.mul_add_lt_is_or (by simp; omega) _).symm
  rw [e1]
  have e2 : dev % 32 * 2 ^ 11 ||| (2 ^ 8 * (fn % 8) + (reg &&& 0xFC)) =
      2 ^ 11 * (dev % 32) + (2 ^ 8 * (fn % 8) + (reg &&& 0xFC)) := by
    rw [Nat.mul_comm]
    exact (Nat.mul_add_lt_is_or (by simp; omega) _).symm
  rw [e2]
  have e3 : bus % 256 * 2 ^ 16 |||
      (2 ^ 11 * (dev % 32) + (2 ^ 8 * (fn % 8) + (reg &&& 0xFC))) =
      2 ^ 16 * (bus % 256) + (2 ^ 11 * (dev % 32) + (2 ^ 8 * (fn % 8) + (reg &&& 0xFC))) := by
    rw [Nat.mul_comm]
    exact (Nat.mul_add_lt_is_or (by simp; omega) _).symm
  rw [e3]
  have e4 : 1 * 2 ^ 31 |||
      (2 ^ 16 * (bus % 256) + (2 ^ 11 * (dev % 32) + (2 ^ 8 * (fn % 8) + (reg &&& 0xFC)))) =
      2 ^ 31 * 1 +
        (2 ^ 16 * (bus % 256) + (2 ^ 11 * (dev % 32) + (2 ^ 8 * (fn % 8) + (reg &&& 0xFC)))) := by
    rw [Nat.mul_comm]
    exact (Nat.mul_add_lt_is_or (by simp; omega) _).symm
  rw [e4]
  simp only [Nat.reducePow]
  omega

/-- The address word fits 32 bits, so the conversion to `uint` changes
nothing. -/
theorem cfg_addr_eq (bus dev fn reg : Nat) :
    cfg_addr bus dev fn reg =
      2147483648 + (bus % 256) * 65536 + (dev % 32) * 2048 + (fn % 8) * 256 +
        (reg &&& 0xFC) := by
  have hr : reg &&& 0xFC ≤ 0xFC := Nat.and_le_right
  have hb' : bus % 256 < 256 := Nat.mod_lt _ (by decide)
  have hd' : dev % 32 < 32 := Nat.mod_lt _ (by decide)
  have hf' : fn % 8 < 8 := Nat.mod_lt _ (by decide)
  unfold cfg_addr
  rw [addr_word_eq]
  unfold u32
  omega

/-- Two registers of one function with different `reg & 0xFC` have different
address words. -/
theorem cfg_addr_reg_ne (bus dev fn r1 r2 : Nat) (h : r1 &&& 0xFC ≠ r2 &&& 0xFC) :
    cfg_addr bus dev fn r1 ≠ cfg_addr bus dev fn r2 := by
  rw [cfg_addr_eq, cfg_addr_eq]
  omega

theorem pciread_def {σ : Type} (M : Ports σ) (s : σ) (bus dev fn reg : Nat) :
    pciread M s bus dev fn reg =
      (u32 (M.inl (M.outl s ADDR (cfg_addr bus dev fn reg)) DATA).1,
        (M.inl (M.outl s ADDR (cfg_addr bus dev fn reg)) DATA).2) := rfl

theorem pciwrite_def {σ : Type} (M : Ports σ) (s : σ) (bus dev fn reg val : Nat) :
    pciwrite M s bus dev fn reg val =
      M.outl (M.outl s ADDR (cfg_addr bus dev fn reg)) DATA val := rfl

/-! ## Loads and stores on the arrays of a record -/

theorem pci_zero_wf : pci_zero.wf := by
  unfold pci_info.wf pci_zero; simp

theorem store_base_wf {p : pci_info} (h : p.wf) (i v : Nat) : (store_base p i v).wf := by
  unfold pci_info.wf at *
  unfold store_base
  split
  · simpa using h
  · split
    · simpa using h
    · exact h

theorem store_size_wf {p : pci_info} (h : p.wf) (i v : Nat) : (store_size p i v).wf := by
  unfold pci_info.wf at *
  unfold store_size
  split
  · simpa using h
  · split
    · simpa using h
    · exact h

theorem store_kind_wf {p : pci_info} (h : p.wf) (i v : Nat) : (store_kind p i v).wf := by
  unfold pci_info.wf at *
  unfold store_kind
  split
  · simpa using h
  · split
    · simpa using h
    · exact h

theorem getD_set (l : List Nat) (i j v : Nat) (hi : i < l.length) :
    (l.set i v).getD j 0 = if j = i then v else l.getD j 0 := by
  simp only [List.getD_eq_getElem?_getD, List.getElem?_set]
  by_cases h : i = j
  · subst h; simp [hi]
  · have h' : ¬ j = i := fun e => h e.symm
    simp [h, h']

theorem load_base_store_base {p : pci_info} (h : p.wf) {i : Nat} (hi : i < 6) (j v : Nat) :
    load_base (store_base p i v) j = if j = i then v else load_base p j := by
  unfold load_base store_base
  rw [if_pos hi]
  exact getD_set _ _ _ _ (by rw [h.1]; exact hi)

theorem load_size_store_size {p : pci_info} (h : p.wf) {i : Nat} (hi : i < 6) (j v : Nat) :
    load_size (store_size p i v) j = if j = i then v else load_size p j := by
  unfold load_size store_size
  rw [if_pos hi]
  exact getD_set _ _ _ _ (by rw [h.2.1]; exact hi)

theorem load_kind_store_kind {p : pci_info} (h : p.wf) {i : Nat} (hi : i < 6) (j v : Nat) :
    load_kind (store_kind p i v) j = if j = i then v else load_kind p j := by
  unfold load_kind store_kind
  rw [if_pos hi]
  exact getD_set _ _ _ _ (by rw [h.2.2.1]; exact hi)

theorem load_size_store_base (p : pci_info) {i : Nat} (hi : i < 6) (j v : Nat) :
    load_size (store_base p i v) j = load_size p j := by
  unfold load_size store_base; rw [if_pos hi]

theorem load_kind_store_base (p : pci_info) (i j v : Nat) :
    load_kind (store_base p i v) j = load_kind p j := by
  unfold load_kind store_base
  split
  · rfl
  · split <;> rfl

theorem load_base_store_size (p : pci_info) (i j v : Nat) :
    load_base (store_size p i v) j = load_base p j := by
  unfold load_base store_size
  split
  · rfl
  · split <;> rfl

theorem load_kind_store_size (p : pci_info) {i : Nat} (hi : i < 6) (j v : Nat) :
    load_kind (store_size p i v) j = load_kind p j := by
  unfold load_kind store_size; rw [if_pos hi]

theorem load_base_store_kind (p : pci_info) (i j v : Nat) :
    load_base (store_kind p i v) j = load_base p j := by
  unfold load_base store_kind
  split
  · rfl
  · split <;> rfl

theorem load_size_store_kind (p : pci_info) (i j v : Nat) :
    load_size (store_kind p i v) j = load_size p j := by
  unfold load_size store_kind
  split
  · rfl
  · split <;> rfl

/-- The store `base[6] = v` lands on `size[0]`. -/
theorem load_size_store_base_six {p : pci_info} (h : p.wf) (j v : Nat) :
    load_size (store_base p 6 v) j = if j = 0 then v else load_size p j := by
  unfold load_size store_base
  simp only [Nat.lt_irrefl, if_false, if_true]
  exact getD_set _ _ _ _ (by rw [h.2.1]; decide)

theorem load_base_store_base_six (p : pci_info) (j v : Nat) :
    load_base (store_base p 6 v) j = load_base p j := by
  unfold load_base store_base
  simp

/-- The store `size[6] = 0` clears `kind[0..3]`. -/
theorem load_kind_store_size_six {p : pci_info} (h : p.wf) (j : Nat) :
    load_kind (store_size p 6 0) j = if j < 4 then 0 else load_kind p j := by
  have hk := h.2.2.1
  unfold load_kind store_size
  simp only [Nat.lt_irrefl, if_false, if_true]
  rw [getD_set _ _ _ _ (by simp [hk]), getD_set _ _ _ _ (by simp [hk]),
    getD_set _ _ _ _ (by simp [hk]), getD_set _ _ _ _ (by simp [hk])]
  by_cases h3 : j = 3
  · subst h3; simp [u8]
  by_cases h2 : j = 2
  · subst h2; simp [u8]
  by_cases h1 : j = 1
  · subst h1; simp [u8]
  by_cases h0 : j = 0
  · subst h0; simp [u8]
  have : ¬ j < 4 := by omega
  simp [h3, h2, h1, h0, this]

theorem load_size_store_size_six (p : pci_info) (j v : Nat) :
    load_size (store_size p 6 v) j = load_size p j := by
  unfold load_size store_size
  simp

theorem load_kind_store_kind_six (p : pci_info) (j v : Nat) :
    load_kind (store_kind p 6 v) j = load_kind p j := by
  unfold load_kind store_kind
  simp

/-- The scalar fields of a record. -/
theorem store_base_scalars (p : pci_info) (i v : Nat) :
    (store_base p i v).vendor_id = p.vendor_id ∧ (store_base p i v).device_id = p.device_id ∧
    (store_base p i v).header_type = p.header_type ∧ (store_base p i v).class_code = p.class_code ∧
    (store_base p i v).subclass = p.subclass ∧ (store_base p i v).prog_if = p.prog_if ∧
    (store_base p i v).rev_id = p.rev_id ∧ (store_base p i v).int_pin = p.int_pin ∧
    (store_base p i v).int_line = p.int_line := by
  unfold store_base
  split
  · simp
  · split <;> simp

theorem store_size_scalars (p : pci_info) (i v : Nat) :
    (store_size p i v).vendor_id = p.vendor_id ∧ (store_size p i v).device_id = p.device_id ∧
    (store_size p i v).header_type = p.header_type ∧ (store_size p i v).class_code = p.class_code ∧
    (store_size p i v).subclass = p.subclass ∧ (store_size p i v).prog_if = p.prog_if ∧
    (store_size p i v).rev_id = p.rev_id ∧ (store_size p i v).int_pin = p.int_pin ∧
    (store_size p i v).int_line = p.int_line := by
  unfold store_size
  split
  · simp
  · split <;> simp

theorem store_kind_scalars (p : pci_info) (i v : Nat) :
    (store_kind p i v).vendor_id = p.vendor_id ∧ (store_kind p i v).device_id = p.device_id ∧
    (store_kind p i v).header_type = p.header_type ∧ (store_kind p i v).class_code = p.class_code ∧
    (store_kind p i v).subclass = p.subclass ∧ (store_kind p i v).prog_if = p.prog_if ∧
    (store_kind p i v).rev_id = p.rev_id ∧ (store_kind p i v).int_pin = p.int_pin ∧
    (store_kind p i v).int_line = p.int_line := by
  unfold store_kind
  split
  · simp
  · split <;> simp

/-! ## One slot of the decode loop -/

/-- The operational value of BAR `i`: the first read of `bar_decode`. -/
theorem bar_decode_i {σ : Type} (M : Ports σ) (bus dev fn : Nat) (st : BarState σ) :
    (bar_decode M bus dev fn st).i = st.i := rfl

theorem and_0xF_lt (x : Nat) : x &&& 0xF < 16 := Nat.and_lt_two_pow x (n := 4) (by decide)

/-- What `bar_decode` leaves in the record for slot `i < 6`, in terms of the
operational value `raw` and the sizing readback `n` of register `0x10 + 4*i`:
`kind[i] = raw & 0xF`, `base[i]` and `size[i]` by the I/O or the memory rule
according to bit 0 of `raw`; the other slots are left alone. -/
theorem bar_decode_pci {σ : Type} (M : Ports σ) (bus dev fn : Nat) (st : BarState σ)
    (hwf : st.pci.wf) (hi : st.i < 6) (j : Nat) :
    let raw := (pciread M st.hw bus dev fn (0x10 + 4 * st.i)).1
    let n := (pciread M (pciwrite M (pciread M st.hw bus dev fn (0x10 + 4 * st.i)).2
      bus dev fn (0x10 + 4 * st.i) 0xffffffff) bus dev fn (0x10 + 4 * st.i)).1
    let p := (bar_decode M bus dev fn st).pci
    p.wf ∧
    load_kind p j = (if j = st.i then raw &&& 0xF else load_kind st.pci j) ∧
    load_base p j = (if j = st.i then
        (if raw &&& 1 ≠ 0 then raw &&& 0xFFFC else raw &&& 0xFFFFFFF0)
      else load_base st.pci j) ∧
    load_size p j = (if j = st.i then (if raw &&& 1 ≠ 0 then io_size n else mem_size n)
      else load_size st.pci j) := by
  intro raw n p
  have hu8 : u8 (raw &&& 0xF) = raw &&& 0xF := by
    have := and_0xF_lt raw
    unfold u8; omega
  have hw1 : (store_base st.pci st.i raw).wf := store_base_wf hwf _ _
  have hw2 : (store_kind (store_base st.pci st.i raw) st.i (u8 (raw &&& 0xF))).wf :=
    store_kind_wf hw1 _ _
  have hb1 : load_base (store_base st.pci st.i raw) st.i = raw := by
    rw [load_base_store_base hwf hi]; simp
  have hb2 : load_base (store_kind (store_base st.pci st.i raw) st.i (u8 (raw &&& 0xF))) st.i
      = raw := by
    rw [load_base_store_kind, hb1]
  have hp : p = (if raw &&& 1 ≠ 0 then
        store_size (store_base (store_kind (store_base st.pci st.i raw) st.i (u8 (raw &&& 0xF)))
          st.i (raw &&& 0xFFFC)) st.i (io_size n)
      else
        store_size (store_base (store_kind (store_base st.pci st.i raw) st.i (u8 (raw &&& 0xF)))
          st.i (raw &&& 0xFFFFFFF0)) st.i (mem_size n)) := by
    show (bar_decode M bus dev fn st).pci = _
    unfold bar_decode
    simp only [hb1, hb2]
  by_cases hio : raw &&& 1 ≠ 0
  · rw [if_pos hio] at hp
    have hw3 := store_base_wf hw2 st.i (raw &&& 0xFFFC)
    refine ⟨by rw [hp]; exact store_size_wf hw3 _ _, ?_, ?_, ?_⟩
    · rw [hp, load_kind_store_size _ hi, load_kind_store_base, load_kind_store_kind hw1 hi,
        load_kind_store_base, hu8]
    · rw [hp, load_base_store_size, load_base_store_base hw2 hi, load_base_store_kind,
        load_base_store_base hwf hi]
      by_cases hj : j = st.i
      · simp only [hj, if_true, if_pos hio]
      · simp only [hj, if_false]
    · rw [hp, load_size_store_size hw3 hi, load_size_store_base _ hi, load_size_store_kind,
        load_size_store_base _ hi]
      by_cases hj : j = st.i
      · simp only [hj, if_true, if_pos hio]
      · simp only [hj, if_false]
  · rw [if_neg hio] at hp
    have hw3 := store_base_wf hw2 st.i (raw &&& 0xFFFFFFF0)
    refine ⟨by rw [hp]; exact store_size_wf hw3 _ _, ?_, ?_, ?_⟩
    · rw [hp, load_kind_store_size _ hi, load_kind_store_base, load_kind_store_kind hw1 hi,
        load_kind_store_base, hu8]
    · rw [hp, load_base_store_size, load_base_store_base hw2 hi, load_base_store_kind,
        load_base_store_base hwf hi]
      by_cases hj : j = st.i
      · simp only [hj, if_true, if_neg hio]
      · simp only [hj, if_false]
    · rw [hp, load_size_store_size hw3 hi, load_size_store_base _ hi, load_size_store_kind,
        load_size_store_base _ hi]
      by_cases hj : j = st.i
      · simp only [hj, if_true, if_neg hio]
      · simp only [hj, if_false]

/-- The hardware state after `bar_decode`: read, all-ones write, read, write
back of the value first read. -/
theorem bar_decode_hw {σ : Type} (M : Ports σ) (bus dev fn : Nat) (st : BarState σ)
    (hwf : st.pci.wf) (hi : st.i < 6) :
    (bar_decode M bus dev fn st).hw =
      pciwrite M (pciread M (pciwrite M (pciread M st.hw bus dev fn (0x10 + 4 * st.i)).2
        bus dev fn (0x10 + 4 * st.i) 0xffffffff) bus dev fn (0x10 + 4 * st.i)).2
        bus dev fn (0x10 + 4 * st.i) (pciread M st.hw bus dev fn (0x10 + 4 * st.i)).1 := by
  have hb1 : load_base (store_base st.pci st.i
      (pciread M st.hw bus dev fn (0x10 + 4 * st.i)).1) st.i =
      (pciread M st.hw bus dev fn (0x10 + 4 * st.i)).1 := by
    rw [load_base_store_base hwf hi]; simp
  unfold bar_decode
  simp only [hb1]

/-! ## The bus monitor -/

theorem pciread_monitor {σ : Type} (M : Ports σ) (m : Mon σ) (bus dev fn reg : Nat) :
    pciread (monitor M) m bus dev fn reg =
      ((pciread M m.hw bus dev fn reg).1,
        { hw := (pciread M m.hw bus dev fn reg).2, latch := cfg_addr bus dev fn reg,
          log := m.log ++ [Access.rd (cfg_addr bus dev fn reg)
            (M.inl (M.outl m.hw ADDR (cfg_addr bus dev fn reg)) DATA).1] }) := by
  have h1 : ¬ DATA = ADDR := by decide
  simp only [pciread_def, monitor, if_true, if_pos, h1, if_false]

theorem pciwrite_monitor {σ : Type} (M : Ports σ) (m : Mon σ) (bus dev fn reg val : Nat) :
    pciwrite (monitor M) m bus dev fn reg val =
      { hw := pciwrite M m.hw bus dev fn reg val, latch := cfg_addr bus dev fn reg,
        log := m.log ++ [Access.wr (cfg_addr bus dev fn reg) val] } := by
  have h1 : ¬ DATA = ADDR := by decide
  simp only [pciwrite_def, monitor, if_true, if_pos, h1, if_false]

theorem pciread_monitor_val {σ : Type} (M : Ports σ) (m : Mon σ) (bus dev fn reg : Nat) :
    (pciread (monitor M) m bus dev fn reg).1 = (pciread M m.hw bus dev fn reg).1 := by
  rw [pciread_monitor]

theorem pciread_monitor_hw {σ : Type} (M : Ports σ) (m : Mon σ) (bus dev fn reg : Nat) :
    (pciread (monitor M) m bus dev fn reg).2.hw = (pciread M m.hw bus dev fn reg).2 := by
  rw [pciread_monitor]

theorem pciwrite_monitor_hw {σ : Type} (M : Ports σ) (m : Mon σ) (bus dev fn reg val : Nat) :
    (pciwrite (monitor M) m bus dev fn reg val).hw = pciwrite M m.hw bus dev fn reg val := by
  rw [pciwrite_monitor]

/-- A read appends one `rd` entry to the log. -/
theorem pciread_monitor_log {σ : Type} (M : Ports σ) (m : Mon σ) (bus dev fn reg : Nat) :
    ∃ v, (pciread (monitor M) m bus dev fn reg).2.log =
      m.log ++ [Access.rd (cfg_addr bus dev fn reg) v] := by
  rw [pciread_monitor]
  exact ⟨_, rfl⟩

/-- A write appends one `wr` entry to the log. -/
theorem pciwrite_monitor_log {σ : Type} (M : Ports σ) (m : Mon σ) (bus dev fn reg val : Nat) :
    (pciwrite (monitor M) m bus dev fn reg val).log =
      m.log ++ [Access.wr (cfg_addr bus dev fn reg) val] := by
  rw [pciwrite_monitor]

/-! ## The continuation step and one pass of the loop -/

theorem bar_cont_i {σ : Type} (M : Ports σ) (bus dev fn : Nat) (st : BarState σ) :
    (bar_cont M bus dev fn st).i = st.i + 1 := rfl

theorem bar_cont_hw {σ : Type} (M : Ports σ) (bus dev fn : Nat) (st : BarState σ) :
    (bar_cont M bus dev fn st).hw =
      (pciread M st.hw bus dev fn (0x10 + 4 * (st.i + 1))).2 := rfl

theorem bar_cont_wf {σ : Type} (M : Ports σ) (bus dev fn : Nat) (st : BarState σ)
    (hwf : st.pci.wf) : (bar_cont M bus dev fn st).pci.wf := by
  unfold bar_cont
  exact store_kind_wf (store_size_wf (store_base_wf hwf _ _) _ _) _ _

/-- The continuation step inside the arrays (`i + 1 < 6`): slot `i + 1` gets
the value read as its base and zero size and kind; other slots are left
alone. -/
theorem bar_cont_pci_lt {σ : Type} (M : Ports σ) (bus dev fn : Nat) (st : BarState σ)
    (hwf : st.pci.wf) (hi : st.i + 1 < 6) (j : Nat) :
    let p := (bar_cont M bus dev fn st).pci
    load_base p j = (if j = st.i + 1 then
        (pciread M st.hw bus dev fn (0x10 + 4 * (st.i + 1))).1 else load_base st.pci j) ∧
    load_size p j = (if j = st.i + 1 then 0 else load_size st.pci j) ∧
    load_kind p j = (if j = st.i + 1 then 0 else load_kind st.pci j) := by
  intro p
  have hw1 := store_base_wf hwf (st.i + 1) (pciread M st.hw bus dev fn (0x10 + 4 * (st.i + 1))).1
  have hw2 := store_size_wf hw1 (st.i + 1) 0
  have hp : p = store_kind (store_size (store_base st.pci (st.i + 1)
      (pciread M st.hw bus dev fn (0x10 + 4 * (st.i + 1))).1) (st.i + 1) 0) (st.i + 1) 0 := rfl
  refine ⟨?_, ?_, ?_⟩
  · rw [hp, load_base_store_kind, load_base_store_size, load_base_store_base hwf hi]
  · rw [hp, load_size_store_kind, load_size_store_size hw1 hi, load_size_store_base _ hi]
  · rw [hp, load_kind_store_kind hw2 hi, load_kind_store_size _ hi, load_kind_store_base]

/-- The continuation step past the arrays (`i + 1 = 6`): the three stores land
on `size[0]`, `kind[0..3]` and `unused2[0]`. -/
theorem bar_cont_pci_six {σ : Type} (M : Ports σ) (bus dev fn : Nat) (st : BarState σ)
    (hwf : st.pci.wf) (hi : st.i = 5) (j : Nat) :
    let p := (bar_cont M bus dev fn st).pci
    load_base p j = load_base st.pci j ∧
    load_size p j = (if j = 0 then (pciread M st.hw bus dev fn 0x28).1 else load_size st.pci j) ∧
    load_kind p j = (if j < 4 then 0 else load_kind st.pci j) := by
  intro p
  have hw1 := store_base_wf hwf 6 (pciread M st.hw bus dev fn 0x28).1
  have hp : p = store_kind (store_size (store_base st.pci 6
      (pciread M st.hw bus dev fn 0x28).1) 6 0) 6 0 := by
    show (bar_cont M bus dev fn st).pci = _
    unfold bar_cont
    simp only [hi]
  refine ⟨?_, ?_, ?_⟩
  · rw [hp, load_base_store_kind, load_base_store_size, load_base_store_base_six]
  · rw [hp, load_size_store_kind, load_size_store_size_six, load_size_store_base_six hwf]
  · rw [hp, load_kind_store_kind_six, load_kind_store_size_six hw1, load_kind_store_base]

theorem bar_body_flagged {σ : Type} (M : Ports σ) (bus dev fn : Nat) (st : BarState σ)
    (h : load_kind (bar_decode M bus dev fn st).pci st.i &&& 6 = 2) :
    bar_body M bus dev fn st =
      { bar_cont M bus dev fn (bar_decode M bus dev fn st) with i := st.i + 2 } := by
  unfold bar_body
  simp only [bar_decode_i, h, if_true, bar_cont_i]

theorem bar_body_plain {σ : Type} (M : Ports σ) (bus dev fn : Nat) (st : BarState σ)
    (h : ¬ load_kind (bar_decode M bus dev fn st).pci st.i &&& 6 = 2) :
    bar_body M bus dev fn st = { bar_decode M bus dev fn st with i := st.i + 1 } := by
  unfold bar_body
  simp only [bar_decode_i, h, if_false]

/-- Every pass increases `i`, by one or by two. -/
theorem bar_body_i {σ : Type} (M : Ports σ) (bus dev fn : Nat) (st : BarState σ) :
    st.i < (bar_body M bus dev fn st).i ∧ (bar_body M bus dev fn st).i ≤ st.i + 2 := by
  by_cases h : load_kind (bar_decode M bus dev fn st).pci st.i &&& 6 = 2
  · rw [bar_body_flagged M bus dev fn st h]; simp
  · rw [bar_body_plain M bus dev fn st h]; simp

theorem bar_body_wf {σ : Type} (M : Ports σ) (bus dev fn : Nat) (st : BarState σ)
    (hwf : st.pci.wf) (hi : st.i < 6) : (bar_body M bus dev fn st).pci.wf := by
  have hd := (bar_decode_pci M bus dev fn st hwf hi 0).1
  by_cases h : load_kind (bar_decode M bus dev fn st).pci st.i &&& 6 = 2
  · rw [bar_body_flagged M bus dev fn st h]
    exact bar_cont_wf M bus dev fn _ hd
  · rw [bar_body_plain M bus dev fn st h]
    exact hd

/-- The slots below `i` after one pass: `base` is untouched, `size` is
untouched except `size[0]`, and `kind` is untouched or cleared (`kind[0..3]`,
when the continuation step runs past the arrays). -/
theorem bar_body_frame {σ : Type} (M : Ports σ) (bus dev fn : Nat) (st : BarState σ)
    (hwf : st.pci.wf) (hi : st.i < 6) (j : Nat) (hj : j < st.i) :
    load_base (bar_body M bus dev fn st).pci j = load_base st.pci j ∧
    (j ≠ 0 → load_size (bar_body M bus dev fn st).pci j = load_size st.pci j) ∧
    (load_kind (bar_body M bus dev fn st).pci j = load_kind st.pci j ∨
      (j < 4 ∧ load_kind (bar_body M bus dev fn st).pci j = 0)) := by
  obtain ⟨hd, hk, hb, hs⟩ := bar_decode_pci M bus dev fn st hwf hi j
  have hne : ¬ j = st.i := by omega
  simp only [hne, if_false] at hk hb hs
  by_cases h : load_kind (bar_decode M bus dev fn st).pci st.i &&& 6 = 2
  · rw [bar_body_flagged M bus dev fn st h]
    show load_base (bar_cont M bus dev fn (bar_decode M bus dev fn st)).pci j = _ ∧
      (j ≠ 0 → load_size (bar_cont M bus dev fn (bar_decode M bus dev fn st)).pci j = _) ∧
      (load_kind (bar_cont M bus dev fn (bar_decode M bus dev fn st)).pci j = _ ∨
        (j < 4 ∧ load_kind (bar_cont M bus dev fn (bar_decode M bus dev fn st)).pci j = 0))
    by_cases h5 : st.i = 5
    · obtain ⟨cb, cs, ck⟩ := bar_cont_pci_six M bus dev fn (bar_decode M bus dev fn st) hd
        (by rw [bar_decode_i]; exact h5) j
      refine ⟨by rw [cb, hb], ?_, ?_⟩
      · intro h0
        rw [cs, if_neg h0, hs]
      · by_cases h4 : j < 4
        · right
          exact ⟨h4, by rw [ck, if_pos h4]⟩
        · left
          rw [ck, if_neg h4, hk]
    · obtain ⟨cb, cs, ck⟩ := bar_cont_pci_lt M bus dev fn (bar_decode M bus dev fn st) hd
        (by rw [bar_decode_i]; omega) j
      have hne' : ¬ j = (bar_decode M bus dev fn st).i + 1 := by rw [bar_decode_i]; omega
      simp only [hne', if_false] at cb cs ck
      exact ⟨by rw [cb, hb], fun _ => by rw [cs, hs], Or.inl (by rw [ck, hk])⟩
  · rw [bar_body_plain M bus dev fn st h]
    exact ⟨hb, fun _ => hs, Or.inl hk⟩

/-- A pass that finds slot `i ≤ 4` flagged consumes slot `i + 1`: the loop
variable moves on to `i + 2`, and slot `i + 1` holds the value read from its
register as base, with zero size and kind. -/
theorem bar_body_consumes {σ : Type} (M : Ports σ) (bus dev fn : Nat) (st : BarState σ)
    (hwf : st.pci.wf) (hi : st.i ≤ 4)
    (h : load_kind (bar_decode M bus dev fn st).pci st.i &&& 6 = 2) :
    (bar_body M bus dev fn st).i = st.i + 2 ∧
    (bar_body M bus dev fn st).hw =
      (pciread M (bar_decode M bus dev fn st).hw bus dev fn (0x10 + 4 * (st.i + 1))).2 ∧
    load_base (bar_body M bus dev fn st).pci (st.i + 1) =
      (pciread M (bar_decode M bus dev fn st).hw bus dev fn (0x10 + 4 * (st.i + 1))).1 ∧
    load_size (bar_body M bus dev fn st).pci (st.i + 1) = 0 ∧
    load_kind (bar_body M bus dev fn st).pci (st.i + 1) = 0 := by
  have hd := (bar_decode_pci M bus dev fn st hwf (by omega) 0).1
  obtain ⟨cb, cs, ck⟩ := bar_cont_pci_lt M bus dev fn (bar_decode M bus dev fn st) hd
    (by rw [bar_decode_i]; omega) (st.i + 1)
  simp only [bar_decode_i, if_true] at cb cs ck
  rw [bar_body_flagged M bus dev fn st h]
  exact ⟨rfl, rfl, cb, cs, ck⟩

/-! ## The whole decode loop -/

theorem bar_loop_succ {σ : Type} (M : Ports σ) (bus dev fn k : Nat) (st : BarState σ)
    (hi : st.i < 6) :
    bar_loop M bus dev fn (k + 1) st = bar_loop M bus dev fn k (bar_body M bus dev fn st) := by
  simp only [bar_loop, hi, if_true]

theorem bar_loop_exit {σ : Type} (M : Ports σ) (bus dev fn k : Nat) (st : BarState σ)
    (hi : ¬ st.i < 6) : bar_loop M bus dev fn k st = st := by
  cases k with
  | zero => rfl
  | succ k => simp only [bar_loop, hi, if_false]

/-- The loop runs to its exit test: with at least `6 - i` passes allowed the
final `i` is at least 6 (and at most 7). -/
theorem bar_loop_terminates {σ : Type} (M : Ports σ) (bus dev fn : Nat) :
    ∀ (k : Nat) (st : BarState σ), 6 - st.i ≤ k → st.i ≤ 7 →
      6 ≤ (bar_loop M bus dev fn k st).i ∧ (bar_loop M bus dev fn k st).i ≤ 7 := by
  intro k
  induction k with
  | zero =>
    intro st h h7
    exact ⟨by simp only [bar_loop]; omega, by simpa only [bar_loop] using h7⟩
  | succ k ih =>
    intro st h h7
    by_cases hi : st.i < 6
    · rw [bar_loop_succ M bus dev fn k st hi]
      have hb := bar_body_i M bus dev fn st
      exact ih _ (by omega) (by omega)
    · rw [bar_loop_exit M bus dev fn _ st hi]
      exact ⟨by omega, h7⟩

/-- The slots below the starting `i` after the whole loop. -/
theorem bar_loop_frame {σ : Type} (M : Ports σ) (bus dev fn : Nat) :
    ∀ (k : Nat) (st : BarState σ), st.pci.wf →
      (bar_loop M bus dev fn k st).pci.wf ∧ st.i ≤ (bar_loop M bus dev fn k st).i ∧
      ∀ j, j < st.i →
        load_base (bar_loop M bus dev fn k st).pci j = load_base st.pci j ∧
        (j ≠ 0 → load_size (bar_loop M bus dev fn k st).pci j = load_size st.pci j) ∧
        (load_kind (bar_loop M bus dev fn k st).pci j = load_kind st.pci j ∨
          (j < 4 ∧ load_kind (bar_loop M bus dev fn k st).pci j = 0)) := by
  intro k
  induction k with
  | zero =>
    intro st hwf
    exact ⟨hwf, le_refl _, fun j _ => ⟨rfl, fun _ => rfl, Or.inl rfl⟩⟩
  | succ k ih =>
    intro st hwf
    by_cases hi : st.i < 6
    · rw [bar_loop_succ M bus dev fn k st hi]
      have hb := bar_body_i M bus dev fn st
      obtain ⟨w, hle, hfr⟩ := ih _ (bar_body_wf M bus dev fn st hwf hi)
      refine ⟨w, by omega, ?_⟩
      intro j hj
      obtain ⟨b1, s1, k1⟩ := hfr j (by omega)
      obtain ⟨b2, s2, k2⟩ := bar_body_frame M bus dev fn st hwf hi j hj
      refine ⟨by rw [b1, b2], fun h0 => by rw [s1 h0, s2 h0], ?_⟩
      rcases k1 with k1 | k1
      · rcases k2 with k2 | k2
        · exact Or.inl (by rw [k1, k2])
        · exact Or.inr ⟨k2.1, by rw [k1, k2.2]⟩
      · exact Or.inr k1
    · rw [bar_loop_exit M bus dev fn _ st hi]
      exact ⟨hwf, le_refl _, fun j _ => ⟨rfl, fun _ => rfl, Or.inl rfl⟩⟩

/-- The scalar fields of the record are not touched by the loop. -/
theorem bar_decode_scalars {σ : Type} (M : Ports σ) (bus dev fn : Nat) (st : BarState σ) :
    (bar_decode M bus dev fn st).pci.vendor_id = st.pci.vendor_id ∧
    (bar_decode M bus dev fn st).pci.device_id = st.pci.device_id ∧
    (bar_decode M bus dev fn st).pci.header_type = st.pci.header_type ∧
    (bar_decode M bus dev fn st).pci.class_code = st.pci.class_code ∧
    (bar_decode M bus dev fn st).pci.subclass = st.pci.subclass ∧
    (bar_decode M bus dev fn st).pci.prog_if = st.pci.prog_if ∧
    (bar_decode M bus dev fn st).pci.rev_id = st.pci.rev_id ∧
    (bar_decode M bus dev fn st).pci.int_pin = st.pci.int_pin ∧
    (bar_decode M bus dev fn st).pci.int_line = st.pci.int_line := by
  unfold bar_decode
  simp only
  split
  · simp only [store_size_scalars, store_base_scalars, store_kind_scalars, and_self]
  · simp only [store_size_scalars, store_base_scalars, store_kind_scalars, and_self]

theorem bar_cont_scalars {σ : Type} (M : Ports σ) (bus dev fn : Nat) (st : BarState σ) :
    (bar_cont M bus dev fn st).pci.vendor_id = st.pci.vendor_id ∧
    (bar_cont M bus dev fn st).pci.device_id = st.pci.device_id ∧
    (bar_cont M bus dev fn st).pci.header_type = st.pci.header_type ∧
    (bar_cont M bus dev fn st).pci.class_code = st.pci.class_code ∧
    (bar_cont M bus dev fn st).pci.subclass = st.pci.subclass ∧
    (bar_cont M bus dev fn st).pci.prog_if = st.pci.prog_if ∧
    (bar_cont M bus dev fn st).pci.rev_id = st.pci.rev_id ∧
    (bar_cont M bus dev fn st).pci.int_pin = st.pci.int_pin ∧
    (bar_cont M bus dev fn st).pci.int_line = st.pci.int_line := by
  unfold bar_cont
  simp only [store_size_scalars, store_base_scalars, store_kind_scalars, and_self]

theorem bar_body_scalars {σ : Type} (M : Ports σ) (bus dev fn : Nat) (st : BarState σ) :
    (bar_body M bus dev fn st).pci.vendor_id = st.pci.vendor_id ∧
    (bar_body M bus dev fn st).pci.device_id = st.pci.device_id ∧
    (bar_body M bus dev fn st).pci.header_type = st.pci.header_type ∧
    (bar_body M bus dev fn st).pci.class_code = st.pci.class_code ∧
    (bar_body M bus dev fn st).pci.subclass = st.pci.subclass ∧
    (bar_body M bus dev fn st).pci.prog_if = st.pci.prog_if ∧
    (bar_body M bus dev fn st).pci.rev_id = st.pci.rev_id ∧
    (bar_body M bus dev fn st).pci.int_pin = st.pci.int_pin ∧
    (bar_body M bus dev fn st).pci.int_line = st.pci.int_line := by
  by_cases h : load_kind (bar_decode M bus dev fn st).pci st.i &&& 6 = 2
  · rw [bar_body_flagged M bus dev fn st h]
    simp only [bar_cont_scalars, bar_decode_scalars, and_self]
  · rw [bar_body_plain M bus dev fn st h]
    simp only [bar_decode_scalars, and_self]

theorem bar_loop_scalars {σ : Type} (M : Ports σ) (bus dev fn : Nat) :
    ∀ (k : Nat) (st : BarState σ),
      (bar_loop M bus dev fn k st).pci.vendor_id = st.pci.vendor_id ∧
      (bar_loop M bus dev fn k st).pci.device_id = st.pci.device_id ∧
      (bar_loop M bus dev fn k st).pci.header_type = st.pci.header_type ∧
      (bar_loop M bus dev fn k st).pci.class_code = st.pci.class_code ∧
      (bar_loop M bus dev fn k st).pci.subclass = st.pci.subclass ∧
      (bar_loop M bus dev fn k st).pci.prog_if = st.pci.prog_if ∧
      (bar_loop M bus dev fn k st).pci.rev_id = st.pci.rev_id ∧
      (bar_loop M bus dev fn k st).pci.int_pin = st.pci.int_pin ∧
      (bar_loop M bus dev fn k st).pci.int_line = st.pci.int_line := by
  intro k
  induction k with
  | zero => intro st; simp only [bar_loop, and_self]
  | succ k ih =>
    intro st
    by_cases hi : st.i < 6
    · rw [bar_loop_succ M bus dev fn k st hi]
      simp only [ih, bar_body_scalars, and_self]
    · rw [bar_loop_exit M bus dev fn _ st hi]
      simp only [and_self]

/-! ## Directory queries -/

theorem pci_find_loop_some (d : Directory) (vendor device : Nat) :
    ∀ (k n0 n : Nat), pci_find_loop d vendor device k n0 = some n ↔
      (n0 ≤ n ∧ n < n0 + k ∧ id_match d vendor device n ∧
        ∀ m, n0 ≤ m → m < n → ¬ id_match d vendor device m) := by
  intro k
  induction k with
  | zero =>
    intro n0 n
    simp only [pci_find_loop]
    constructor
    · intro h; cases h
    · rintro ⟨h1, h2, _⟩; omega
  | succ k ih =>
    intro n0 n
    have step : ∀ (_ : ¬ id_match d vendor device n0),
        (pci_find_loop d vendor device k (n0 + 1) = some n ↔
          (n0 ≤ n ∧ n < n0 + (k + 1) ∧ id_match d vendor device n ∧
            ∀ m, n0 ≤ m → m < n → ¬ id_match d vendor device m)) := by
      intro hno
      rw [ih]
      constructor
      · rintro ⟨h1, h2, h3, h4⟩
        refine ⟨by omega, by omega, h3, ?_⟩
        intro m hm1 hm2
        rcases Nat.eq_or_lt_of_le hm1 with h | h
        · subst h; exact hno
        · exact h4 m h hm2
      · rintro ⟨h1, h2, h3, h4⟩
        have hne : n0 ≠ n := by
          intro h; subst h; exact hno h3
        refine ⟨by omega, by omega, h3, ?_⟩
        intro m hm1 hm2
        exact h4 m (by omega) hm2
    have hit : id_match d vendor device n0 →
        (some n0 = some n ↔
          (n0 ≤ n ∧ n < n0 + (k + 1) ∧ id_match d vendor device n ∧
            ∀ m, n0 ≤ m → m < n → ¬ id_match d vendor device m)) := by
      intro hyes
      constructor
      · intro h
        cases h
        exact ⟨le_refl _, by omega, hyes, fun m h1 h2 => by omega⟩
      · rintro ⟨h1, _, _, h4⟩
        rcases Nat.eq_or_lt_of_le h1 with h | h
        · rw [h]
        · exact absurd hyes (h4 n0 (le_refl _) h)
    simp only [pci_find_loop]
    by_cases hv : (d.pci_infos n0).vendor_id = vendor
    · by_cases hd : (d.pci_infos n0).device_id = device
      · simp only [hv, hd, ne_eq, not_true_eq_false, if_false]
        simpa [hv, hd] using hit ⟨hv, hd⟩
      · simp only [hv, hd, ne_eq, not_true_eq_false, not_false_eq_true, if_false, if_true]
        exact step (fun h => hd h.2)
    · simp only [hv, ne_eq, not_false_eq_true, if_true]
      exact step (fun h => hv h.1)

theorem pci_find_loop_none (d : Directory) (vendor device : Nat) :
    ∀ (k n0 : Nat), pci_find_loop d vendor device k n0 = none ↔
      ∀ n, n0 ≤ n → n < n0 + k → ¬ id_match d vendor device n := by
  intro k n0
  constructor
  · intro h n h1 h2 hm
    -- the least match at or after `n0` is returned
    have hex : ∃ j, n0 ≤ j ∧ id_match d vendor device j := ⟨n, h1, hm⟩
    classical
    let j := Nat.find hex
    have hj : n0 ≤ j ∧ id_match d vendor device j := Nat.find_spec hex
    have hmin : ∀ m, n0 ≤ m → m < j → ¬ id_match d vendor device m := by
      intro m hm1 hm2 hm3
      exact Nat.find_min hex hm2 ⟨hm1, hm3⟩
    have hjn : j ≤ n := Nat.find_min' hex ⟨h1, hm⟩
    have : pci_find_loop d vendor device k n0 = some j :=
      (pci_find_loop_some d vendor device k n0 j).2 ⟨hj.1, by omega, hj.2, hmin⟩
    rw [h] at this
    cases this
  · intro h
    cases hres : pci_find_loop d vendor device k n0 with
    | none => rfl
    | some n =>
      obtain ⟨h1, h2, h3, _⟩ := (pci_find_loop_some d vendor device k n0 n).1 hres
      exact absurd h3 (h n h1 h2)

/-- C1: `pci_get_nth(n)` is null exactly when `n >= pci_count`; otherwise it is
the pointer to slot `n`, whose content is the `n`-th record.  In particular
`pci_get_nth(pci_count)` is null and, for a non-empty directory,
`pci_get_nth(pci_count - 1)` is the last record. -/
theorem pci_get_nth_spec (d : Directory) (n : Nat) :
    (pci_get_nth d n = none ↔ n ≥ d.pci_count) ∧
    (n < d.pci_count →
      pci_get_nth d n = some n ∧ deref d (pci_get_nth d n) = some (d.pci_infos n)) ∧
    pci_get_nth d d.pci_count = none ∧
    (0 < d.pci_count →
      deref d (pci_get_nth d (d.pci_count - 1)) = some (d.pci_infos (d.pci_count - 1))) := by
  refine ⟨?_, ?_, ?_, ?_⟩
  · unfold pci_get_nth
    by_cases h : n ≥ d.pci_count <;> simp [h]
  · intro h
    have h' : ¬ n ≥ d.pci_count := by omega
    simp [pci_get_nth, deref, h']
  · simp [pci_get_nth]
  · intro h
    have h' : ¬ d.pci_count - 1 ≥ d.pci_count := by omega
    simp [pci_get_nth, deref, h']

/-- C2: `pci_find(vendor, device)` returns the pointer to index `n` exactly when
`n` is the smallest index below `pci_count` whose record matches both identity
fields, and returns null exactly when no record below `pci_count` matches. -/
theorem pci_find_spec (d : Directory) (vendor device : Nat) :
    (∀ n, pci_find d vendor device = some n ↔
      (n < d.pci_count ∧
        ((d.pci_infos n).vendor_id = vendor ∧ (d.pci_infos n).device_id = device) ∧
        ∀ m, m < n →
          ¬ ((d.pci_infos m).vendor_id = vendor ∧ (d.pci_infos m).device_id = device))) ∧
    (pci_find d vendor device = none ↔
      ∀ n, n < d.pci_count →
        ¬ ((d.pci_infos n).vendor_id = vendor ∧ (d.pci_infos n).device_id = device)) := by
  constructor
  · intro n
    unfold pci_find
    rw [pci_find_loop_some]
    simp only [id_match, Nat.zero_le, true_and, Nat.zero_add, forall_const]
  · unfold pci_find
    rw [pci_find_loop_none]
    simp only [id_match, Nat.zero_le, Nat.zero_add, forall_const]

/-! ## Capacity boundary of `pci_init` -/

set_option maxRecDepth 100000 in
/-- C3 (evaluation at the failing input): on a bus with a present function at
every (bus, device), `pci_init` stores a 129th record at directory index 128,
one past the `PCIMAX = 128` slots of `pci_infos`, and leaves
`pci_count = 129`. -/
theorem pci_init_overrun :
    (pci_init crowded 0 0 (fun _ => pci_zero)).pci_count = 129 ∧
    PCIMAX < (pci_init crowded 0 0 (fun _ => pci_zero)).pci_count ∧
    ((pci_init crowded 0 0 (fun _ => pci_zero)).pci_infos 128).vendor_id = 0x8086 ∧
    ((pci_init crowded 0 0 (fun _ => pci_zero)).pci_infos 128).device_id = 0x100E := by
  refine ⟨by decide, by decide, by decide, by decide⟩

/-! ## The BAR size formulas -/

theorem io_size_eq (M : Nat) : io_size M = 65536 - (M &&& 0xFFFC) := by
  have hx : M &&& 0xFFFC ≤ 0xFFFC := Nat.and_le_right
  have hmask : ∀ y : Nat, y &&& 0xFFFF = y % 65536 := fun y =>
    Nat.and_pow_two_sub_one_eq_mod y 16
  unfold io_size not32 u32
  rw [hmask]
  omega

theorem mem_size_eq (M : Nat) :
    mem_size M = (4294967296 - (M &&& 0xFFFFFFF0)) % 4294967296 := by
  have hx : M &&& 0xFFFFFFF0 ≤ 0xFFFFFFF0 := Nat.and_le_right
  have hmask : ∀ y : Nat, y &&& 0xFFFFFFFF = y % 4294967296 := fun y =>
    Nat.and_pow_two_sub_one_eq_mod y 32
  unfold mem_size not32 u32
  rw [hmask]
  omega

theorem pow_two_bounds (k lo hi : Nat) (h1 : 2 ^ lo ≤ 2 ^ k) (h2 : 2 ^ k ≤ 2 ^ hi) :
    lo ≤ k ∧ k ≤ hi :=
  ⟨(Nat.pow_le_pow_iff_right (by decide)).1 h1, (Nat.pow_le_pow_iff_right (by decide)).1 h2⟩

/-- C8 (as stated, refuted): the sizing readback `M = 0xFFF5` fits 32 bits and
has bit 0 set, yet the I/O size computed from it is 12, which is not a power
of two. -/
theorem io_size_not_always_pow2 :
    0xFFF5 < 2 ^ 32 ∧ 0xFFF5 % 2 = 1 ∧ io_size 0xFFF5 = 12 ∧
    ¬ (∃ k : Nat, io_size 0xFFF5 = 2 ^ k) := by
  have h12 : io_size 0xFFF5 = 12 := by decide
  refine ⟨by decide, by decide, h12, ?_⟩
  rintro ⟨k, hk⟩
  rw [h12] at hk
  have hk4 : k < 4 := by
    by_contra hge
    have : 2 ^ 4 ≤ 2 ^ k := Nat.pow_le_pow_right (by decide) (by omega)
    omega
  interval_cases k <;> simp at hk

/-- C8 (amended): for every sizing readback `M` the I/O size is
`65536 - (M & 0xFFFC)`, between 4 and 65536; it is a power of two exactly when
`M & 0xFFFC = 65536 - 2^k` for some `2 ≤ k ≤ 16` (the set bits of the mask are
contiguous from bit 15 down), and then it is `2^k`. -/
theorem io_size_law (M : Nat) :
    io_size M = 65536 - (M &&& 0xFFFC) ∧ 4 ≤ io_size M ∧ io_size M ≤ 65536 ∧
    (∀ k : Nat, io_size M = 2 ^ k ↔ (2 ≤ k ∧ k ≤ 16 ∧ M &&& 0xFFFC = 65536 - 2 ^ k)) := by
  have hx : M &&& 0xFFFC ≤ 0xFFFC := Nat.and_le_right
  have he := io_size_eq M
  refine ⟨he, by omega, by omega, ?_⟩
  intro k
  constructor
  · intro hk
    have hb : 2 ≤ k ∧ k ≤ 16 :=
      pow_two_bounds k 2 16 (by rw [← hk]; simp; omega) (by rw [← hk]; simp; omega)
    refine ⟨hb.1, hb.2, ?_⟩
    omega
  · rintro ⟨_, hk16, hk⟩
    have : 2 ^ k ≤ 2 ^ 16 := Nat.pow_le_pow_right (by decide) hk16
    simp at this
    omega

/-- C9 (as stated, refuted): for the readback `M = 0` of an unpopulated memory
BAR the stored size is 0, which is neither `2^32` nor a power of two; and for
the readback `M = 0xFFFF00F0` it is 0xFF10, not a power of two either. -/
theorem mem_size_unpopulated_wraps :
    mem_size 0 = 0 ∧ mem_size 0 ≠ 2 ^ 32 ∧ ¬ (∃ k : Nat, mem_size 0 = 2 ^ k) ∧
    mem_size 0xFFFF00F0 = 0xFF10 ∧ ¬ (∃ k : Nat, mem_size 0xFFFF00F0 = 2 ^ k) := by
  have h0 : mem_size 0 = 0 := by decide
  have h1 : mem_size 0xFFFF00F0 = 0xFF10 := by decide
  refine ⟨h0, by rw [h0]; decide, ?_, h1, ?_⟩
  · rintro ⟨k, hk⟩
    rw [h0] at hk
    have := Nat.two_pow_pos k
    omega
  · rintro ⟨k, hk⟩
    rw [h1] at hk
    have hk16 : k < 16 := by
      by_contra hge
      have : 2 ^ 16 ≤ 2 ^ k := Nat.pow_le_pow_right (by decide) (by omega)
      omega
    interval_cases k <;> simp at hk

theorem pci_get_nth_spec_witness :
    pci_get_nth demo_dir 2 = some 2 ∧
      deref demo_dir (pci_get_nth demo_dir 2) = some (demo_dir.pci_infos 2) :=
  (pci_get_nth_spec demo_dir 2).2.1 (by decide)

theorem pci_find_spec_witness : pci_find demo_dir 0x8086 0x100E = some 1 :=
  ((pci_find_spec demo_dir 0x8086 0x100E).1 1).2
    ⟨by decide, by decide, fun m hm => by
      have h0 : m = 0 := by omega
      subst h0
      decide⟩

/-! ## The worked example: BAR0 = 0xFEBC0004 -/

set_option maxRecDepth 100000 in
/-- C4 (evaluation at the failing input): function (0, 3, 0) has BAR0
operational value 0xFEBC0004 with sizing readback 0xFFFF0000, and BAR1
operational value 0x0000C001 with sizing readback 0xFFFFFFE1.  `kind[0]` is 4,
whose bits 2-1 are `10`, so the test `(kind[0] & 6) == 2` fails and slot 1 is
not consumed: it is sized and decoded on its own, giving `kind[1] = 1`,
`size[1] = 32` and `base[1] = 0xC000`, not the raw value 0xC001. -/
theorem probe_e1000_slot1_decoded :
    (pciprobe scripted (e1000_script 0x0000C001 0xFFFFFFE1) 0 3 0).1 =
      { pci_zero with
        vendor_id := 0x8086, device_id := 0x100E, class_code := 2, rev_id := 3,
        int_pin := 1, int_line := 11,
        base := [0xFEBC0000, 0xC000, 0, 0, 0, 0], size := [0x10000, 32, 0, 0, 0, 0],
        kind := [4, 1, 0, 0, 0, 0] } := by
  decide

/-! ## The memory size law, as stored by the decode step -/

/-- C9 (amended): for a memory-space BAR (bit 0 of the operational value clear)
with sizing readback `n`, the decode step stores
`size[i] = (2^32 - (n & 0xFFFFFFF0)) mod 2^32`, a value below `2^32`.  It is a
power of two `2^k` exactly when `n & 0xFFFFFFF0 = 2^32 - 2^k` with
`4 ≤ k ≤ 31`; for an unpopulated BAR (`n & 0xFFFFFFF0 = 0`) it is 0. -/
theorem mem_size_law {σ : Type} (M : Ports σ) (bus dev fn : Nat) (st : BarState σ) (n : Nat)
    (hwf : st.pci.wf) (hi : st.i < 6)
    (hmem : (pciread M st.hw bus dev fn (0x10 + 4 * st.i)).1 &&& 1 = 0)
    (hn : n = (pciread M (pciwrite M (pciread M st.hw bus dev fn (0x10 + 4 * st.i)).2
      bus dev fn (0x10 + 4 * st.i) 0xffffffff) bus dev fn (0x10 + 4 * st.i)).1) :
    load_size (bar_decode M bus dev fn st).pci st.i = mem_size n ∧
    mem_size n = (4294967296 - (n &&& 0xFFFFFFF0)) % 4294967296 ∧
    mem_size n < 4294967296 ∧
    (n &&& 0xFFFFFFF0 = 0 → mem_size n = 0) ∧
    (∀ k : Nat, mem_size n = 2 ^ k ↔
      (4 ≤ k ∧ k ≤ 31 ∧ n &&& 0xFFFFFFF0 = 4294967296 - 2 ^ k)) := by
  obtain ⟨_, _, _, hs⟩ := bar_decode_pci M bus dev fn st hwf hi st.i
  have hx : n &&& 0xFFFFFFF0 ≤ 0xFFFFFFF0 := Nat.and_le_right
  have he := mem_size_eq n
  refine ⟨?_, he, by omega, by omega, ?_⟩
  · rw [hs, hn]
    simp only [if_true, hmem, ne_eq, not_true_eq_false, if_false]
  · intro k
    constructor
    · intro hk
      have hpos : 0 < 2 ^ k := Nat.two_pow_pos k
      have h4 : 2 ^ 4 ≤ 2 ^ k := by simp only [Nat.reducePow]; omega
      have h32 : 2 ^ k < 2 ^ 32 := by simp only [Nat.reducePow]; omega
      have hk4 : 4 ≤ k := (Nat.pow_le_pow_iff_right (by decide)).1 h4
      have hk32 : k < 32 := (Nat.pow_lt_pow_iff_right (by decide)).1 h32
      exact ⟨hk4, by omega, by omega⟩
    · rintro ⟨_, hk31, hk⟩
      have : 2 ^ k ≤ 2 ^ 31 := Nat.pow_le_pow_right (by decide) hk31
      have hpos : 0 < 2 ^ k := Nat.two_pow_pos k
      simp only [Nat.reducePow] at this
      omega

theorem mem_size_law_witness :
    load_size (bar_decode scripted 0 3 0
      { i := 0, hw := [0xFEBC0004, 0xFFFF0000], pci := pci_zero }).pci 0 = 65536 :=
  (mem_size_law scripted 0 3 0 { i := 0, hw := [0xFEBC0004, 0xFFFF0000], pci := pci_zero }
    0xFFFF0000 pci_zero_wf (by decide) (by decide) (by decide)).1.trans (by decide)

/-! ## The address word -/

set_option maxRecDepth 100000 in
/-- The mask `0xFC` keeps bits 7-2: the register number divided by 4, modulo
64, back at bit position 2. -/
theorem and_0xFC (reg : Nat) : reg &&& 0xFC = (reg / 4 % 64) * 4 := by
  have h1 : reg &&& 0xFC = (reg % 256) &&& 0xFC := by
    have e : (0xFC : Nat) = 0xFF &&& 0xFC := by decide
    have hm : reg &&& 0xFF = reg % 256 := Nat.and_pow_two_sub_one_eq_mod reg 8
    calc reg &&& 0xFC = reg &&& (0xFF &&& 0xFC) := by rw [← e]
      _ = (reg &&& 0xFF) &&& 0xFC := by rw [Nat.and_assoc]
      _ = (reg % 256) &&& 0xFC := by rw [hm]
  have h2 : ∀ r : Nat, r < 256 → r &&& 0xFC = r / 4 * 4 := by decide
  rw [h1, h2 _ (Nat.mod_lt _ (by decide))]
  omega

/-- C11: the data-port access of `pciread` and of `pciwrite` for
`(bus, dev, fn, reg)` happens with the same word `w` in the address port, and
`w = 0x80000000 | ((bus & 0xFF) << 16) | ((dev & 0x1F) << 11) | ((fn & 7) << 8)
| (reg & 0xFC)`.  Bit 31 of `w` is set and nothing above it, bits 30-24 and
1-0 are clear, bits 23-16 hold the bus, bits 15-11 the device, bits 10-8 the
function and bits 7-2 the register number divided by 4.  A register number
with the same quotient by 4 gives the same access. -/
theorem address_word {σ : Type} (M : Ports σ) (s : σ) (bus dev fn reg val : Nat) :
    ∃ w v : Nat,
      (pciread (monitor M) (Mon.start s) bus dev fn reg).2.log = [Access.rd w v] ∧
      (pciwrite (monitor M) (Mon.start s) bus dev fn reg val).log = [Access.wr w val] ∧
      w = cfg_addr bus dev fn reg ∧
      w = 0x80000000 ||| ((bus &&& 0xFF) <<< 16) ||| ((dev &&& 0x1F) <<< 11) |||
        ((fn &&& 7) <<< 8) ||| (reg &&& 0xFC) ∧
      w / 2 ^ 31 = 1 ∧ w / 2 ^ 24 % 128 = 0 ∧ w % 4 = 0 ∧
      w / 2 ^ 16 % 256 = bus % 256 ∧ w / 2 ^ 11 % 32 = dev % 32 ∧
      w / 2 ^ 8 % 8 = fn % 8 ∧ w / 4 % 64 = reg / 4 % 64 ∧
      ∀ reg' : Nat, reg' / 4 = reg / 4 →
        pciread (monitor M) (Mon.start s) bus dev fn reg' =
          pciread (monitor M) (Mon.start s) bus dev fn reg ∧
        pciwrite (monitor M) (Mon.start s) bus dev fn reg' val =
          pciwrite (monitor M) (Mon.start s) bus dev fn reg val := by
  have hw := cfg_addr_eq bus dev fn reg
  have hr := and_0xFC reg
  have hb' : bus % 256 < 256 := Nat.mod_lt _ (by decide)
  have hd' : dev % 32 < 32 := Nat.mod_lt _ (by decide)
  have hf' : fn % 8 < 8 := Nat.mod_lt _ (by decide)
  have hq : reg / 4 % 64 < 64 := Nat.mod_lt _ (by decide)
  have hor : cfg_addr bus dev fn reg =
      0x80000000 ||| ((bus &&& 0xFF) <<< 16) ||| ((dev &&& 0x1F) <<< 11) |||
        ((fn &&& 7) <<< 8) ||| (reg &&& 0xFC) := by
    have e : (0x80000000 : Nat) = 1 <<< 31 := by decide
    rw [hw, ← addr_word_eq, ← e]
  refine ⟨cfg_addr bus dev fn reg,
    (M.inl (M.outl s ADDR (cfg_addr bus dev fn reg)) DATA).1, ?_, ?_, rfl, hor, ?_⟩
  · rw [pciread_monitor]; rfl
  · rw [pciwrite_monitor]; rfl
  · rw [hw, hr]
    simp only [Nat.reducePow]
    refine ⟨by omega, by omega, by omega, by omega, by omega, by omega, by omega, ?_⟩
    intro reg' hq'
    have hsame : cfg_addr bus dev fn reg' = cfg_addr bus dev fn reg := by
      rw [cfg_addr_eq, cfg_addr_eq, and_0xFC, and_0xFC, hq']
    constructor
    · rw [pciread_def, pciread_def, hsame]
    · rw [pciwrite_def, pciwrite_def, hsame]

/-- C20: on in-range inputs (`bus < 256`, `dev < 32`, `fn < 8`, `reg < 256`
and 4-byte aligned) the address word of `pciread` / `pciwrite` determines the
tuple: equal words come from equal `(bus, dev, fn, reg)`. -/
theorem cfg_addr_injective (bus dev fn reg bus' dev' fn' reg' : Nat)
    (hb : bus < 256) (hd : dev < 32) (hf : fn < 8) (hr : reg < 256) (ha : reg % 4 = 0)
    (hb' : bus' < 256) (hd' : dev' < 32) (hf' : fn' < 8) (hr' : reg' < 256)
    (ha' : reg' % 4 = 0)
    (h : cfg_addr bus dev fn reg = cfg_addr bus' dev' fn' reg') :
    bus = bus' ∧ dev = dev' ∧ fn = fn' ∧ reg = reg' := by
  rw [cfg_addr_eq, cfg_addr_eq, and_0xFC, and_0xFC] at h
  omega

theorem cfg_addr_injective_witness :
    cfg_addr 0 3 0 0x10 = cfg_addr 0 3 0 0x10 ∧ (0 = 0 ∧ 3 = 3 ∧ 0 = 0 ∧ 0x10 = 0x10) :=
  ⟨rfl, cfg_addr_injective 0 3 0 0x10 0 3 0 0x10 (by decide) (by decide) (by decide)
    (by decide) (by decide) (by decide) (by decide) (by decide) (by decide) (by decide) rfl⟩

/-! ## The identity, class and interrupt fields -/

theorem u8_eq_and (x : Nat) : u8 x = x &&& 0xFF :=
  (Nat.and_pow_two_sub_one_eq_mod x 8).symm

theorem u16_eq_and (x : Nat) : u16 x = x &&& 0xFFFF :=
  (Nat.and_pow_two_sub_one_eq_mod x 16).symm

theorem u16_shift16 {x : Nat} (h : x < 4294967296) : u16 (x >>> 16) = x >>> 16 := by
  rw [Nat.shiftRight_eq_div_pow]
  unfold u16
  simp only [Nat.reducePow]
  omega

theorem u8_shift24 {x : Nat} (h : x < 4294967296) : u8 (x >>> 24) = x >>> 24 := by
  rw [Nat.shiftRight_eq_div_pow]
  unfold u8
  simp only [Nat.reducePow]
  omega

/-- The record of `probe_ident` is well formed and its arrays are zero. -/
theorem probe_ident_arrays {σ : Type} (M : Ports σ) (s : σ) (bus dev fn : Nat) :
    (probe_ident M s bus dev fn).1.wf ∧
    (probe_ident M s bus dev fn).1.base = [0, 0, 0, 0, 0, 0] ∧
    (probe_ident M s bus dev fn).1.size = [0, 0, 0, 0, 0, 0] ∧
    (probe_ident M s bus dev fn).1.kind = [0, 0, 0, 0, 0, 0] ∧
    (probe_ident M s bus dev fn).1.int_pin = 0 ∧
    (probe_ident M s bus dev fn).1.int_line = 0 :=
  ⟨⟨rfl, rfl, rfl, rfl⟩, rfl, rfl, rfl, rfl, rfl⟩

/-- The scalar fields that `pciprobe` takes over from `probe_ident`, whatever
the header type. -/
theorem pciprobe_ident_fields {σ : Type} (M : Ports σ) (s : σ) (bus dev fn : Nat) :
    (pciprobe M s bus dev fn).1.vendor_id = (probe_ident M s bus dev fn).1.vendor_id ∧
    (pciprobe M s bus dev fn).1.device_id = (probe_ident M s bus dev fn).1.device_id ∧
    (pciprobe M s bus dev fn).1.header_type = (probe_ident M s bus dev fn).1.header_type ∧
    (pciprobe M s bus dev fn).1.class_code = (probe_ident M s bus dev fn).1.class_code ∧
    (pciprobe M s bus dev fn).1.subclass = (probe_ident M s bus dev fn).1.subclass ∧
    (pciprobe M s bus dev fn).1.prog_if = (probe_ident M s bus dev fn).1.prog_if ∧
    (pciprobe M s bus dev fn).1.rev_id = (probe_ident M s bus dev fn).1.rev_id := by
  unfold pciprobe
  simp only
  split
  · unfold probe_device
    simp only
    obtain ⟨h1, h2, h3, h4, h5, h6, h7, _, _⟩ := bar_loop_scalars M bus dev fn 6
      (bar_entry M (probe_ident M s bus dev fn).2 bus dev fn (probe_ident M s bus dev fn).1)
    exact ⟨h1, h2, h3, h4, h5, h6, h7⟩
  · split <;> exact ⟨rfl, rfl, rfl, rfl, rfl, rfl, rfl⟩

/-- Unfolding of `pciprobe` for a function of header type 0. -/
theorem pciprobe_device {σ : Type} (M : Ports σ) (s : σ) (bus dev fn : Nat)
    (h : (probe_ident M s bus dev fn).1.header_type &&& 0x7F = 0) :
    pciprobe M s bus dev fn =
      probe_device M (probe_ident M s bus dev fn).2 bus dev fn (probe_ident M s bus dev fn).1 := by
  unfold pciprobe
  simp only [h, if_true]

/-- Unfolding of `pciprobe` for a function of any other header type. -/
theorem pciprobe_other {σ : Type} (M : Ports σ) (s : σ) (bus dev fn : Nat)
    (h : (probe_ident M s bus dev fn).1.header_type &&& 0x7F ≠ 0) :
    pciprobe M s bus dev fn = probe_ident M s bus dev fn := by
  unfold pciprobe
  simp only [h, if_false]
  split <;> rfl

/-- C14: with `r0`, `r8`, `rC` the values read from registers 0x00, 0x08 and
0x0c, `pciprobe` records `vendor_id = r0 & 0xFFFF`, `device_id = r0 >> 16`,
`class_code = r8 >> 24`, `subclass = (r8 >> 16) & 0xFF`,
`prog_if = (r8 >> 8) & 0xFF`, `rev_id = r8 & 0xFF` and `header_type = rC >> 24`
for every function, whatever its header type; for header type 0 it records
`int_line = r3C & 0xFF` and `int_pin = (r3C >> 8) & 0xFF`, with `r3C` the value
read from register 0x3c after the command register is restored. -/
theorem pciprobe_fields {σ : Type} (M : Ports σ) (s : σ) (bus dev fn : Nat) :
    let r0 := pciread M s bus dev fn 0x00
    let r8 := pciread M r0.2 bus dev fn 0x08
    let rC := pciread M r8.2 bus dev fn 0x0c
    let p := (pciprobe M s bus dev fn).1
    p.vendor_id = r0.1 &&& 0xFFFF ∧ p.device_id = r0.1 >>> 16 ∧
    p.class_code = r8.1 >>> 24 ∧ p.subclass = (r8.1 >>> 16) &&& 0xFF ∧
    p.prog_if = (r8.1 >>> 8) &&& 0xFF ∧ p.rev_id = r8.1 &&& 0xFF ∧
    p.header_type = rC.1 >>> 24 ∧
    (p.header_type &&& 0x7F = 0 →
      let r4 := pciread M rC.2 bus dev fn 0x04
      let st := bar_loop M bus dev fn 6
        (bar_entry M rC.2 bus dev fn (probe_ident M s bus dev fn).1)
      let r3C := pciread M (pciwrite M st.hw bus dev fn 0x04 r4.1) bus dev fn 0x3c
      p.int_line = r3C.1 &&& 0xFF ∧ p.int_pin = (r3C.1 >>> 8) &&& 0xFF) := by
  intro r0 r8 rC p
  obtain ⟨h1, h2, h3, h4, h5, h6, h7⟩ := pciprobe_ident_fields M s bus dev fn
  have e1 : (probe_ident M s bus dev fn).1.vendor_id = u16 r0.1 := rfl
  have e2 : (probe_ident M s bus dev fn).1.device_id = u16 (r0.1 >>> 16) := rfl
  have e3 : (probe_ident M s bus dev fn).1.header_type = u8 (rC.1 >>> 24) := rfl
  have e4 : (probe_ident M s bus dev fn).1.class_code = u8 (r8.1 >>> 24) := rfl
  have e5 : (probe_ident M s bus dev fn).1.subclass = u8 (r8.1 >>> 16) := rfl
  have e6 : (probe_ident M s bus dev fn).1.prog_if = u8 (r8.1 >>> 8) := rfl
  have e7 : (probe_ident M s bus dev fn).1.rev_id = u8 r8.1 := rfl
  have e8 : (probe_ident M s bus dev fn).2 = rC.2 := rfl
  refine ⟨?_, ?_, ?_, ?_, ?_, ?_, ?_, ?_⟩
  · show (pciprobe M s bus dev fn).1.vendor_id = _
    rw [h1, e1, u16_eq_and]
  · show (pciprobe M s bus dev fn).1.device_id = _
    rw [h2, e2, u16_shift16 (pciread_lt M s bus dev fn 0)]
  · show (pciprobe M s bus dev fn).1.class_code = _
    rw [h4, e4, u8_shift24 (pciread_lt M _ bus dev fn 8)]
  · show (pciprobe M s bus dev fn).1.subclass = _
    rw [h5, e5, u8_eq_and]
  · show (pciprobe M s bus dev fn).1.prog_if = _
    rw [h6, e6, u8_eq_and]
  · show (pciprobe M s bus dev fn).1.rev_id = _
    rw [h7, e7, u8_eq_and]
  · show (pciprobe M s bus dev fn).1.header_type = _
    rw [h3, e3, u8_shift24 (pciread_lt M _ bus dev fn 12)]
  · intro hz r4 st r3C
    have hz' : (probe_ident M s bus dev fn).1.header_type &&& 0x7F = 0 := by
      rw [← h3]; exact hz
    have hp : p = (probe_device M (probe_ident M s bus dev fn).2 bus dev fn
        (probe_ident M s bus dev fn).1).1 := by
      show (pciprobe M s bus dev fn).1 = _
      rw [pciprobe_device M s bus dev fn hz']
    constructor
    · rw [hp, ← u8_eq_and]; rfl
    · rw [hp, ← u8_eq_and]; rfl

set_option maxRecDepth 100000 in
/-- C13 (evaluation at the failing input): register 0x0c reads 0x00800000, so
bit 23, the bit `pci_init` tests, is set; `pciprobe` records
`header_type = 0x00800000 >> 24 = 0`, whose bit 7 is clear. -/
theorem header_type_is_top_byte :
    (pciprobe scripted multifunction_script 0 3 0).1.header_type = 0 ∧
    (pciprobe scripted multifunction_script 0 3 0).1.header_type &&& 0x80 = 0 ∧
    (pciread scripted [0x00800000] 0 3 0 12).1 &&& 0x00800000 ≠ 0 := by
  refine ⟨by decide, by decide, by decide⟩

/-! ## The bus monitor is transparent -/

theorem probe_ident_monitor {σ : Type} (M : Ports σ) (m : Mon σ) (bus dev fn : Nat) :
    (probe_ident (monitor M) m bus dev fn).1 = (probe_ident M m.hw bus dev fn).1 ∧
    (probe_ident (monitor M) m bus dev fn).2.hw = (probe_ident M m.hw bus dev fn).2 ∧
    ∃ v0 v8 vc, (probe_ident (monitor M) m bus dev fn).2.log =
      m.log ++ [Access.rd (cfg_addr bus dev fn 0x00) v0, Access.rd (cfg_addr bus dev fn 0x08) v8,
        Access.rd (cfg_addr bus dev fn 0x0c) vc] := by
  unfold probe_ident
  simp only [pciread_monitor, List.append_assoc, List.singleton_append]
  exact ⟨trivial, trivial, _, _, _, rfl⟩

theorem bar_decode_unmon {σ : Type} (M : Ports σ) (bus dev fn : Nat) (st : BarState (Mon σ)) :
    (bar_decode (monitor M) bus dev fn st).unmon = bar_decode M bus dev fn st.unmon := by
  unfold bar_decode BarState.unmon
  simp only [pciread_monitor, pciwrite_monitor]

theorem bar_decode_log {σ : Type} (M : Ports σ) (bus dev fn : Nat) (st : BarState (Mon σ)) :
    ∃ v1 v2 w, (bar_decode (monitor M) bus dev fn st).hw.log =
      st.hw.log ++ [Access.rd (cfg_addr bus dev fn (0x10 + 4 * st.i)) v1,
        Access.wr (cfg_addr bus dev fn (0x10 + 4 * st.i)) 0xffffffff,
        Access.rd (cfg_addr bus dev fn (0x10 + 4 * st.i)) v2,
        Access.wr (cfg_addr bus dev fn (0x10 + 4 * st.i)) w] := by
  unfold bar_decode
  simp only [pciread_monitor, pciwrite_monitor, List.append_assoc, List.singleton_append]
  exact ⟨_, _, _, rfl⟩

theorem bar_cont_unmon {σ : Type} (M : Ports σ) (bus dev fn : Nat) (st : BarState (Mon σ)) :
    (bar_cont (monitor M) bus dev fn st).unmon = bar_cont M bus dev fn st.unmon := by
  unfold bar_cont BarState.unmon
  simp only [pciread_monitor]

theorem bar_cont_log {σ : Type} (M : Ports σ) (bus dev fn : Nat) (st : BarState (Mon σ)) :
    ∃ v, (bar_cont (monitor M) bus dev fn st).hw.log =
      st.hw.log ++ [Access.rd (cfg_addr bus dev fn (0x10 + 4 * (st.i + 1))) v] := by
  unfold bar_cont
  simp only [pciread_monitor]
  exact ⟨_, rfl⟩

theorem unmon_pci {σ : Type} (st : BarState (Mon σ)) : st.unmon.pci = st.pci := rfl

theorem unmon_i {σ : Type} (st : BarState (Mon σ)) : st.unmon.i = st.i := rfl

theorem bar_body_unmon {σ : Type} (M : Ports σ) (bus dev fn : Nat) (st : BarState (Mon σ)) :
    (bar_body (monitor M) bus dev fn st).unmon = bar_body M bus dev fn st.unmon := by
  have hd := bar_decode_unmon M bus dev fn st
  have hk : load_kind (bar_decode (monitor M) bus dev fn st).pci st.i =
      load_kind (bar_decode M bus dev fn st.unmon).pci st.unmon.i := by
    rw [← hd]; rfl
  by_cases h : load_kind (bar_decode (monitor M) bus dev fn st).pci st.i &&& 6 = 2
  · rw [bar_body_flagged (monitor M) bus dev fn st h,
      bar_body_flagged M bus dev fn st.unmon (by rw [← hk]; exact h), ← hd, ← bar_cont_unmon]
    rfl
  · rw [bar_body_plain (monitor M) bus dev fn st h,
      bar_body_plain M bus dev fn st.unmon (by rw [← hk]; exact h), ← hd]
    rfl

theorem bar_loop_unmon {σ : Type} (M : Ports σ) (bus dev fn : Nat) :
    ∀ (k : Nat) (st : BarState (Mon σ)),
      (bar_loop (monitor M) bus dev fn k st).unmon = bar_loop M bus dev fn k st.unmon := by
  intro k
  induction k with
  | zero => intro st; rfl
  | succ k ih =>
    intro st
    by_cases hi : st.i < 6
    · rw [bar_loop_succ (monitor M) bus dev fn k st hi,
        bar_loop_succ M bus dev fn k st.unmon hi, ih, bar_body_unmon]
    · rw [bar_loop_exit (monitor M) bus dev fn _ st hi, bar_loop_exit M bus dev fn _ st.unmon hi]

/-- The record and the hardware state of a monitored probe are those of the
probe on the bare hardware. -/
theorem pciprobe_monitor {σ : Type} (M : Ports σ) (m : Mon σ) (bus dev fn : Nat) :
    (pciprobe (monitor M) m bus dev fn).1 = (pciprobe M m.hw bus dev fn).1 ∧
    (pciprobe (monitor M) m bus dev fn).2.hw = (pciprobe M m.hw bus dev fn).2 := by
  obtain ⟨h1, h2, _⟩ := probe_ident_monitor M m bus dev fn
  by_cases hz : (probe_ident M m.hw bus dev fn).1.header_type &&& 0x7F = 0
  · rw [pciprobe_device M m.hw bus dev fn hz,
      pciprobe_device (monitor M) m bus dev fn (by rw [h1]; exact hz)]
    have hl := bar_loop_unmon M bus dev fn 6
      (bar_entry (monitor M) (probe_ident (monitor M) m bus dev fn).2 bus dev fn
        (probe_ident (monitor M) m bus dev fn).1)
    have he : (bar_entry (monitor M) (probe_ident (monitor M) m bus dev fn).2 bus dev fn
        (probe_ident (monitor M) m bus dev fn).1).unmon =
        bar_entry M (probe_ident M m.hw bus dev fn).2 bus dev fn
          (probe_ident M m.hw bus dev fn).1 := by
      unfold bar_entry BarState.unmon
      simp only [pciread_monitor, pciwrite_monitor, h1, h2]
    rw [he] at hl
    have hpci := congrArg BarState.pci hl
    have hhw := congrArg BarState.hw hl
    simp only [BarState.unmon] at hpci hhw
    unfold probe_device
    simp only [pciread_monitor, pciwrite_monitor, hpci, hhw, h2]
    exact ⟨trivial, trivial⟩
  · rw [pciprobe_other M m.hw bus dev fn hz,
      pciprobe_other (monitor M) m bus dev fn (by rw [h1]; exact hz)]
    exact ⟨h1, h2⟩

/-- C12: when the recorded `header_type & 0x7F` is not 0, the record of
`pciprobe` has `int_pin = 0`, `int_line = 0` and all six `base`, `size` and
`kind` slots zero, and the probe consists of the three reads of registers
0x00, 0x08 and 0x0c: no configuration write is issued. -/
theorem pciprobe_other_header {σ : Type} (M : Ports σ) (s : σ) (bus dev fn : Nat)
    (h : (pciprobe M s bus dev fn).1.header_type &&& 0x7F ≠ 0) :
    (pciprobe M s bus dev fn).1.int_pin = 0 ∧ (pciprobe M s bus dev fn).1.int_line = 0 ∧
    (pciprobe M s bus dev fn).1.base = [0, 0, 0, 0, 0, 0] ∧
    (pciprobe M s bus dev fn).1.size = [0, 0, 0, 0, 0, 0] ∧
    (pciprobe M s bus dev fn).1.kind = [0, 0, 0, 0, 0, 0] ∧
    (∀ i, i < 6 → load_base (pciprobe M s bus dev fn).1 i = 0 ∧
      load_size (pciprobe M s bus dev fn).1 i = 0 ∧ load_kind (pciprobe M s bus dev fn).1 i = 0) ∧
    (pciprobe (monitor M) (Mon.start s) bus dev fn).1 = (pciprobe M s bus dev fn).1 ∧
    (∃ v0 v8 vc, (pciprobe (monitor M) (Mon.start s) bus dev fn).2.log =
      [Access.rd (cfg_addr bus dev fn 0x00) v0, Access.rd (cfg_addr bus dev fn 0x08) v8,
        Access.rd (cfg_addr bus dev fn 0x0c) vc]) ∧
    ∀ a v, Access.wr a v ∉ (pciprobe (monitor M) (Mon.start s) bus dev fn).2.log := by
  have h3 := (pciprobe_ident_fields M s bus dev fn).2.2.1
  have hz : (probe_ident M s bus dev fn).1.header_type &&& 0x7F ≠ 0 := by
    rw [← h3]; exact h
  obtain ⟨m1, m2, v0, v8, vc, m3⟩ := probe_ident_monitor M (Mon.start s) bus dev fn
  have hmon : pciprobe (monitor M) (Mon.start s) bus dev fn =
      probe_ident (monitor M) (Mon.start s) bus dev fn :=
    pciprobe_other (monitor M) (Mon.start s) bus dev fn (by rw [m1]; exact hz)
  have hlog : (pciprobe (monitor M) (Mon.start s) bus dev fn).2.log =
      [Access.rd (cfg_addr bus dev fn 0x00) v0, Access.rd (cfg_addr bus dev fn 0x08) v8,
        Access.rd (cfg_addr bus dev fn 0x0c) vc] := by
    rw [hmon, m3]; rfl
  obtain ⟨_, hb, hs, hk, hp, hl⟩ := probe_ident_arrays M s bus dev fn
  rw [pciprobe_other M s bus dev fn hz]
  refine ⟨hp, hl, hb, hs, hk, ?_, ?_, ⟨v0, v8, vc, hlog⟩, ?_⟩
  · intro i hi
    unfold load_base load_size load_kind
    rw [hb, hs, hk]
    interval_cases i <;> exact ⟨rfl, rfl, rfl⟩
  · rw [hmon, m1]; rfl
  · intro a v hmem
    rw [hlog] at hmem
    simp at hmem

theorem pciprobe_other_header_witness :
    (pciprobe scripted [0x00011234, 0x06040000, 0x01000000] 0 1 0).1.kind = [0, 0, 0, 0, 0, 0] :=
  (pciprobe_other_header scripted [0x00011234, 0x06040000, 0x01000000] 0 1 0
    (by decide)).2.2.2.2.1

/-! ## Passes of the decode loop -/

theorem BarWrites_nil (bus dev fn lo hi : Nat) : BarWrites bus dev fn lo hi [] := by
  intro a v h
  cases h

theorem BarWrites_append {bus dev fn lo hi : Nat} {l1 l2 : List Access}
    (h1 : BarWrites bus dev fn lo hi l1) (h2 : BarWrites bus dev fn lo hi l2) :
    BarWrites bus dev fn lo hi (l1 ++ l2) := by
  intro a v h
  rcases List.mem_append.1 h with h | h
  · exact h1 a v h
  · exact h2 a v h

theorem BarWrites_mono {bus dev fn lo hi lo' hi' : Nat} {l : List Access}
    (h : BarWrites bus dev fn lo hi l) (hlo : lo' ≤ lo) (hhi : hi ≤ hi') :
    BarWrites bus dev fn lo' hi' l := by
  intro a v hm
  obtain ⟨j, h1, h2, h3⟩ := h a v hm
  exact ⟨j, by omega, by omega, h3⟩

/-- The accesses of one pass: the only writes go to the register of the slot
the pass starts at. -/
theorem bar_body_log {σ : Type} (M : Ports σ) (bus dev fn : Nat) (st : BarState (Mon σ)) :
    ∃ ext, (bar_body (monitor M) bus dev fn st).hw.log = st.hw.log ++ ext ∧
      BarWrites bus dev fn st.i (st.i + 1) ext := by
  obtain ⟨v1, v2, w, hd⟩ := bar_decode_log M bus dev fn st
  have hw4 : BarWrites bus dev fn st.i (st.i + 1)
      [Access.rd (cfg_addr bus dev fn (0x10 + 4 * st.i)) v1,
        Access.wr (cfg_addr bus dev fn (0x10 + 4 * st.i)) 0xffffffff,
        Access.rd (cfg_addr bus dev fn (0x10 + 4 * st.i)) v2,
        Access.wr (cfg_addr bus dev fn (0x10 + 4 * st.i)) w] := by
    intro a v hm
    simp only [List.mem_cons, Access.wr.injEq, List.mem_singleton, false_or, reduceCtorEq,
      List.not_mem_nil, or_false] at hm
    rcases hm with hm | hm
    · exact ⟨st.i, le_refl _, by omega, hm.1⟩
    · exact ⟨st.i, le_refl _, by omega, hm.1⟩
  by_cases h : load_kind (bar_decode (monitor M) bus dev fn st).pci st.i &&& 6 = 2
  · obtain ⟨v, hc⟩ := bar_cont_log M bus dev fn (bar_decode (monitor M) bus dev fn st)
    rw [bar_body_flagged (monitor M) bus dev fn st h]
    refine ⟨[Access.rd (cfg_addr bus dev fn (0x10 + 4 * st.i)) v1,
        Access.wr (cfg_addr bus dev fn (0x10 + 4 * st.i)) 0xffffffff,
        Access.rd (cfg_addr bus dev fn (0x10 + 4 * st.i)) v2,
        Access.wr (cfg_addr bus dev fn (0x10 + 4 * st.i)) w] ++ [Access.rd (cfg_addr bus dev fn
      (0x10 + 4 * ((bar_decode (monitor M) bus dev fn st).i + 1))) v], ?_, ?_⟩
    · show (bar_cont (monitor M) bus dev fn (bar_decode (monitor M) bus dev fn st)).hw.log = _
      rw [hc, hd, List.append_assoc]
    · refine BarWrites_append hw4 ?_
      intro a v' hm
      simp at hm
  · rw [bar_body_plain (monitor M) bus dev fn st h]
    exact ⟨_, hd, hw4⟩

/-- The accesses of the whole loop: the only writes go to BAR registers of
slots from the starting `i` up to 5. -/
theorem bar_loop_log {σ : Type} (M : Ports σ) (bus dev fn : Nat) :
    ∀ (k : Nat) (st : BarState (Mon σ)),
      ∃ ext, (bar_loop (monitor M) bus dev fn k st).hw.log = st.hw.log ++ ext ∧
        BarWrites bus dev fn st.i 6 ext := by
  intro k
  induction k with
  | zero => intro st; exact ⟨[], by simp [bar_loop], BarWrites_nil _ _ _ _ _⟩
  | succ k ih =>
    intro st
    by_cases hi : st.i < 6
    · rw [bar_loop_succ (monitor M) bus dev fn k st hi]
      obtain ⟨e1, h1, w1⟩ := bar_body_log M bus dev fn st
      obtain ⟨e2, h2, w2⟩ := ih (bar_body (monitor M) bus dev fn st)
      have hb := bar_body_i (monitor M) bus dev fn st
      refine ⟨e1 ++ e2, by rw [h2, h1, List.append_assoc], ?_⟩
      exact BarWrites_append (BarWrites_mono w1 (le_refl _) (by omega))
        (BarWrites_mono w2 (by omega) (le_refl _))
    · rw [bar_loop_exit (monitor M) bus dev fn _ st hi]
      exact ⟨[], by simp, BarWrites_nil _ _ _ _ _⟩

/-- A pass `st` of the loop splits it: the passes before it start at smaller
indices, and the rest of the loop is the loop continued from the state the
pass produces. -/
theorem bar_iters_split {σ : Type} (M : Ports σ) (bus dev fn : Nat) :
    ∀ (k : Nat) (st0 st : BarState σ), st ∈ bar_iters M bus dev fn k st0 →
      ∃ k' pre, bar_iters M bus dev fn k st0 =
          pre ++ st :: bar_iters M bus dev fn k' (bar_body M bus dev fn st) ∧
        (∀ x, x ∈ pre → x.i < st.i) ∧
        bar_loop M bus dev fn k st0 = bar_loop M bus dev fn k' (bar_body M bus dev fn st) ∧
        st0.i ≤ st.i ∧ st.i < 6 ∧ (st0.pci.wf → st.pci.wf) := by
  intro k
  induction k with
  | zero => intro st0 st h; simp [bar_iters] at h
  | succ k ih =>
    intro st0 st h
    by_cases hi : st0.i < 6
    · have hu : bar_iters M bus dev fn (k + 1) st0 =
          st0 :: bar_iters M bus dev fn k (bar_body M bus dev fn st0) := by
        simp only [bar_iters, hi, if_true]
      rw [hu] at h
      rw [hu, bar_loop_succ M bus dev fn k st0 hi]
      rcases List.mem_cons.1 h with h | h
      · subst h
        exact ⟨k, [], rfl, (fun x hx => by cases hx), rfl, le_refl _, hi, fun w => w⟩
      · obtain ⟨k', pre, e1, e2, e3, e4, e5, e6⟩ := ih _ st h
        have hb := bar_body_i M bus dev fn st0
        refine ⟨k', st0 :: pre, by rw [e1]; rfl, ?_, e3, by omega, e5,
          fun w => e6 (bar_body_wf M bus dev fn st0 w hi)⟩
        intro x hx
        rcases List.mem_cons.1 hx with hx | hx
        · rw [hx]; omega
        · exact e2 x hx
    · have hu : bar_iters M bus dev fn (k + 1) st0 = [] := by
        simp only [bar_iters, hi, if_false]
      rw [hu] at h
      cases h

/-- Every pass of the loop starts at an index not below the loop's start. -/
theorem bar_iters_ge {σ : Type} (M : Ports σ) (bus dev fn k : Nat) (st0 st : BarState σ)
    (h : st ∈ bar_iters M bus dev fn k st0) : st0.i ≤ st.i := by
  obtain ⟨_, _, _, _, _, e4, _, _⟩ := bar_iters_split M bus dev fn k st0 st h
  exact e4

/-- The accesses before a pass `st`: the only writes go to BAR registers of
slots below the one the pass starts at. -/
theorem bar_iters_log {σ : Type} (M : Ports σ) (bus dev fn : Nat) :
    ∀ (k : Nat) (st0 st : BarState (Mon σ)), st ∈ bar_iters (monitor M) bus dev fn k st0 →
      ∃ pre, st.hw.log = st0.hw.log ++ pre ∧ BarWrites bus dev fn st0.i st.i pre := by
  intro k
  induction k with
  | zero => intro st0 st h; simp [bar_iters] at h
  | succ k ih =>
    intro st0 st h
    by_cases hi : st0.i < 6
    · have hu : bar_iters (monitor M) bus dev fn (k + 1) st0 =
          st0 :: bar_iters (monitor M) bus dev fn k (bar_body (monitor M) bus dev fn st0) := by
        simp only [bar_iters, hi, if_true]
      rw [hu] at h
      rcases List.mem_cons.1 h with h | h
      · subst h
        exact ⟨[], by simp, BarWrites_nil _ _ _ _ _⟩
      · obtain ⟨e1, h1, w1⟩ := bar_body_log M bus dev fn st0
        obtain ⟨e2, h2, w2⟩ := ih _ st h
        have hb := bar_body_i (monitor M) bus dev fn st0
        have hge := bar_iters_ge (monitor M) bus dev fn k _ st h
        refine ⟨e1 ++ e2, by rw [h2, h1, List.append_assoc], ?_⟩
        exact BarWrites_append (BarWrites_mono w1 (le_refl _) (by omega))
          (BarWrites_mono w2 (by omega) (le_refl _))
    · have hu : bar_iters (monitor M) bus dev fn (k + 1) st0 = [] := by
        simp only [bar_iters, hi, if_false]
      rw [hu] at h
      cases h

/-- The address words of two different BAR slots, and of a BAR slot and the
command register, differ. -/
theorem cfg_addr_bar_ne (bus dev fn i j : Nat) (hi : i < 64) (hj : j < 64) (h : i ≠ j) :
    cfg_addr bus dev fn (0x10 + 4 * i) ≠ cfg_addr bus dev fn (0x10 + 4 * j) := by
  apply cfg_addr_reg_ne
  rw [and_0xFC, and_0xFC]
  omega

theorem cfg_addr_cmd_ne (bus dev fn j : Nat) (hj : j < 6) :
    cfg_addr bus dev fn 0x04 ≠ cfg_addr bus dev fn (0x10 + 4 * j) := by
  apply cfg_addr_reg_ne
  rw [and_0xFC, and_0xFC]
  omega

/-! ## The accesses of a whole probe -/

theorem bar_entry_log {σ : Type} (M : Ports σ) (m : Mon σ) (bus dev fn : Nat) (p : pci_info) :
    ∃ v4, (bar_entry (monitor M) m bus dev fn p).hw.log =
      m.log ++ [Access.rd (cfg_addr bus dev fn 0x04) v4, Access.wr (cfg_addr bus dev fn 0x04) 0] := by
  unfold bar_entry
  simp only [pciread_monitor, pciwrite_monitor, List.append_assoc, List.singleton_append]
  exact ⟨_, rfl⟩

theorem probe_device_log {σ : Type} (M : Ports σ) (m : Mon σ) (bus dev fn : Nat) (p : pci_info) :
    ∃ v3c, (probe_device (monitor M) m bus dev fn p).2.log =
      (bar_loop (monitor M) bus dev fn 6 (bar_entry (monitor M) m bus dev fn p)).hw.log ++
        [Access.wr (cfg_addr bus dev fn 0x04) (pciread (monitor M) m bus dev fn 0x04).1,
          Access.rd (cfg_addr bus dev fn 0x3c) v3c] := by
  unfold probe_device
  simp only [pciread_monitor, pciwrite_monitor, List.append_assoc, List.singleton_append]
  exact ⟨_, rfl⟩

/-- The loads from the record of `probe_device` are the loads from the record
the decode loop leaves. -/
theorem probe_device_loads {σ : Type} (M : Ports σ) (s : σ) (bus dev fn : Nat) (p : pci_info)
    (j : Nat) :
    load_base (probe_device M s bus dev fn p).1 j =
      load_base (bar_loop M bus dev fn 6 (bar_entry M s bus dev fn p)).pci j ∧
    load_size (probe_device M s bus dev fn p).1 j =
      load_size (bar_loop M bus dev fn 6 (bar_entry M s bus dev fn p)).pci j ∧
    load_kind (probe_device M s bus dev fn p).1 j =
      load_kind (bar_loop M bus dev fn 6 (bar_entry M s bus dev fn p)).pci j :=
  ⟨rfl, rfl, rfl⟩

/-- The entry state of the monitored probe: `i = 0`, a well-formed record, and
a log of four reads and the write of 0 to the command register. -/
theorem probe_entry_facts {σ : Type} (M : Ports σ) (s : σ) (bus dev fn : Nat) :
    (probe_entry M s bus dev fn).i = 0 ∧ (probe_entry M s bus dev fn).pci.wf ∧
    ∀ a v, Access.wr a v ∈ (probe_entry M s bus dev fn).hw.log →
      a = cfg_addr bus dev fn 0x04 := by
  obtain ⟨_, _, v0, v8, vc, hl⟩ := probe_ident_monitor M (Mon.start s) bus dev fn
  obtain ⟨v4, he⟩ := bar_entry_log M (probe_ident (monitor M) (Mon.start s) bus dev fn).2
    bus dev fn (probe_ident (monitor M) (Mon.start s) bus dev fn).1
  refine ⟨rfl, (probe_ident_arrays (monitor M) (Mon.start s) bus dev fn).1, ?_⟩
  intro a v hm
  unfold probe_entry at hm
  rw [he, hl] at hm
  simp [Mon.start] at hm
  exact hm.1

/-- C5: in a probe of a header-type-0 function, let a pass of the decode loop
start at slot `i ≤ 4` and find `(kind[i] & 6) == 2`.  Then in the record of
the probe `size[i+1] = 0`, `kind[i+1] = 0` and `base[i+1]` is the value read,
unmasked, from register `0x10 + 4*(i+1)`; no pass of the loop starts at slot
`i + 1`, and the probe issues no write at all to register `0x10 + 4*(i+1)`.
The monitor that observes the accesses does not change the record. -/
theorem continuation_slot {σ : Type} (M : Ports σ) (s : σ) (bus dev fn : Nat)
    (st : BarState (Mon σ))
    (hz : (pciprobe M s bus dev fn).1.header_type &&& 0x7F = 0)
    (hst : st ∈ bar_iters (monitor M) bus dev fn 6 (probe_entry M s bus dev fn))
    (hi : st.i ≤ 4)
    (hflag : load_kind (bar_decode (monitor M) bus dev fn st).pci st.i &&& 6 = 2) :
    load_size (pciprobe (monitor M) (Mon.start s) bus dev fn).1 (st.i + 1) = 0 ∧
    load_kind (pciprobe (monitor M) (Mon.start s) bus dev fn).1 (st.i + 1) = 0 ∧
    load_base (pciprobe (monitor M) (Mon.start s) bus dev fn).1 (st.i + 1) =
      (pciread (monitor M) (bar_decode (monitor M) bus dev fn st).hw bus dev fn
        (0x10 + 4 * (st.i + 1))).1 ∧
    (∀ st', st' ∈ bar_iters (monitor M) bus dev fn 6 (probe_entry M s bus dev fn) →
      st'.i ≠ st.i + 1) ∧
    (∀ v, Access.wr (cfg_addr bus dev fn (0x10 + 4 * (st.i + 1))) v ∉
      (pciprobe (monitor M) (Mon.start s) bus dev fn).2.log) ∧
    (pciprobe (monitor M) (Mon.start s) bus dev fn).1 = (pciprobe M s bus dev fn).1 := by
  have hmon := pciprobe_monitor M (Mon.start s) bus dev fn
  have hz' : (probe_ident (monitor M) (Mon.start s) bus dev fn).1.header_type &&& 0x7F = 0 := by
    rw [← (pciprobe_ident_fields (monitor M) (Mon.start s) bus dev fn).2.2.1, hmon.1]
    exact hz
  have hdev := pciprobe_device (monitor M) (Mon.start s) bus dev fn hz'
  obtain ⟨he0, hewf, helog⟩ := probe_entry_facts M s bus dev fn
  obtain ⟨k', pre, e1, e2, e3, _, e5, e6⟩ :=
    bar_iters_split (monitor M) bus dev fn 6 (probe_entry M s bus dev fn) st hst
  have hwf := e6 hewf
  obtain ⟨c1, _, c3, c4, c5⟩ := bar_body_consumes (monitor M) bus dev fn st hwf hi hflag
  obtain ⟨_, _, hfr⟩ := bar_loop_frame (monitor M) bus dev fn k'
    (bar_body (monitor M) bus dev fn st) (bar_body_wf (monitor M) bus dev fn st hwf e5)
  obtain ⟨f1, f2, f3⟩ := hfr (st.i + 1) (by omega)
  obtain ⟨l1, l2, l3⟩ := probe_device_loads (monitor M)
    (probe_ident (monitor M) (Mon.start s) bus dev fn).2 bus dev fn
    (probe_ident (monitor M) (Mon.start s) bus dev fn).1 (st.i + 1)
  have hloop : bar_loop (monitor M) bus dev fn 6
      (bar_entry (monitor M) (probe_ident (monitor M) (Mon.start s) bus dev fn).2 bus dev fn
        (probe_ident (monitor M) (Mon.start s) bus dev fn).1) =
      bar_loop (monitor M) bus dev fn k' (bar_body (monitor M) bus dev fn st) := e3
  rw [hloop] at l1 l2 l3
  refine ⟨?_, ?_, ?_, ?_, ?_, hmon.1⟩
  · rw [hdev, l2, f2 (by omega), c4]
  · rw [hdev, l3]
    rcases f3 with f3 | f3
    · rw [f3, c5]
    · exact f3.2
  · rw [hdev, l1, f1, c3]
  · intro st' hst'
    rw [e1] at hst'
    rcases List.mem_append.1 hst' with h | h
    · have := e2 st' h
      omega
    · rcases List.mem_cons.1 h with h | h
      · rw [h]; omega
      · have := bar_iters_ge (monitor M) bus dev fn k' _ st' h
        omega
  · intro v hm
    rw [hdev] at hm
    obtain ⟨v3c, hpl⟩ := probe_device_log M (probe_ident (monitor M) (Mon.start s) bus dev fn).2
      bus dev fn (probe_ident (monitor M) (Mon.start s) bus dev fn).1
    obtain ⟨post, hpost, wpost⟩ := bar_loop_log M bus dev fn k'
      (bar_body (monitor M) bus dev fn st)
    obtain ⟨ebody, hbody, wbody⟩ := bar_body_log M bus dev fn st
    obtain ⟨epre, hpre, wpre⟩ := bar_iters_log M bus dev fn 6 (probe_entry M s bus dev fn) st hst
    rw [hpl, hloop, hpost, hbody, hpre] at hm
    simp only [List.mem_append, List.mem_cons, Access.wr.injEq, reduceCtorEq, List.mem_singleton,
      List.not_mem_nil, or_false, false_or] at hm
    rcases hm with (((hm | hm) | hm) | hm) | hm
    · exact cfg_addr_cmd_ne bus dev fn (st.i + 1) (by omega) (helog _ _ hm).symm
    · obtain ⟨j, j1, j2, j3⟩ := wpre _ _ hm
      exact cfg_addr_bar_ne bus dev fn (st.i + 1) j (by omega) (by omega) (by omega) j3
    · obtain ⟨j, j1, j2, j3⟩ := wbody _ _ hm
      exact cfg_addr_bar_ne bus dev fn (st.i + 1) j (by omega) (by omega) (by omega) j3
    · obtain ⟨j, j1, j2, j3⟩ := wpost _ _ hm
      exact cfg_addr_bar_ne bus dev fn (st.i + 1) j (by omega) (by omega) (by omega) j3
    · exact cfg_addr_cmd_ne bus dev fn (st.i + 1) (by omega) hm.1.symm

set_option maxRecDepth 100000 in
theorem continuation_slot_witness :
    load_size (pciprobe (monitor scripted) (Mon.start below1m_script) 0 3 0).1 1 = 0 ∧
    load_kind (pciprobe (monitor scripted) (Mon.start below1m_script) 0 3 0).1 1 = 0 ∧
    load_base (pciprobe (monitor scripted) (Mon.start below1m_script) 0 3 0).1 1 = 0x0000C001 :=
  have h := continuation_slot scripted below1m_script 0 3 0
    (probe_entry scripted below1m_script 0 3 0) (by decide) (List.mem_cons_self _ _)
    (by decide) (by decide)
  ⟨h.1, h.2.1, h.2.2.1.trans (by decide)⟩

/-! ## The continuation step at the last slot -/

set_option maxRecDepth 100000 in
/-- C17 (evaluation at the failing input): BAR5 reads 0x000A0002, so the pass
at `i = 5` finds `(kind[5] & 6) == 2` and the continuation step runs with
`i = 6`: it reads register `0x10 + 4*6 = 0x28` and stores through `base[6]`,
`size[6]` and `kind[6]`.  The loop ends with `i = 7`, and the stores past the
arrays show in the record: `size[0]` holds the value read from register 0x28
and `kind[0]` is cleared. -/
theorem last_slot_continuation_overruns :
    (∃ st, st ∈ bar_iters (monitor scripted) 0 3 0 6
        (probe_entry scripted (overrun_script 0x0000C001 0xFFFFFFE1) 0 3 0) ∧
      st.i = 5 ∧ load_kind (bar_decode (monitor scripted) 0 3 0 st).pci 5 &&& 6 = 2 ∧
      (bar_cont (monitor scripted) 0 3 0 (bar_decode (monitor scripted) 0 3 0 st)).i = 6) ∧
    (bar_loop (monitor scripted) 0 3 0 6
      (probe_entry scripted (overrun_script 0x0000C001 0xFFFFFFE1) 0 3 0)).i = 7 ∧
    Access.rd (cfg_addr 0 3 0 0x28) 0x12345678 ∈
      (pciprobe (monitor scripted) (Mon.start (overrun_script 0x0000C001 0xFFFFFFE1)) 0 3 0).2.log ∧
    (pciprobe scripted (overrun_script 0x0000C001 0xFFFFFFE1) 0 3 0).1.size =
      [0x12345678, 0, 0, 0, 0, 0x10000] ∧
    (pciprobe scripted (overrun_script 0x0000C001 0xFFFFFFE1) 0 3 0).1.kind =
      [0, 0, 0, 0, 0, 2] := by
  refine ⟨by decide, by decide, by decide, by decide, by decide⟩

set_option maxRecDepth 100000 in
/-- C15 (evaluation at the failing input): BAR0 has operational value
0x0000C001, so the pass at slot 0 stores `kind[0] = 1`; BAR5 reads 0x000A0002
and its continuation step stores 0 through `size[6]`, which clears `kind[0]`:
the record has `kind[0] = 0`, not `0xC001 & 0xF = 1`. -/
theorem kind_cleared_by_overrun :
    load_kind (bar_decode scripted 0 3 0
      (bar_entry scripted [0x00000007, 0x0000C001, 0xFFFFFFE1] 0 3 0 pci_zero)).pci 0 = 1 ∧
    0x0000C001 &&& 0xF = 1 ∧
    load_kind (pciprobe scripted (overrun_script 0x0000C001 0xFFFFFFE1) 0 3 0).1 0 = 0 ∧
    load_base (pciprobe scripted (overrun_script 0x0000C001 0xFFFFFFE1) 0 3 0).1 0 = 0xC000 := by
  refine ⟨by decide, by decide, by decide, by decide⟩

set_option maxRecDepth 100000 in
/-- C16 (evaluation at the failing input): BAR0 reads 0 both as operational
value and as sizing readback and is decoded in its own right; BAR5 reads
0x000A0002 and its continuation step stores the value read from register 0x28
through `base[6]`, which is `size[0]`: the record has
`size[0] = 0x12345678`, not 0. -/
theorem unused_slot_size_overwritten :
    load_base (pciprobe scripted (overrun_script 0 0) 0 3 0).1 0 = 0 ∧
    load_kind (pciprobe scripted (overrun_script 0 0) 0 3 0).1 0 = 0 ∧
    load_size (pciprobe scripted (overrun_script 0 0) 0 3 0).1 0 = 0x12345678 := by
  refine ⟨by decide, by decide, by decide⟩

/-! ## Which slots consume their successor -/

/-- With enough passes allowed, the state a pass produces starts the next pass
unless the loop is over. -/
theorem bar_iters_next {σ : Type} (M : Ports σ) (bus dev fn : Nat) :
    ∀ (k : Nat) (st0 st : BarState σ), st ∈ bar_iters M bus dev fn k st0 → 6 - st0.i ≤ k →
      (bar_body M bus dev fn st).i < 6 →
      bar_body M bus dev fn st ∈ bar_iters M bus dev fn k st0 := by
  intro k
  induction k with
  | zero => intro st0 st h; simp [bar_iters] at h
  | succ k ih =>
    intro st0 st h hk hlt
    by_cases hi : st0.i < 6
    · have hu : bar_iters M bus dev fn (k + 1) st0 =
          st0 :: bar_iters M bus dev fn k (bar_body M bus dev fn st0) := by
        simp only [bar_iters, hi, if_true]
      rw [hu] at h
      rw [hu]
      have hb := bar_body_i M bus dev fn st0
      rcases List.mem_cons.1 h with h | h
      · subst h
        cases k with
        | zero => omega
        | succ k =>
          refine List.mem_cons_of_mem _ ?_
          simp only [bar_iters, hlt, if_true]
          exact List.mem_cons_self _ _
      · exact List.mem_cons_of_mem _ (ih _ st h (by omega) hlt)
    · have hu : bar_iters M bus dev fn (k + 1) st0 = [] := by
        simp only [bar_iters, hi, if_false]
      rw [hu] at h
      cases h

theorem and_0xF_and_6 (x : Nat) : (x &&& 0xF) &&& 6 = x &&& 6 := by
  rw [Nat.and_assoc]
  rfl

set_option maxRecDepth 100000 in
/-- C19 (as stated, refuted): BAR0 has operational value 0x0000C003, an
I/O-space BAR (bit 0 set) with bit 1 set.  `kind[0] = 3` and `3 & 6 = 2`, so
slot 1 is consumed as a continuation: no pass of the decode loop starts at
slot 1, and the record holds the raw BAR1 value with zero size and kind. -/
theorem io_bar_consumes_next :
    0x0000C003 &&& 1 = 1 ∧
    (∀ st, st ∈ bar_iters (monitor scripted) 0 3 0 6 (probe_entry scripted io_bit1_script 0 3 0) →
      st.i ≠ 1) ∧
    (pciprobe scripted io_bit1_script 0 3 0).1.kind = [3, 0, 0, 0, 0, 0] ∧
    (pciprobe scripted io_bit1_script 0 3 0).1.base = [0xC000, 0xFEBC0000, 0, 0, 0, 0] ∧
    (pciprobe scripted io_bit1_script 0 3 0).1.size = [32, 0, 0, 0, 0, 0] ∧
    (∀ v, Access.wr (cfg_addr 0 3 0 0x14) v ∉
      (pciprobe (monitor scripted) (Mon.start io_bit1_script) 0 3 0).2.log) := by
  refine ⟨by decide, by decide, by decide, by decide, by decide, ?_⟩
  intro v
  have h : ∀ a, a ∈ (pciprobe (monitor scripted) (Mon.start io_bit1_script) 0 3 0).2.log →
      a.writes_to (cfg_addr 0 3 0 0x14) = false := by
    decide
  intro hm
  have := h _ hm
  simp [Access.writes_to] at this

/-- C19 (amended): in a probe of a header-type-0 function, let a pass of the
decode loop start at slot `i ≤ 4` whose operational value `raw` has bit 0 set
(an I/O-space BAR).  If `(raw & 6) ≠ 2` the next pass starts at slot `i + 1`,
which is sized and decoded as a BAR in its own right; if `(raw & 6) == 2` the
loop moves on to `i + 2` and no pass starts at slot `i + 1`. -/
theorem io_bar_next_slot {σ : Type} (M : Ports σ) (s : σ) (bus dev fn : Nat)
    (st : BarState σ) (raw : Nat)
    (_hz : (pciprobe M s bus dev fn).1.header_type &&& 0x7F = 0)
    (hst : st ∈ bar_iters M bus dev fn 6
      (bar_entry M (probe_ident M s bus dev fn).2 bus dev fn (probe_ident M s bus dev fn).1))
    (hi : st.i ≤ 4)
    (hraw : raw = (pciread M st.hw bus dev fn (0x10 + 4 * st.i)).1)
    (hio : raw &&& 1 = 1) :
    load_kind (bar_decode M bus dev fn st).pci st.i = raw &&& 0xF ∧
    load_base (bar_decode M bus dev fn st).pci st.i = raw &&& 0xFFFC ∧
    (raw &&& 6 ≠ 2 →
      (bar_body M bus dev fn st).i = st.i + 1 ∧
      bar_body M bus dev fn st ∈ bar_iters M bus dev fn 6
        (bar_entry M (probe_ident M s bus dev fn).2 bus dev fn (probe_ident M s bus dev fn).1)) ∧
    (raw &&& 6 = 2 →
      (bar_body M bus dev fn st).i = st.i + 2 ∧
      ∀ st', st' ∈ bar_iters M bus dev fn 6
        (bar_entry M (probe_ident M s bus dev fn).2 bus dev fn (probe_ident M s bus dev fn).1) →
        st'.i ≠ st.i + 1) := by
  have hewf : (bar_entry M (probe_ident M s bus dev fn).2 bus dev fn
      (probe_ident M s bus dev fn).1).pci.wf := (probe_ident_arrays M s bus dev fn).1
  obtain ⟨k', pre, e1, e2, _, _, e5, e6⟩ := bar_iters_split M bus dev fn 6 _ st hst
  have hwf := e6 hewf
  obtain ⟨_, hk, hb, _⟩ := bar_decode_pci M bus dev fn st hwf e5 st.i
  simp only [if_true] at hk hb
  rw [← hraw] at hk hb
  have hio' : raw &&& 1 ≠ 0 := by rw [hio]; decide
  rw [if_pos hio'] at hb
  have hk6 : load_kind (bar_decode M bus dev fn st).pci st.i &&& 6 = raw &&& 6 := by
    rw [hk, and_0xF_and_6]
  refine ⟨hk, hb, ?_, ?_⟩
  · intro hne
    have hp := bar_body_plain M bus dev fn st (by rw [hk6]; exact hne)
    have hbi : (bar_body M bus dev fn st).i = st.i + 1 := by rw [hp]
    exact ⟨hbi, bar_iters_next M bus dev fn 6 _ st hst (by omega) (by omega)⟩
  · intro heq
    have hp := bar_body_flagged M bus dev fn st (by rw [hk6]; exact heq)
    have hbi : (bar_body M bus dev fn st).i = st.i + 2 := by rw [hp]
    refine ⟨hbi, ?_⟩
    intro st' hst'
    rw [e1] at hst'
    rcases List.mem_append.1 hst' with h | h
    · have := e2 st' h
      omega
    · rcases List.mem_cons.1 h with h | h
      · rw [h]; omega
      · have := bar_iters_ge M bus dev fn k' _ st' h
        omega

set_option maxRecDepth 100000 in
theorem io_bar_next_slot_witness :
    (bar_body scripted 0 3 0 (bar_entry scripted
      (probe_ident scripted (overrun_script 0x0000C001 0xFFFFFFE1) 0 3 0).2 0 3 0
      (probe_ident scripted (overrun_script 0x0000C001 0xFFFFFFE1) 0 3 0).1)).i =
      (bar_entry scripted
        (probe_ident scripted (overrun_script 0x0000C001 0xFFFFFFE1) 0 3 0).2 0 3 0
        (probe_ident scripted (overrun_script 0x0000C001 0xFFFFFFE1) 0 3 0).1).i + 1 :=
  ((io_bar_next_slot scripted (overrun_script 0x0000C001 0xFFFFFFE1) 0 3 0
    (bar_entry scripted (probe_ident scripted (overrun_script 0x0000C001 0xFFFFFFE1) 0 3 0).2 0 3 0
      (probe_ident scripted (overrun_script 0x0000C001 0xFFFFFFE1) 0 3 0).1) 0x0000C001
    (by decide) (List.mem_cons_self _ _) (by decide) (by decide) (by decide)).2.2.1 (by decide)).1

/-! ## The stale loop variable of `pci_init` -/

/-- The function number enters the address word modulo 8. -/
theorem cfg_addr_fn_mod (bus dev fn reg : Nat) :
    cfg_addr bus dev fn reg = cfg_addr bus dev (fn % 8) reg := by
  rw [cfg_addr_eq, cfg_addr_eq, Nat.mod_mod]

theorem pciread_fn_zero {σ : Type} (M : Ports σ) (s : σ) (bus dev fn reg : Nat)
    (h : fn % 8 = 0) : pciread M s bus dev fn reg = pciread M s bus dev 0 reg := by
  rw [pciread_def, pciread_def, cfg_addr_fn_mod, h]

theorem fun_loop_zero {σ : Type} (M : Ports σ) (bus dev fn : Nat) (st : ScanState σ) :
    fun_loop M bus dev 0 fn st = { st with fn := fn } := rfl

theorem fun_loop_succ {σ : Type} (M : Ports σ) (bus dev k fn : Nat) (st : ScanState σ) :
    fun_loop M bus dev (k + 1) fn st =
      if (pciread M st.hw bus dev fn 0).1 ≠ 0xFFFFFFFF then
        if (probe_append M bus dev fn
            { st with hw := (pciread M st.hw bus dev fn 0).2, fn := fn }).pci > PCIMAX then
          { probe_append M bus dev fn
              { st with hw := (pciread M st.hw bus dev fn 0).2, fn := fn } with stop := true }
        else fun_loop M bus dev k (fn + 1) (probe_append M bus dev fn
          { st with hw := (pciread M st.hw bus dev fn 0).2, fn := fn })
      else fun_loop M bus dev k (fn + 1)
        { st with hw := (pciread M st.hw bus dev fn 0).2, fn := fn } := rfl

/-- A function sweep either takes `goto done` or runs to the end, leaving the
loop variable at its start value plus the number of passes. -/
theorem fun_loop_fn {σ : Type} (M : Ports σ) (bus dev : Nat) :
    ∀ (k fn : Nat) (st : ScanState σ),
      (fun_loop M bus dev k fn st).stop = true ∨ (fun_loop M bus dev k fn st).fn = fn + k := by
  intro k
  induction k with
  | zero => intro fn st; right; rfl
  | succ k ih =>
    intro fn st
    rw [fun_loop_succ]
    split
    · split
      · left; rfl
      · rcases ih (fn + 1) (probe_append M bus dev fn
          { st with hw := (pciread M st.hw bus dev fn 0).2, fn := fn }) with h | h
        · exact Or.inl h
        · exact Or.inr (by rw [h]; omega)
    · rcases ih (fn + 1) { st with hw := (pciread M st.hw bus dev fn 0).2, fn := fn } with h | h
      · exact Or.inl h
      · exact Or.inr (by rw [h]; omega)

theorem multifunction_stale {σ : Type} (M : Ports σ) (bus dev fun0 : Nat) (st : ScanState σ)
    (h : stale_fun fun0 st) :
    (multifunction M bus dev st).stop = true ∨ stale_fun fun0 (multifunction M bus dev st) := by
  unfold multifunction
  simp only
  split
  · rcases fun_loop_fn M bus dev 7 1 { st with hw := (pciread M st.hw bus dev st.fn 12).2 }
      with h1 | h1
    · exact Or.inl h1
    · exact Or.inr (Or.inr h1)
  · exact Or.inr h

theorem multifunction_eq_fn0 {σ : Type} (M : Ports σ) (bus dev : Nat) (st : ScanState σ)
    (h : st.fn % 8 = 0) : multifunction M bus dev st = multifunction_fn0 M bus dev st := by
  unfold multifunction multifunction_fn0
  rw [pciread_fn_zero M st.hw bus dev st.fn 12 h]

theorem dev_body_stale {σ : Type} (M : Ports σ) (bus dev fun0 : Nat) (st : ScanState σ)
    (h : stale_fun fun0 st) :
    (dev_body M bus dev st).stop = true ∨ stale_fun fun0 (dev_body M bus dev st) := by
  unfold dev_body
  simp only
  split
  · split
    · left; rfl
    · exact multifunction_stale M bus dev fun0 _ h
  · exact multifunction_stale M bus dev fun0 _ h

theorem stale_fun_mod {σ : Type} {fun0 : Nat} {st : ScanState σ} (h0 : fun0 % 8 = 0)
    (h : stale_fun fun0 st) : st.fn % 8 = 0 := by
  rcases h with h | h <;> rw [h]
  exact h0

theorem dev_body_eq_fn0 {σ : Type} (M : Ports σ) (bus dev fun0 : Nat) (st : ScanState σ)
    (h0 : fun0 % 8 = 0) (h : stale_fun fun0 st) :
    dev_body M bus dev st = dev_body_fn0 M bus dev st := by
  have hm := stale_fun_mod h0 h
  unfold dev_body dev_body_fn0
  simp only
  split
  · split
    · rfl
    · exact multifunction_eq_fn0 M bus dev _ hm
  · exact multifunction_eq_fn0 M bus dev _ hm

theorem dev_loop_eq_fn0 {σ : Type} (M : Ports σ) (bus fun0 : Nat) (h0 : fun0 % 8 = 0) :
    ∀ (k dev : Nat) (st : ScanState σ), stale_fun fun0 st →
      dev_loop M bus k dev st = dev_loop_fn0 M bus k dev st ∧
      ((dev_loop M bus k dev st).stop = true ∨ stale_fun fun0 (dev_loop M bus k dev st)) := by
  intro k
  induction k with
  | zero => intro dev st h; exact ⟨rfl, Or.inr h⟩
  | succ k ih =>
    intro dev st h
    have he := dev_body_eq_fn0 M bus dev fun0 st h0 h
    have hs := dev_body_stale M bus dev fun0 st h
    simp only [dev_loop, dev_loop_fn0, ← he]
    by_cases hstop : (dev_body M bus dev st).stop = true
    · simp only [hstop, if_true, true_or, and_self]
    · simp only [hstop]
      rcases hs with hs | hs
      · exact absurd hs hstop
      · exact ih (dev + 1) _ hs

theorem bus_loop_eq_fn0 {σ : Type} (M : Ports σ) (fun0 : Nat) (h0 : fun0 % 8 = 0) :
    ∀ (k bus : Nat) (st : ScanState σ), stale_fun fun0 st →
      bus_loop M k bus st = bus_loop_fn0 M k bus st ∧
      ((bus_loop M k bus st).stop = true ∨ stale_fun fun0 (bus_loop M k bus st)) := by
  intro k
  induction k with
  | zero => intro bus st h; exact ⟨rfl, Or.inr h⟩
  | succ k ih =>
    intro bus st h
    obtain ⟨he, hs⟩ := dev_loop_eq_fn0 M bus fun0 h0 32 0 st h
    simp only [bus_loop, bus_loop_fn0, ← he]
    by_cases hstop : (dev_loop M bus 32 0 st).stop = true
    · simp only [hstop, if_true, true_or, and_self]
    · simp only [hstop]
      rcases hs with hs | hs
      · exact absurd hs hstop
      · exact ih (bus + 1) _ hs

/-- C18: the local `fun` of `pci_init` holds its initial value `fun0` or 8 at
every multifunction test: this holds on entry, every pass of the device loop
that does not take `goto done` keeps it, and the test reads it unchanged.
`pciread` uses `fun` modulo 8, so when `fun0` is a multiple of 8 the test reads
register 12 of function 0, and `pci_init` ends in the same state, with the
same count and the same records in the same slots, as the scanner that tests
function 0. -/
theorem stale_fun_refines {σ : Type} (M : Ports σ) (s : σ) (fun0 : Nat)
    (mem : Nat → pci_info) (h0 : fun0 % 8 = 0) :
    (∀ (bus dev : Nat) (st : ScanState σ), stale_fun fun0 st →
      (dev_body M bus dev st).stop = true ∨ stale_fun fun0 (dev_body M bus dev st)) ∧
    (∀ (st : ScanState σ) (bus dev reg : Nat), stale_fun fun0 st →
      pciread M st.hw bus dev st.fn reg = pciread M st.hw bus dev 0 reg) ∧
    pci_scan M s fun0 mem = pci_scan_fn0 M s fun0 mem ∧
    (pci_init M s fun0 mem).pci_count = (pci_init_fn0 M s fun0 mem).pci_count ∧
    (∀ n, (pci_init M s fun0 mem).pci_infos n = (pci_init_fn0 M s fun0 mem).pci_infos n) := by
  have hscan : pci_scan M s fun0 mem = pci_scan_fn0 M s fun0 mem :=
    (bus_loop_eq_fn0 M fun0 h0 256 0 _ (Or.inl rfl)).1
  refine ⟨fun bus dev st h => dev_body_stale M bus dev fun0 st h,
    fun st bus dev reg h => pciread_fn_zero M st.hw bus dev st.fn reg (stale_fun_mod h0 h),
    hscan, ?_, ?_⟩
  · unfold pci_init pci_init_fn0
    rw [hscan]
  · intro n
    unfold pci_init pci_init_fn0
    rw [hscan]

theorem stale_fun_refines_witness :
    (pci_init crowded 0 16 (fun _ => pci_zero)).pci_count =
      (pci_init_fn0 crowded 0 16 (fun _ => pci_zero)).pci_count :=
  (stale_fun_refines crowded 0 16 (fun _ => pci_zero) (by decide)).2.2.2.1

/-! ## Absent functions are never recorded -/

theorem probe_append_present {σ : Type} (M : Ports σ) (id0 : Nat → Nat → Nat → Nat)
    (hstatic : ∀ s b d f, (pciread M s b d f 0).1 = id0 b d f)
    (bus dev fn : Nat) (st : ScanState σ) (hid : id0 bus dev fn ≠ 0xFFFFFFFF)
    (h : recorded_present id0 st) : recorded_present id0 (probe_append M bus dev fn st) := by
  intro n hn
  have hpci : (probe_append M bus dev fn st).pci = st.pci + 1 := rfl
  have hinf : (probe_append M bus dev fn st).pci_infos =
      Function.update st.pci_infos st.pci (pciprobe M st.hw bus dev fn).1 := rfl
  rw [hpci] at hn
  rw [hinf]
  by_cases hlt : n < st.pci
  · rw [Function.update_noteq (by omega)]
    exact h n hlt
  · have hn' : n = st.pci := by omega
    rw [hn', Function.update_same]
    obtain ⟨h1, h2, _⟩ := pciprobe_ident_fields M st.hw bus dev fn
    refine ⟨bus, dev, fn, hid, ?_, ?_⟩
    · rw [h1, ← hstatic st.hw bus dev fn]; rfl
    · rw [h2, ← hstatic st.hw bus dev fn]; rfl

theorem fun_loop_present {σ : Type} (M : Ports σ) (id0 : Nat → Nat → Nat → Nat)
    (hstatic : ∀ s b d f, (pciread M s b d f 0).1 = id0 b d f) (bus dev : Nat) :
    ∀ (k fn : Nat) (st : ScanState σ), recorded_present id0 st →
      recorded_present id0 (fun_loop M bus dev k fn st) := by
  intro k
  induction k with
  | zero => intro fn st h; exact h
  | succ k ih =>
    intro fn st h
    rw [fun_loop_succ]
    have h1 : recorded_present id0
        ({ st with hw := (pciread M st.hw bus dev fn 0).2, fn := fn } : ScanState σ) := h
    split
    · rename_i hp
      rw [hstatic] at hp
      have h2 := probe_append_present M id0 hstatic bus dev fn _ hp h1
      split
      · exact h2
      · exact ih (fn + 1) _ h2
    · exact ih (fn + 1) _ h1

theorem multifunction_present {σ : Type} (M : Ports σ) (id0 : Nat → Nat → Nat → Nat)
    (hstatic : ∀ s b d f, (pciread M s b d f 0).1 = id0 b d f) (bus dev : Nat)
    (st : ScanState σ) (h : recorded_present id0 st) :
    recorded_present id0 (multifunction M bus dev st) := by
  unfold multifunction
  simp only
  split
  · exact fun_loop_present M id0 hstatic bus dev 7 1 _ h
  · exact h

theorem dev_body_present {σ : Type} (M : Ports σ) (id0 : Nat → Nat → Nat → Nat)
    (hstatic : ∀ s b d f, (pciread M s b d f 0).1 = id0 b d f) (bus dev : Nat)
    (st : ScanState σ) (h : recorded_present id0 st) :
    recorded_present id0 (dev_body M bus dev st) := by
  unfold dev_body
  simp only
  have h1 : recorded_present id0
      ({ st with hw := (pciread M st.hw bus dev 0 0).2 } : ScanState σ) := h
  split
  · rename_i hp
    rw [hstatic] at hp
    have h2 := probe_append_present M id0 hstatic bus dev 0 _ hp h1
    split
    · exact h2
    · exact multifunction_present M id0 hstatic bus dev _ h2
  · exact multifunction_present M id0 hstatic bus dev _ h1

theorem dev_loop_present {σ : Type} (M : Ports σ) (id0 : Nat → Nat → Nat → Nat)
    (hstatic : ∀ s b d f, (pciread M s b d f 0).1 = id0 b d f) (bus : Nat) :
    ∀ (k dev : Nat) (st : ScanState σ), recorded_present id0 st →
      recorded_present id0 (dev_loop M bus k dev st) := by
  intro k
  induction k with
  | zero => intro dev st h; exact h
  | succ k ih =>
    intro dev st h
    have hb := dev_body_present M id0 hstatic bus dev st h
    simp only [dev_loop]
    split
    · exact hb
    · exact ih (dev + 1) _ hb

theorem bus_loop_present {σ : Type} (M : Ports σ) (id0 : Nat → Nat → Nat → Nat)
    (hstatic : ∀ s b d f, (pciread M s b d f 0).1 = id0 b d f) :
    ∀ (k bus : Nat) (st : ScanState σ), recorded_present id0 st →
      recorded_present id0 (bus_loop M k bus st) := by
  intro k
  induction k with
  | zero => intro bus st h; exact h
  | succ k ih =>
    intro bus st h
    have hb := dev_loop_present M id0 hstatic bus 32 0 st h
    simp only [bus_loop]
    split
    · exact hb
    · exact ih (bus + 1) _ hb

/-- A 32-bit value whose two halves are both 0xFFFF is all-ones. -/
theorem halves_all_ones {x : Nat} (hx : x < 4294967296) (h1 : u16 x = 0xFFFF)
    (h2 : u16 (x >>> 16) = 0xFFFF) : x = 0xFFFFFFFF := by
  rw [Nat.shiftRight_eq_div_pow] at h2
  unfold u16 at h1 h2
  simp only [Nat.reducePow] at h2
  omega

/-- C6: on a static configuration space (register 0 of function `(b, d, f)`
reads `id0 b d f` on every read) every record below `pci_count` after
`pci_init` carries the identity of a function whose register 0 does not read
0xFFFFFFFF, whether it was reached as function 0 or through the multifunction
sweep; so no record has `vendor_id = 0xFFFF` and `device_id = 0xFFFF` at the
same time. -/
theorem absent_never_recorded {σ : Type} (M : Ports σ) (s : σ) (fun0 : Nat)
    (mem : Nat → pci_info) (id0 : Nat → Nat → Nat → Nat)
    (hstatic : ∀ s b d f, (pciread M s b d f 0).1 = id0 b d f) (n : Nat)
    (hn : n < (pci_init M s fun0 mem).pci_count) :
    (∃ b d f, id0 b d f ≠ 0xFFFFFFFF ∧
      ((pci_init M s fun0 mem).pci_infos n).vendor_id = id0 b d f &&& 0xFFFF ∧
      ((pci_init M s fun0 mem).pci_infos n).device_id = id0 b d f >>> 16) ∧
    ¬ (((pci_init M s fun0 mem).pci_infos n).vendor_id = 0xFFFF ∧
      ((pci_init M s fun0 mem).pci_infos n).device_id = 0xFFFF) := by
  have hinit : recorded_present id0
      ({ hw := s, fn := fun0, pci := 0, pci_infos := mem, stop := false } : ScanState σ) := by
    intro k hk
    exact absurd hk (Nat.not_lt_zero k)
  have hfin : recorded_present id0 (pci_scan M s fun0 mem) :=
    bus_loop_present M id0 hstatic 256 0 _ hinit
  obtain ⟨b, d, f, hid, hv, hd⟩ := hfin n hn
  have hlt : id0 b d f < 4294967296 := by
    rw [← hstatic s b d f]; exact pciread_lt M s b d f 0
  constructor
  · exact ⟨b, d, f, hid, by rw [← u16_eq_and]; exact hv, by rw [← u16_shift16 hlt]; exact hd⟩
  · rintro ⟨h1, h2⟩
    exact hid (halves_all_ones hlt (hv ▸ h1) (hd ▸ h2))

theorem cfg_addr_reg0 (bus dev fn : Nat) : cfg_addr bus dev fn 0 &&& 0xFC = 0 := by
  have h0 : (0 : Nat) &&& 0xFC = 0 := by decide
  rw [and_0xFC, cfg_addr_eq, h0]
  omega

theorem crowded_static (s b d f : Nat) : (pciread crowded s b d f 0).1 = 0x100E8086 := by
  rw [pciread_def]
  simp only [crowded, rom, if_true, cfg_addr_reg0]
  decide

set_option maxRecDepth 100000 in
theorem absent_never_recorded_witness :
    ¬ (((pci_init crowded 0 0 (fun _ => pci_zero)).pci_infos 5).vendor_id = 0xFFFF ∧
      ((pci_init crowded 0 0 (fun _ => pci_zero)).pci_infos 5).device_id = 0xFFFF) :=
  (absent_never_recorded crowded 0 0 (fun _ => pci_zero) (fun _ _ _ => 0x100E8086)
    crowded_static 5 (by decide)).2

/-! ## Stores of a list of records -/

theorem write_list_append (l1 l2 : List pci_info) :
    ∀ (mem : Nat → pci_info) (start : Nat),
      write_list mem start (l1 ++ l2) =
        write_list (write_list mem start l1) (start + l1.length) l2 := by
  induction l1 with
  | nil => intro mem start; rfl
  | cons x l ih =>
    intro mem start
    have e : start + (x :: l).length = start + 1 + l.length := by
      simp only [List.length_cons]; omega
    rw [e]
    exact ih (Function.update mem start x) (start + 1)

theorem write_list_lt (l : List pci_info) :
    ∀ (mem : Nat → pci_info) (start n : Nat), n < start →
      write_list mem start l n = mem n := by
  induction l with
  | nil => intro mem start n _; rfl
  | cons x l ih =>
    intro mem start n h
    show write_list (Function.update mem start x) (start + 1) l n = mem n
    rw [ih _ _ _ (by omega), Function.update_noteq (by omega)]

theorem write_list_get (l : List pci_info) :
    ∀ (mem : Nat → pci_info) (start n : Nat), n < l.length →
      l[n]? = some (write_list mem start l (start + n)) := by
  induction l with
  | nil => intro mem start n h; simp at h
  | cons x l ih =>
    intro mem start n h
    cases n with
    | zero =>
      rw [List.getElem?_cons_zero]
      show some x = some (write_list (Function.update mem start x) (start + 1) l (start + 0))
      rw [write_list_lt _ _ _ _ (by omega), Nat.add_zero, Function.update_same]
    | succ n =>
      rw [List.getElem?_cons_succ]
      show l[n]? = some (write_list (Function.update mem start x) (start + 1) l (start + (n + 1)))
      have e : start + (n + 1) = start + 1 + n := by omega
      rw [e]
      exact ih _ _ _ (by simpa using h)

theorem write_list_ge (l : List pci_info) :
    ∀ (mem : Nat → pci_info) (start n : Nat), start + l.length ≤ n →
      write_list mem start l n = mem n := by
  induction l with
  | nil => intro mem start n _; rfl
  | cons x l ih =>
    intro mem start n h
    simp only [List.length_cons] at h
    show write_list (Function.update mem start x) (start + 1) l n = mem n
    rw [ih _ _ _ (by omega), Function.update_noteq (by omega)]

theorem after_nil {σ : Type} (st : ScanState σ) : st.after [] st.hw st.fn = st := rfl

theorem after_after {σ : Type} (st : ScanState σ) (l1 l2 : List pci_info) (hw1 hw2 : σ)
    (fn1 fn2 : Nat) :
    (st.after l1 hw1 fn1).after l2 hw2 fn2 = st.after (l1 ++ l2) hw2 fn2 := by
  simp only [ScanState.after, write_list_append, List.length_append, Nat.add_assoc]

theorem after_stop {σ : Type} (st : ScanState σ) (l : List pci_info) (hw : σ) (fn : Nat) :
    (st.after l hw fn).stop = st.stop := rfl

theorem after_pci {σ : Type} (st : ScanState σ) (l : List pci_info) (hw : σ) (fn : Nat) :
    (st.after l hw fn).pci = st.pci + l.length := rfl

/-! ## `pci_init` against the scan list -/

theorem scan_fun_length {σ : Type} (M : Ports σ) (bus dev fn : Nat) (s : σ) :
    (scan_fun M bus dev fn s).1 =
      if (pciread M s bus dev fn 0).1 ≠ 0xFFFFFFFF then
        [(pciprobe M (pciread M s bus dev fn 0).2 bus dev fn).1]
      else [] := by
  unfold scan_fun
  simp only
  split <;> rfl

/-- The step "read register 0, probe and append when present" of `pci_init`
when the directory has room for the record. -/
theorem present_step {σ : Type} (M : Ports σ) (bus dev fn fn' : Nat) (st : ScanState σ)
    (hroom : st.pci + (scan_fun M bus dev fn st.hw).1.length ≤ PCIMAX) :
    (if (pciread M st.hw bus dev fn 0).1 ≠ 0xFFFFFFFF then
        probe_append M bus dev fn { st with hw := (pciread M st.hw bus dev fn 0).2, fn := fn' }
      else { st with hw := (pciread M st.hw bus dev fn 0).2, fn := fn' }) =
      st.after (scan_fun M bus dev fn st.hw).1 (scan_fun M bus dev fn st.hw).2 fn' ∧
    ((pciread M st.hw bus dev fn 0).1 ≠ 0xFFFFFFFF →
      ¬ (probe_append M bus dev fn
        { st with hw := (pciread M st.hw bus dev fn 0).2, fn := fn' }).pci > PCIMAX) := by
  unfold scan_fun at hroom ⊢
  simp only at hroom ⊢
  by_cases hp : (pciread M st.hw bus dev fn 0).1 ≠ 0xFFFFFFFF
  · rw [if_pos hp] at hroom ⊢
    rw [if_pos hp]
    simp only [List.length_singleton] at hroom
    refine ⟨rfl, fun _ => ?_⟩
    show ¬ st.pci + 1 > PCIMAX
    omega
  · rw [if_neg hp, if_neg hp]
    exact ⟨rfl, fun h => absurd h hp⟩

theorem scan_funs_cons {σ : Type} (M : Ports σ) (bus dev fn : Nat) (fns : List Nat) (s : σ) :
    scan_funs M bus dev (fn :: fns) s =
      ((scan_fun M bus dev fn s).1 ++ (scan_funs M bus dev fns (scan_fun M bus dev fn s).2).1,
        (scan_funs M bus dev fns (scan_fun M bus dev fn s).2).2) := rfl

/-- The function sweep of `pci_init` appends the records of the swept
functions in ascending order, as long as the directory has room. -/
theorem fun_loop_spec {σ : Type} (M : Ports σ) (bus dev : Nat) :
    ∀ (k fn : Nat) (st : ScanState σ),
      st.pci + (scan_funs M bus dev (List.range' fn k) st.hw).1.length ≤ PCIMAX →
      fun_loop M bus dev k fn st =
        st.after (scan_funs M bus dev (List.range' fn k) st.hw).1
          (scan_funs M bus dev (List.range' fn k) st.hw).2 (fn + k) := by
  intro k
  induction k with
  | zero => intro fn st _; rfl
  | succ k ih =>
    intro fn st hroom
    have hr : List.range' fn (k + 1) = fn :: List.range' (fn + 1) k := rfl
    rw [hr, scan_funs_cons] at hroom ⊢
    simp only [List.length_append] at hroom
    obtain ⟨hstep, hfit⟩ := present_step M bus dev fn fn st (by omega)
    have hgo : fun_loop M bus dev (k + 1) fn st =
        fun_loop M bus dev k (fn + 1)
          (st.after (scan_fun M bus dev fn st.hw).1 (scan_fun M bus dev fn st.hw).2 fn) := by
      rw [← hstep, fun_loop_succ]
      by_cases hp : (pciread M st.hw bus dev fn 0).1 ≠ 0xFFFFFFFF
      · rw [if_pos hp, if_pos hp, if_neg (hfit hp)]
      · rw [if_neg hp, if_neg hp]
    rw [hgo, ih (fn + 1) _ (by rw [after_pci]; exact (by
      show st.pci + (scan_fun M bus dev fn st.hw).1.length +
        (scan_funs M bus dev (List.range' (fn + 1) k) (scan_fun M bus dev fn st.hw).2).1.length
          ≤ PCIMAX
      omega)), after_after]
    have e : fn + 1 + k = fn + (k + 1) := by omega
    rw [e]
    rfl

/-- The multifunction test and sweep of `pci_init`. -/
theorem multifunction_spec {σ : Type} (M : Ports σ) (bus dev : Nat) (st : ScanState σ)
    (hroom : st.pci + (scan_sweep M bus dev (st.hw, st.fn)).1.length ≤ PCIMAX) :
    multifunction M bus dev st =
      st.after (scan_sweep M bus dev (st.hw, st.fn)).1
        (scan_sweep M bus dev (st.hw, st.fn)).2.1 (scan_sweep M bus dev (st.hw, st.fn)).2.2 := by
  unfold scan_sweep at hroom ⊢
  unfold multifunction
  simp only at hroom ⊢
  by_cases ht : (pciread M st.hw bus dev st.fn 12).1 &&& 0x00800000 ≠ 0
  · rw [if_pos ht] at hroom ⊢
    rw [if_pos ht]
    simp only at hroom ⊢
    rw [fun_loop_spec M bus dev 7 1 _ hroom]
    rfl
  · rw [if_neg ht, if_neg ht]
    rfl

/-- One pass of the device loop of `pci_init`. -/
theorem dev_body_spec {σ : Type} (M : Ports σ) (bus dev : Nat) (st : ScanState σ)
    (hroom : st.pci + (scan_device M bus dev (st.hw, st.fn)).1.length ≤ PCIMAX) :
    dev_body M bus dev st =
      st.after (scan_device M bus dev (st.hw, st.fn)).1
        (scan_device M bus dev (st.hw, st.fn)).2.1 (scan_device M bus dev (st.hw, st.fn)).2.2 := by
  have hd : scan_device M bus dev (st.hw, st.fn) =
      ((scan_fun M bus dev 0 st.hw).1 ++
          (scan_sweep M bus dev ((scan_fun M bus dev 0 st.hw).2, st.fn)).1,
        (scan_sweep M bus dev ((scan_fun M bus dev 0 st.hw).2, st.fn)).2) := rfl
  rw [hd] at hroom ⊢
  simp only [List.length_append] at hroom
  obtain ⟨hstep, hfit⟩ := present_step M bus dev 0 st.fn st (by omega)
  have hgo : dev_body M bus dev st =
      multifunction M bus dev
        (st.after (scan_fun M bus dev 0 st.hw).1 (scan_fun M bus dev 0 st.hw).2 st.fn) := by
    rw [← hstep]
    unfold dev_body
    simp only
    by_cases hp : (pciread M st.hw bus dev 0 0).1 ≠ 0xFFFFFFFF
    · rw [if_pos hp, if_pos hp, if_neg (hfit hp)]
    · rw [if_neg hp, if_neg hp]
  rw [hgo, multifunction_spec M bus dev _ (by
    show st.pci + (scan_fun M bus dev 0 st.hw).1.length +
      (scan_sweep M bus dev ((scan_fun M bus dev 0 st.hw).2, st.fn)).1.length ≤ PCIMAX
    omega), after_after]
  rfl

theorem scan_devices_cons {σ : Type} (M : Ports σ) (bd : Nat × Nat) (rest : List (Nat × Nat))
    (x : σ × Nat) :
    scan_devices M (bd :: rest) x =
      ((scan_device M bd.1 bd.2 x).1 ++ (scan_devices M rest (scan_device M bd.1 bd.2 x).2).1,
        (scan_devices M rest (scan_device M bd.1 bd.2 x).2).2) := rfl

theorem scan_devices_append {σ : Type} (M : Ports σ) (l1 l2 : List (Nat × Nat)) :
    ∀ x : σ × Nat, scan_devices M (l1 ++ l2) x =
      ((scan_devices M l1 x).1 ++ (scan_devices M l2 (scan_devices M l1 x).2).1,
        (scan_devices M l2 (scan_devices M l1 x).2).2) := by
  induction l1 with
  | nil => intro x; rfl
  | cons bd l ih =>
    intro x
    rw [List.cons_append, scan_devices_cons, ih, scan_devices_cons, List.append_assoc]

/-- The device loop of `pci_init` over `k` devices from `dev` on. -/
theorem dev_loop_spec {σ : Type} (M : Ports σ) (bus : Nat) :
    ∀ (k dev : Nat) (st : ScanState σ), st.stop = false →
      st.pci + (scan_devices M ((List.range' dev k).map (fun d => (bus, d)))
        (st.hw, st.fn)).1.length ≤ PCIMAX →
      dev_loop M bus k dev st =
        st.after (scan_devices M ((List.range' dev k).map (fun d => (bus, d))) (st.hw, st.fn)).1
          (scan_devices M ((List.range' dev k).map (fun d => (bus, d))) (st.hw, st.fn)).2.1
          (scan_devices M ((List.range' dev k).map (fun d => (bus, d))) (st.hw, st.fn)).2.2 := by
  intro k
  induction k with
  | zero => intro dev st _ _; rfl
  | succ k ih =>
    intro dev st hs hroom
    have hr : (List.range' dev (k + 1)).map (fun d => (bus, d)) =
        (bus, dev) :: (List.range' (dev + 1) k).map (fun d => (bus, d)) := rfl
    rw [hr, scan_devices_cons] at hroom ⊢
    simp only [List.length_append] at hroom
    have hb := dev_body_spec M bus dev st (by omega)
    have hgo : dev_loop M bus (k + 1) dev st = dev_loop M bus k (dev + 1)
        (st.after (scan_device M bus dev (st.hw, st.fn)).1
          (scan_device M bus dev (st.hw, st.fn)).2.1
          (scan_device M bus dev (st.hw, st.fn)).2.2) := by
      rw [← hb]
      have hstop : (dev_body M bus dev st).stop = false := by rw [hb, after_stop]; exact hs
      simp only [dev_loop, hstop, Bool.false_eq_true, if_false]
    rw [hgo, ih (dev + 1) _ (by rw [after_stop]; exact hs) (by
      rw [after_pci]
      show st.pci + (scan_device M bus dev (st.hw, st.fn)).1.length +
        (scan_devices M ((List.range' (dev + 1) k).map (fun d => (bus, d)))
          (scan_device M bus dev (st.hw, st.fn)).2).1.length ≤ PCIMAX
      omega), after_after]
    rfl

theorem devices_from_succ (bus k : Nat) :
    devices_from bus (k + 1) =
      (List.range' 0 32).map (fun d => (bus, d)) ++ devices_from (bus + 1) k := rfl

/-- The bus loop of `pci_init` over `k` buses from `bus` on. -/
theorem bus_loop_spec {σ : Type} (M : Ports σ) :
    ∀ (k bus : Nat) (st : ScanState σ), st.stop = false →
      st.pci + (scan_devices M (devices_from bus k) (st.hw, st.fn)).1.length ≤ PCIMAX →
      bus_loop M k bus st =
        st.after (scan_devices M (devices_from bus k) (st.hw, st.fn)).1
          (scan_devices M (devices_from bus k) (st.hw, st.fn)).2.1
          (scan_devices M (devices_from bus k) (st.hw, st.fn)).2.2 := by
  intro k
  induction k with
  | zero => intro bus st _ _; rfl
  | succ k ih =>
    intro bus st hs hroom
    rw [devices_from_succ, scan_devices_append] at hroom ⊢
    simp only [List.length_append] at hroom
    have hd := dev_loop_spec M bus 32 0 st hs (by omega)
    have hgo : bus_loop M (k + 1) bus st = bus_loop M k (bus + 1)
        (st.after (scan_devices M ((List.range' 0 32).map (fun d => (bus, d))) (st.hw, st.fn)).1
          (scan_devices M ((List.range' 0 32).map (fun d => (bus, d))) (st.hw, st.fn)).2.1
          (scan_devices M ((List.range' 0 32).map (fun d => (bus, d))) (st.hw, st.fn)).2.2) := by
      rw [← hd]
      have hstop : (dev_loop M bus 32 0 st).stop = false := by rw [hd, after_stop]; exact hs
      simp only [bus_loop, hstop, Bool.false_eq_true, if_false]
    rw [hgo, ih (bus + 1) _ (by rw [after_stop]; exact hs) (by
      rw [after_pci]
      show st.pci +
        (scan_devices M ((List.range' 0 32).map (fun d => (bus, d))) (st.hw, st.fn)).1.length +
        (scan_devices M (devices_from (bus + 1) k)
          (scan_devices M ((List.range' 0 32).map (fun d => (bus, d))) (st.hw, st.fn)).2).1.length
          ≤ PCIMAX
      omega), after_after]
    rfl

theorem pci_scan_unfold {σ : Type} (M : Ports σ) (s : σ) (fun0 : Nat) (mem : Nat → pci_info) :
    pci_scan M s fun0 mem = bus_loop M 256 0
      ({ hw := s, fn := fun0, pci := 0, pci_infos := mem, stop := false } : ScanState σ) := by
  unfold pci_scan
  rfl

theorem bus_loop_all {σ : Type} (M : Ports σ) (s : σ) (fun0 : Nat) (mem : Nat → pci_info)
    (h : (scan_devices M (devices_from 0 256) (s, fun0)).1.length ≤ PCIMAX) :
    bus_loop M 256 0
      ({ hw := s, fn := fun0, pci := 0, pci_infos := mem, stop := false } : ScanState σ) =
      ({ hw := s, fn := fun0, pci := 0, pci_infos := mem, stop := false } : ScanState σ).after
        (scan_devices M (devices_from 0 256) (s, fun0)).1
        (scan_devices M (devices_from 0 256) (s, fun0)).2.1
        (scan_devices M (devices_from 0 256) (s, fun0)).2.2 := by
  have hroom :
      ({ hw := s, fn := fun0, pci := 0, pci_infos := mem, stop := false } : ScanState σ).pci +
        (scan_devices M (devices_from 0 256)
          (({ hw := s, fn := fun0, pci := 0, pci_infos := mem, stop := false } : ScanState σ).hw,
            ({ hw := s, fn := fun0, pci := 0, pci_infos := mem,
               stop := false } : ScanState σ).fn)).1.length ≤ PCIMAX := by
    simp only [Nat.zero_add]
    exact h
  have hspec := bus_loop_spec M 256 0
    ({ hw := s, fn := fun0, pci := 0, pci_infos := mem, stop := false } : ScanState σ) rfl hroom
  simp only at hspec
  exact hspec

/-- The final state of `pci_init` when the directory has room for every
present function. -/
theorem pci_scan_spec {σ : Type} (M : Ports σ) (s : σ) (fun0 : Nat) (mem : Nat → pci_info)
    (h : (scan_records M s fun0).length ≤ PCIMAX) :
    pci_scan M s fun0 mem =
      ({ hw := s, fn := fun0, pci := 0, pci_infos := mem, stop := false } : ScanState σ).after
        (scan_records M s fun0) (scan_devices M (devices_from 0 256) (s, fun0)).2.1
        (scan_devices M (devices_from 0 256) (s, fun0)).2.2 := by
  unfold scan_records at h ⊢
  rw [pci_scan_unfold]
  exact bus_loop_all M s fun0 mem h

/-- C7: when the configuration space holds at most `PCIMAX` present functions
(in particular fewer than `PCIMAX`), the directory `pci_init` builds is the
in-order concatenation of the probe results: the (bus, device) pairs in
ascending order, and for each device one record for function 0 when its
register 0 does not read 0xFFFFFFFF, followed, when the multifunction test
succeeds, by one record for each of the functions 1..7 whose register 0 does
not read 0xFFFFFFFF, in ascending order.  `pci_count` is the number of these
records, record `n` of the list is in slot `n`, the slots from `pci_count` on
are untouched, and `goto done` is not taken. -/
theorem scan_in_order {σ : Type} (M : Ports σ) (s : σ) (fun0 : Nat) (mem : Nat → pci_info)
    (h : (scan_records M s fun0).length ≤ PCIMAX) :
    (pci_init M s fun0 mem).pci_count = (scan_records M s fun0).length ∧
    (∀ n, n < (scan_records M s fun0).length →
      (scan_records M s fun0)[n]? = some ((pci_init M s fun0 mem).pci_infos n)) ∧
    (∀ n, (scan_records M s fun0).length ≤ n → (pci_init M s fun0 mem).pci_infos n = mem n) ∧
    (pci_scan M s fun0 mem).stop = false ∧
    (∀ (bus dev : Nat) (x : σ × Nat),
      (scan_device M bus dev x).1 =
        (scan_fun M bus dev 0 x.1).1 ++
          (scan_sweep M bus dev ((scan_fun M bus dev 0 x.1).2, x.2)).1 ∧
      (scan_sweep M bus dev x).1 =
        (if (pciread M x.1 bus dev x.2 12).1 &&& 0x00800000 ≠ 0 then
          (scan_funs M bus dev [1, 2, 3, 4, 5, 6, 7] (pciread M x.1 bus dev x.2 12).2).1
        else [])) ∧
    (∀ (bus dev fn : Nat) (t : σ),
      (scan_fun M bus dev fn t).1 =
        if (pciread M t bus dev fn 0).1 ≠ 0xFFFFFFFF then
          [(pciprobe M (pciread M t bus dev fn 0).2 bus dev fn).1]
        else []) := by
  have hscan := pci_scan_spec M s fun0 mem h
  have hcount : (pci_init M s fun0 mem).pci_count = (pci_scan M s fun0 mem).pci := rfl
  have hinfos : (pci_init M s fun0 mem).pci_infos = (pci_scan M s fun0 mem).pci_infos := rfl
  refine ⟨?_, ?_, ?_, ?_, ?_, ?_⟩
  · rw [hcount, hscan, after_pci]
    exact Nat.zero_add _
  · intro n hn
    rw [hinfos, hscan]
    have := write_list_get (scan_records M s fun0) mem 0 n hn
    rw [Nat.zero_add] at this
    exact this
  · intro n hn
    rw [hinfos, hscan]
    exact write_list_ge (scan_records M s fun0) mem 0 n (by omega)
  · rw [hscan, after_stop]
  · intro bus dev x
    constructor
    · rfl
    · unfold scan_sweep
      simp only
      split <;> rfl
  · intro bus dev fn t
    exact scan_fun_length M bus dev fn t

theorem pciread_scripted_nil (bus dev fn reg : Nat) :
    pciread scripted [] bus dev fn reg = (0xFFFFFFFF, []) := by
  rw [pciread_def]
  rfl

theorem scan_fun_nil (bus dev fn : Nat) : scan_fun scripted bus dev fn [] = ([], []) := by
  unfold scan_fun
  simp only [pciread_scripted_nil, ne_eq, not_true_eq_false, if_false]

theorem scan_funs_nil (bus dev : Nat) :
    ∀ fns : List Nat, scan_funs scripted bus dev fns [] = ([], []) := by
  intro fns
  induction fns with
  | nil => rfl
  | cons fn fns ih => rw [scan_funs_cons, scan_fun_nil, ih]; rfl


theorem scan_sweep_nil (bus dev fn : Nat) :
    scan_sweep scripted bus dev ([], fn) = ([], ([], 8)) := by
  have hc : (0xFFFFFFFF : Nat) &&& 0x00800000 ≠ 0 := by decide
  have h : scan_sweep scripted bus dev ([], fn) =
      if (pciread scripted [] bus dev fn 12).1 &&& 0x00800000 ≠ 0 then
        ((scan_funs scripted bus dev (List.range' 1 7) (pciread scripted [] bus dev fn 12).2).1,
          ((scan_funs scripted bus dev (List.range' 1 7) (pciread scripted [] bus dev fn 12).2).2, 8))
      else ([], ((pciread scripted [] bus dev fn 12).2, fn)) := rfl
  rw [h, pciread_scripted_nil, if_pos hc, scan_funs_nil]

theorem scan_device_nil (bus dev fn : Nat) :
    scan_device scripted bus dev ([], fn) = ([], ([], 8)) := by
  have h : scan_device scripted bus dev ([], fn) =
      ((scan_fun scripted bus dev 0 []).1 ++
          (scan_sweep scripted bus dev ((scan_fun scripted bus dev 0 []).2, fn)).1,
        (scan_sweep scripted bus dev ((scan_fun scripted bus dev 0 []).2, fn)).2) := rfl
  rw [h, scan_fun_nil, scan_sweep_nil]
  rfl

theorem scan_devices_nil :
    ∀ (l : List (Nat × Nat)) (fn : Nat), scan_devices scripted l ([], fn) = ([], ([], fn)) ∨
      scan_devices scripted l ([], fn) = ([], ([], 8)) := by
  intro l
  induction l with
  | nil => intro fn; exact Or.inl rfl
  | cons bd l ih =>
    intro fn
    rw [scan_devices_cons, scan_device_nil]
    rcases ih 8 with h | h
    · right; rw [h]; rfl
    · right; rw [h]; rfl
set_option maxRecDepth 100000 in
theorem scan_device_solo :
    scan_device scripted 0 0 (solo_script, 0) =
      ([{ pci_zero with
          vendor_id := 0x8086, device_id := 0x100E, class_code := 2, rev_id := 3,
          int_pin := 1, int_line := 11 }], ([], 0)) := by
  decide


theorem scan_devices_nil_records (l : List (Nat × Nat)) (fn : Nat) :
    (scan_devices scripted l ([], fn)).1 = [] := by
  rcases scan_devices_nil l fn with h | h <;> rw [h]

theorem scan_records_solo :
    scan_records scripted solo_script 0 =
      [{ pci_zero with
          vendor_id := 0x8086, device_id := 0x100E, class_code := 2, rev_id := 3,
          int_pin := 1, int_line := 11 }] := by
  have h0 : devices_from 0 256 =
      (List.range' 0 32).map (fun d => (0, d)) ++ devices_from 1 255 := devices_from_succ 0 255
  have h1 : (List.range' 0 32).map (fun d => ((0 : Nat), d)) =
      (0, 0) :: (List.range' 1 31).map (fun d => ((0 : Nat), d)) := rfl
  unfold scan_records
  rw [h0, h1, List.cons_append, scan_devices_cons, scan_device_solo]
  show _ ++ (scan_devices scripted _ ([], 0)).1 = _
  rw [scan_devices_nil_records]
  rfl

theorem scan_in_order_witness :
    (pci_init scripted solo_script 0 (fun _ => pci_zero)).pci_count = 1 :=
  (scan_in_order scripted solo_script 0 (fun _ => pci_zero)
    (by rw [scan_records_solo]; decide)).1.trans (by rw [scan_records_solo]; rfl)

/-! ## Probing twice -/

theorem Restoring.read_congr {σ : Type} {M : Ports σ} {E : σ → σ → Prop} (hM : Restoring M E)
    (s t : σ) (bus dev fn reg : Nat) (h : E s t) :
    E (pciread M s bus dev fn reg).2 (pciread M t bus dev fn reg).2 :=
  hM.trans _ _ _ (hM.read_st s bus dev fn reg)
    (hM.trans _ _ _ h (hM.symm _ _ (hM.read_st t bus dev fn reg)))

theorem same_refl {σ : Type} {M : Ports σ} {E : σ → σ → Prop} (hM : Restoring M E)
    (st : BarState σ) : st.same E st := ⟨rfl, rfl, hM.refl _⟩

/-- The decode step reads the same values from equal register contents. -/
theorem bar_decode_congr {σ : Type} {M : Ports σ} {E : σ → σ → Prop} (hM : Restoring M E)
    (bus dev fn : Nat) (st st' : BarState σ) (h : st.same E st') :
    (bar_decode M bus dev fn st).same E (bar_decode M bus dev fn st') := by
  obtain ⟨hi, hp, he⟩ := h
  have e1 := hM.read_val _ _ bus dev fn (0x10 + 4 * st.i) he
  have s1 := hM.read_congr _ _ bus dev fn (0x10 + 4 * st.i) he
  have s2 := hM.write_congr _ _ bus dev fn (0x10 + 4 * st.i) 0xffffffff s1
  have e3 := hM.read_val _ _ bus dev fn (0x10 + 4 * st.i) s2
  have s3 := hM.read_congr _ _ bus dev fn (0x10 + 4 * st.i) s2
  have s4 := hM.write_congr _ _ bus dev fn (0x10 + 4 * st.i)
    (load_base (store_base st.pci st.i (pciread M st.hw bus dev fn (0x10 + 4 * st.i)).1) st.i) s3
  unfold BarState.same bar_decode
  simp only [← hi, ← hp, ← e1, ← e3]
  exact ⟨trivial, trivial, s4⟩

theorem bar_cont_congr {σ : Type} {M : Ports σ} {E : σ → σ → Prop} (hM : Restoring M E)
    (bus dev fn : Nat) (st st' : BarState σ) (h : st.same E st') :
    (bar_cont M bus dev fn st).same E (bar_cont M bus dev fn st') := by
  obtain ⟨hi, hp, he⟩ := h
  have e1 := hM.read_val _ _ bus dev fn (0x10 + 4 * (st.i + 1)) he
  have s1 := hM.read_congr _ _ bus dev fn (0x10 + 4 * (st.i + 1)) he
  unfold BarState.same bar_cont
  simp only [← hi, ← hp, ← e1]
  exact ⟨trivial, trivial, s1⟩

theorem bar_body_congr {σ : Type} {M : Ports σ} {E : σ → σ → Prop} (hM : Restoring M E)
    (bus dev fn : Nat) (st st' : BarState σ) (h : st.same E st') :
    (bar_body M bus dev fn st).same E (bar_body M bus dev fn st') := by
  have hd := bar_decode_congr hM bus dev fn st st' h
  have hk : load_kind (bar_decode M bus dev fn st).pci st.i =
      load_kind (bar_decode M bus dev fn st').pci st'.i := by
    rw [hd.2.1, h.1]
  by_cases hf : load_kind (bar_decode M bus dev fn st).pci st.i &&& 6 = 2
  · rw [bar_body_flagged M bus dev fn st hf,
      bar_body_flagged M bus dev fn st' (by rw [← hk]; exact hf)]
    obtain ⟨c1, c2, c3⟩ := bar_cont_congr hM bus dev fn _ _ hd
    exact ⟨by show st.i + 2 = st'.i + 2; rw [h.1], c2, c3⟩
  · rw [bar_body_plain M bus dev fn st hf,
      bar_body_plain M bus dev fn st' (by rw [← hk]; exact hf)]
    exact ⟨by show st.i + 1 = st'.i + 1; rw [h.1], hd.2.1, hd.2.2⟩

theorem bar_loop_congr {σ : Type} {M : Ports σ} {E : σ → σ → Prop} (hM : Restoring M E)
    (bus dev fn : Nat) :
    ∀ (k : Nat) (st st' : BarState σ), st.same E st' →
      (bar_loop M bus dev fn k st).same E (bar_loop M bus dev fn k st') := by
  intro k
  induction k with
  | zero => intro st st' h; exact h
  | succ k ih =>
    intro st st' h
    by_cases hi : st.i < 6
    · rw [bar_loop_succ M bus dev fn k st hi,
        bar_loop_succ M bus dev fn k st' (by rw [← h.1]; exact hi)]
      exact ih _ _ (bar_body_congr hM bus dev fn st st' h)
    · rw [bar_loop_exit M bus dev fn _ st hi,
        bar_loop_exit M bus dev fn _ st' (by rw [← h.1]; exact hi)]
      exact h

/-- The decode step restores the register contents: the BAR is read, written
with all-ones, read, and written back with the value first read. -/
theorem bar_decode_neutral {σ : Type} {M : Ports σ} {E : σ → σ → Prop} (hM : Restoring M E)
    (bus dev fn : Nat) (st : BarState σ) (hwf : st.pci.wf) (hi : st.i < 6) :
    E (bar_decode M bus dev fn st).hw st.hw := by
  rw [bar_decode_hw M bus dev fn st hwf hi]
  have s1 := hM.read_st st.hw bus dev fn (0x10 + 4 * st.i)
  have s2 := hM.write_congr _ _ bus dev fn (0x10 + 4 * st.i) 0xffffffff s1
  have s3 := hM.trans _ _ _ (hM.read_st (pciwrite M (pciread M st.hw bus dev fn
    (0x10 + 4 * st.i)).2 bus dev fn (0x10 + 4 * st.i) 0xffffffff) bus dev fn (0x10 + 4 * st.i)) s2
  have s4 := hM.write_congr _ _ bus dev fn (0x10 + 4 * st.i)
    (pciread M st.hw bus dev fn (0x10 + 4 * st.i)).1 s3
  exact hM.trans _ _ _ s4 (hM.write_back st.hw bus dev fn (0x10 + 4 * st.i) 0xffffffff)

theorem bar_body_neutral {σ : Type} {M : Ports σ} {E : σ → σ → Prop} (hM : Restoring M E)
    (bus dev fn : Nat) (st : BarState σ) (hwf : st.pci.wf) (hi : st.i < 6) :
    E (bar_body M bus dev fn st).hw st.hw := by
  have hd := bar_decode_neutral hM bus dev fn st hwf hi
  by_cases hf : load_kind (bar_decode M bus dev fn st).pci st.i &&& 6 = 2
  · rw [bar_body_flagged M bus dev fn st hf]
    show E (bar_cont M bus dev fn (bar_decode M bus dev fn st)).hw st.hw
    rw [bar_cont_hw]
    exact hM.trans _ _ _ (hM.read_st _ bus dev fn _) hd
  · rw [bar_body_plain M bus dev fn st hf]
    exact hd

theorem bar_loop_neutral {σ : Type} {M : Ports σ} {E : σ → σ → Prop} (hM : Restoring M E)
    (bus dev fn : Nat) :
    ∀ (k : Nat) (st : BarState σ), st.pci.wf → E (bar_loop M bus dev fn k st).hw st.hw := by
  intro k
  induction k with
  | zero => intro st _; exact hM.refl _
  | succ k ih =>
    intro st hwf
    by_cases hi : st.i < 6
    · rw [bar_loop_succ M bus dev fn k st hi]
      exact hM.trans _ _ _ (ih _ (bar_body_wf M bus dev fn st hwf hi))
        (bar_body_neutral hM bus dev fn st hwf hi)
    · rw [bar_loop_exit M bus dev fn _ st hi]
      exact hM.refl _

theorem probe_ident_congr {σ : Type} {M : Ports σ} {E : σ → σ → Prop} (hM : Restoring M E)
    (bus dev fn : Nat) (s t : σ) (h : E s t) :
    (probe_ident M s bus dev fn).1 = (probe_ident M t bus dev fn).1 ∧
    E (probe_ident M s bus dev fn).2 (probe_ident M t bus dev fn).2 := by
  have e0 := hM.read_val _ _ bus dev fn 0x00 h
  have s0 := hM.read_congr _ _ bus dev fn 0x00 h
  have e8 := hM.read_val _ _ bus dev fn 0x08 s0
  have s8 := hM.read_congr _ _ bus dev fn 0x08 s0
  have ec := hM.read_val _ _ bus dev fn 0x0c s8
  have sc := hM.read_congr _ _ bus dev fn 0x0c s8
  unfold probe_ident
  simp only [← e0, ← e8, ← ec]
  exact ⟨trivial, sc⟩

theorem probe_ident_neutral {σ : Type} {M : Ports σ} {E : σ → σ → Prop} (hM : Restoring M E)
    (bus dev fn : Nat) (s : σ) : E (probe_ident M s bus dev fn).2 s := by
  have s0 := hM.read_st s bus dev fn 0x00
  have s8 := hM.trans _ _ _ (hM.read_st (pciread M s bus dev fn 0x00).2 bus dev fn 0x08) s0
  exact hM.trans _ _ _ (hM.read_st (pciread M (pciread M s bus dev fn 0x00).2 bus dev fn 0x08).2
    bus dev fn 0x0c) s8

theorem probe_device_congr {σ : Type} {M : Ports σ} {E : σ → σ → Prop} (hM : Restoring M E)
    (bus dev fn : Nat) (p : pci_info) (s t : σ) (h : E s t) :
    (probe_device M s bus dev fn p).1 = (probe_device M t bus dev fn p).1 ∧
    E (probe_device M s bus dev fn p).2 (probe_device M t bus dev fn p).2 := by
  have e4 := hM.read_val _ _ bus dev fn 0x04 h
  have s4 := hM.read_congr _ _ bus dev fn 0x04 h
  have s5 := hM.write_congr _ _ bus dev fn 0x04 0 s4
  have hent : (bar_entry M s bus dev fn p).same E (bar_entry M t bus dev fn p) :=
    ⟨rfl, rfl, s5⟩
  obtain ⟨_, lp, lh⟩ := bar_loop_congr hM bus dev fn 6 _ _ hent
  have s6 := hM.write_congr _ _ bus dev fn 0x04 (pciread M s bus dev fn 0x04).1 lh
  have e3c := hM.read_val _ _ bus dev fn 0x3c s6
  have s3c := hM.read_congr _ _ bus dev fn 0x3c s6
  unfold probe_device
  simp only [← e4, ← lp, ← e3c]
  exact ⟨trivial, s3c⟩

/-- A header-type-0 probe restores the register contents: the command
register is written back with the value read before it was cleared, after
the decode loop has restored every BAR it sized. -/
theorem probe_device_neutral {σ : Type} {M : Ports σ} {E : σ → σ → Prop} (hM : Restoring M E)
    (bus dev fn : Nat) (p : pci_info) (hwf : p.wf) (s : σ) :
    E (probe_device M s bus dev fn p).2 s := by
  have s4 := hM.read_st s bus dev fn 0x04
  have s5 := hM.write_congr _ _ bus dev fn 0x04 0 s4
  have hl : E (bar_loop M bus dev fn 6 (bar_entry M s bus dev fn p)).hw
      (pciwrite M s bus dev fn 0x04 0) :=
    hM.trans _ _ _ (bar_loop_neutral hM bus dev fn 6 (bar_entry M s bus dev fn p) hwf) s5
  have s6 := hM.write_congr _ _ bus dev fn 0x04 (pciread M s bus dev fn 0x04).1 hl
  have s7 := hM.trans _ _ _ s6 (hM.write_back s bus dev fn 0x04 0)
  exact hM.trans _ _ _ (hM.read_st _ bus dev fn 0x3c) s7

theorem pciprobe_congr {σ : Type} {M : Ports σ} {E : σ → σ → Prop} (hM : Restoring M E)
    (bus dev fn : Nat) (s t : σ) (h : E s t) :
    (pciprobe M s bus dev fn).1 = (pciprobe M t bus dev fn).1 ∧
    E (pciprobe M s bus dev fn).2 (pciprobe M t bus dev fn).2 := by
  obtain ⟨hp, he⟩ := probe_ident_congr hM bus dev fn s t h
  by_cases hz : (probe_ident M s bus dev fn).1.header_type &&& 0x7F = 0
  · rw [pciprobe_device M s bus dev fn hz, pciprobe_device M t bus dev fn (by rw [← hp]; exact hz),
      ← hp]
    exact probe_device_congr hM bus dev fn _ _ _ he
  · rw [pciprobe_other M s bus dev fn hz, pciprobe_other M t bus dev fn (by rw [← hp]; exact hz)]
    exact ⟨hp, he⟩

theorem pciprobe_neutral {σ : Type} {M : Ports σ} {E : σ → σ → Prop} (hM : Restoring M E)
    (bus dev fn : Nat) (s : σ) : E (pciprobe M s bus dev fn).2 s := by
  have hi := probe_ident_neutral hM bus dev fn s
  by_cases hz : (probe_ident M s bus dev fn).1.header_type &&& 0x7F = 0
  · rw [pciprobe_device M s bus dev fn hz]
    exact hM.trans _ _ _
      (probe_device_neutral hM bus dev fn _ (probe_ident_arrays M s bus dev fn).1 _) hi
  · rw [pciprobe_other M s bus dev fn hz]
    exact hi

/-- C10: on hardware where writing back to a register the value read from it
restores what the register reads, `pciprobe` of a function (of header type 0
in particular, the only one for which it writes) leaves the register contents
as it found them: the command register 0x04 and every BAR register read as
before the probe, and a second probe right after the first yields the same
record, so the same `base`, `size` and `kind` for all six slots. -/
theorem probe_idempotent {σ : Type} (M : Ports σ) (E : σ → σ → Prop) (hM : Restoring M E)
    (s : σ) (bus dev fn : Nat) :
    E (pciprobe M s bus dev fn).2 s ∧
    (pciread M (pciprobe M s bus dev fn).2 bus dev fn 0x04).1 =
      (pciread M s bus dev fn 0x04).1 ∧
    (∀ i, i < 6 → (pciread M (pciprobe M s bus dev fn).2 bus dev fn (0x10 + 4 * i)).1 =
      (pciread M s bus dev fn (0x10 + 4 * i)).1) ∧
    (pciprobe M (pciprobe M s bus dev fn).2 bus dev fn).1 = (pciprobe M s bus dev fn).1 ∧
    (∀ i, i < 6 →
      load_base (pciprobe M (pciprobe M s bus dev fn).2 bus dev fn).1 i =
        load_base (pciprobe M s bus dev fn).1 i ∧
      load_size (pciprobe M (pciprobe M s bus dev fn).2 bus dev fn).1 i =
        load_size (pciprobe M s bus dev fn).1 i ∧
      load_kind (pciprobe M (pciprobe M s bus dev fn).2 bus dev fn).1 i =
        load_kind (pciprobe M s bus dev fn).1 i) := by
  have hn := pciprobe_neutral hM bus dev fn s
  have hrec := (pciprobe_congr hM bus dev fn _ _ hn).1
  refine ⟨hn, hM.read_val _ _ bus dev fn 0x04 hn,
    fun i _ => hM.read_val _ _ bus dev fn (0x10 + 4 * i) hn, hrec, ?_⟩
  intro i _
  rw [hrec]
  exact ⟨rfl, rfl, rfl⟩

/-! ## The register file restores on write-back -/

theorem regfile_idem (v m r : Nat) :
    u32 ((u32 (u32 ((v &&& m) ||| r)) &&& m) ||| r) = u32 ((v &&& m) ||| r) := by
  have h32 : (4294967296 : Nat) = 2 ^ 32 := by norm_num
  unfold u32
  rw [h32]
  apply Nat.eq_of_testBit_eq
  intro i
  simp only [Nat.testBit_mod_two_pow, Nat.testBit_or, Nat.testBit_and]
  by_cases h : i < 32
  · simp only [h, decide_True, Bool.true_and]
    cases v.testBit i <;> cases m.testBit i <;> cases r.testBit i <;> rfl
  · simp only [h, decide_False, Bool.false_and]

theorem pciread_regfile (mask ro : Nat → Nat) (s : Nat × (Nat → Nat)) (bus dev fn reg : Nat) :
    pciread (regfile mask ro) s bus dev fn reg =
      (u32 (u32 ((s.2 (cfg_addr bus dev fn reg) &&& mask (cfg_addr bus dev fn reg)) |||
          ro (cfg_addr bus dev fn reg))), (cfg_addr bus dev fn reg, s.2)) := by
  rw [pciread_def]
  simp only [regfile, if_true]

theorem pciwrite_regfile (mask ro : Nat → Nat) (s : Nat × (Nat → Nat))
    (bus dev fn reg v : Nat) :
    pciwrite (regfile mask ro) s bus dev fn reg v =
      (cfg_addr bus dev fn reg, Function.update s.2 (cfg_addr bus dev fn reg) v) := by
  have h1 : ¬ DATA = ADDR := by decide
  rw [pciwrite_def]
  simp only [regfile, if_true, h1, if_false]

/-- The register file is hardware that restores on write-back. -/
theorem regfile_restoring (mask ro : Nat → Nat) :
    Restoring (regfile mask ro) (regfile_same mask ro) where
  refl := fun s a => rfl
  symm := fun s t h a => (h a).symm
  trans := fun s t u h1 h2 a => (h1 a).trans (h2 a)
  read_val := by
    intro s t bus dev fn reg h
    rw [pciread_regfile, pciread_regfile]
    show u32 (u32 _) = u32 (u32 _)
    rw [h (cfg_addr bus dev fn reg)]
  read_st := by
    intro s bus dev fn reg a
    rw [pciread_regfile]
  write_congr := by
    intro s t bus dev fn reg v h a
    rw [pciwrite_regfile, pciwrite_regfile]
    by_cases ha : a = cfg_addr bus dev fn reg
    · subst ha
      simp only [Function.update_same]
    · simp only [Function.update_noteq ha]
      exact h a
  write_back := by
    intro s bus dev fn reg x a
    rw [pciwrite_regfile, pciwrite_regfile, pciread_regfile]
    by_cases ha : a = cfg_addr bus dev fn reg
    · subst ha
      simp only [Function.update_same]
      exact regfile_idem _ _ _
    · simp only [Function.update_noteq ha]

theorem probe_idempotent_witness :
    (pciprobe (regfile e1000_mask e1000_ro)
      (pciprobe (regfile e1000_mask e1000_ro) (0, e1000_regs) 0 3 0).2 0 3 0).1 =
      (pciprobe (regfile e1000_mask e1000_ro) (0, e1000_regs) 0 3 0).1 :=
  (probe_idempotent (regfile e1000_mask e1000_ro) (regfile_same e1000_mask e1000_ro)
    (regfile_restoring e1000_mask e1000_ro) (0, e1000_regs) 0 3 0).2.2.2.1

/-! ## What the record keeps of a slot decoded in its own right -/

/-- The decode step of a pass at slot `i < 6`: with `raw` the operational value
and `n` the sizing readback of register `0x10 + 4*i`, it stores
`kind[i] = raw & 0xF`, `base[i] = raw & 0xFFFC` and `size[i] = io_size n` when
bit 0 of `raw` is set, `base[i] = raw & 0xFFFFFFF0` and `size[i] = mem_size n`
otherwise; the choice depends on `raw` only. -/
theorem decode_step_law {σ : Type} (M : Ports σ) (bus dev fn : Nat) (st : BarState σ)
    (raw n : Nat) (hwf : st.pci.wf) (hi : st.i < 6)
    (hraw : raw = (pciread M st.hw bus dev fn (0x10 + 4 * st.i)).1)
    (hn : n = (pciread M (pciwrite M (pciread M st.hw bus dev fn (0x10 + 4 * st.i)).2
      bus dev fn (0x10 + 4 * st.i) 0xffffffff) bus dev fn (0x10 + 4 * st.i)).1) :
    load_kind (bar_decode M bus dev fn st).pci st.i = raw &&& 0xF ∧
    (raw &&& 1 ≠ 0 →
      load_base (bar_decode M bus dev fn st).pci st.i = raw &&& 0xFFFC ∧
      load_size (bar_decode M bus dev fn st).pci st.i = io_size n) ∧
    (raw &&& 1 = 0 →
      load_base (bar_decode M bus dev fn st).pci st.i = raw &&& 0xFFFFFFF0 ∧
      load_size (bar_decode M bus dev fn st).pci st.i = mem_size n) := by
  obtain ⟨_, hk, hb, hs⟩ := bar_decode_pci M bus dev fn st hwf hi st.i
  simp only [if_true] at hk hb hs
  rw [← hraw] at hk hb hs
  rw [← hn] at hs
  refine ⟨hk, ?_, ?_⟩
  · intro h
    rw [if_pos h] at hb hs
    exact ⟨hb, hs⟩
  · intro h
    have h' : ¬ raw &&& 1 ≠ 0 := fun c => c h
    rw [if_neg h'] at hb hs
    exact ⟨hb, hs⟩

theorem decode_step_law_witness :
    load_kind (bar_decode scripted 0 3 0
      { i := 0, hw := [0xFEBC0004, 0xFFFF0000], pci := pci_zero }).pci 0 = 0xFEBC0004 &&& 0xF :=
  (decode_step_law scripted 0 3 0 { i := 0, hw := [0xFEBC0004, 0xFFFF0000], pci := pci_zero }
    0xFEBC0004 0xFFFF0000 pci_zero_wf (by decide) (by decide) (by decide)).1

/-- The decode loop of a probe runs to its exit test: six passes are enough,
and the loop variable ends as 6 or 7. -/
theorem decode_loop_exits {σ : Type} (M : Ports σ) (s : σ) (bus dev fn : Nat) (p : pci_info) :
    6 ≤ (bar_loop M bus dev fn 6 (bar_entry M s bus dev fn p)).i ∧
    (bar_loop M bus dev fn 6 (bar_entry M s bus dev fn p)).i ≤ 7 :=
  bar_loop_terminates M bus dev fn 6 (bar_entry M s bus dev fn p) (by
    show 6 - 0 ≤ 6
    omega) (by
    show 0 ≤ 7
    omega)

/-- What the record of a header-type-0 probe keeps of a slot `i` decoded in its
own right (a pass of the decode loop starts at `i`): `base[i]` always;
`size[i]` unless `i = 0`; `kind[i]`, unless `i < 4` and it has been cleared. -/
theorem own_slot_in_record {σ : Type} (M : Ports σ) (s : σ) (bus dev fn : Nat)
    (st : BarState σ) (raw n : Nat)
    (hz : (pciprobe M s bus dev fn).1.header_type &&& 0x7F = 0)
    (hst : st ∈ bar_iters M bus dev fn 6
      (bar_entry M (probe_ident M s bus dev fn).2 bus dev fn (probe_ident M s bus dev fn).1))
    (hraw : raw = (pciread M st.hw bus dev fn (0x10 + 4 * st.i)).1)
    (hn : n = (pciread M (pciwrite M (pciread M st.hw bus dev fn (0x10 + 4 * st.i)).2
      bus dev fn (0x10 + 4 * st.i) 0xffffffff) bus dev fn (0x10 + 4 * st.i)).1) :
    load_base (pciprobe M s bus dev fn).1 st.i =
      (if raw &&& 1 ≠ 0 then raw &&& 0xFFFC else raw &&& 0xFFFFFFF0) ∧
    (st.i ≠ 0 → load_size (pciprobe M s bus dev fn).1 st.i =
      (if raw &&& 1 ≠ 0 then io_size n else mem_size n)) ∧
    (load_kind (pciprobe M s bus dev fn).1 st.i = raw &&& 0xF ∨
      (st.i < 4 ∧ load_kind (pciprobe M s bus dev fn).1 st.i = 0)) := by
  have hz' : (probe_ident M s bus dev fn).1.header_type &&& 0x7F = 0 := by
    rw [← (pciprobe_ident_fields M s bus dev fn).2.2.1]; exact hz
  have hewf : (bar_entry M (probe_ident M s bus dev fn).2 bus dev fn
      (probe_ident M s bus dev fn).1).pci.wf := (probe_ident_arrays M s bus dev fn).1
  obtain ⟨k', pre, _, _, e3, _, e5, e6⟩ := bar_iters_split M bus dev fn 6 _ st hst
  have hwf := e6 hewf
  obtain ⟨dwf, hk, hb, hs⟩ := bar_decode_pci M bus dev fn st hwf e5 st.i
  simp only [if_true] at hk hb hs
  rw [← hraw] at hk hb hs
  rw [← hn] at hs
  -- the rest of the pass leaves slot `i` alone
  have hbody : load_base (bar_body M bus dev fn st).pci st.i =
        load_base (bar_decode M bus dev fn st).pci st.i ∧
      (st.i ≠ 0 → load_size (bar_body M bus dev fn st).pci st.i =
        load_size (bar_decode M bus dev fn st).pci st.i) ∧
      load_kind (bar_body M bus dev fn st).pci st.i =
        load_kind (bar_decode M bus dev fn st).pci st.i := by
    by_cases hf : load_kind (bar_decode M bus dev fn st).pci st.i &&& 6 = 2
    · rw [bar_body_flagged M bus dev fn st hf]
      show load_base (bar_cont M bus dev fn (bar_decode M bus dev fn st)).pci st.i = _ ∧
        (st.i ≠ 0 → load_size (bar_cont M bus dev fn (bar_decode M bus dev fn st)).pci st.i = _) ∧
        load_kind (bar_cont M bus dev fn (bar_decode M bus dev fn st)).pci st.i = _
      by_cases h5 : st.i = 5
      · obtain ⟨cb, cs, ck⟩ := bar_cont_pci_six M bus dev fn (bar_decode M bus dev fn st) dwf
          (by rw [bar_decode_i]; exact h5) st.i
        have h4 : ¬ st.i < 4 := by omega
        refine ⟨cb, fun h0 => by rw [cs, if_neg h0], by rw [ck, if_neg h4]⟩
      · obtain ⟨cb, cs, ck⟩ := bar_cont_pci_lt M bus dev fn (bar_decode M bus dev fn st) dwf
          (by rw [bar_decode_i]; omega) st.i
        have hne : ¬ st.i = (bar_decode M bus dev fn st).i + 1 := by rw [bar_decode_i]; omega
        simp only [hne, if_false] at cb cs ck
        exact ⟨cb, fun _ => cs, ck⟩
    · rw [bar_body_plain M bus dev fn st hf]
      exact ⟨rfl, fun _ => rfl, rfl⟩
  obtain ⟨_, _, hfr⟩ := bar_loop_frame M bus dev fn k' (bar_body M bus dev fn st)
    (bar_body_wf M bus dev fn st hwf e5)
  obtain ⟨f1, f2, f3⟩ := hfr st.i (bar_body_i M bus dev fn st).1
  obtain ⟨l1, l2, l3⟩ := probe_device_loads M (probe_ident M s bus dev fn).2 bus dev fn
    (probe_ident M s bus dev fn).1 st.i
  rw [e3] at l1 l2 l3
  rw [pciprobe_device M s bus dev fn hz']
  refine ⟨by rw [l1, f1, hbody.1, hb], fun h0 => by rw [l2, f2 h0, hbody.2.1 h0, hs], ?_⟩
  rcases f3 with f3 | f3
  · left
    rw [l3, f3, hbody.2.2, hk]
  · right
    exact ⟨f3.1, by rw [l3]; exact f3.2⟩

set_option maxRecDepth 100000 in
theorem own_slot_in_record_witness :
    load_base (pciprobe scripted (overrun_script 0x0000C001 0xFFFFFFE1) 0 3 0).1 0 = 0xC000 :=
  (own_slot_in_record scripted (overrun_script 0x0000C001 0xFFFFFFE1) 0 3 0
    (bar_entry scripted (probe_ident scripted (overrun_script 0x0000C001 0xFFFFFFE1) 0 3 0).2
      0 3 0 (probe_ident scripted (overrun_script 0x0000C001 0xFFFFFFE1) 0 3 0).1)
    0x0000C001 0xFFFFFFE1 (by decide) (List.mem_cons_self _ _) (by decide) (by decide)).1.trans
    (by decide)

end PCI
